import Mathlib

/-!
# PresentMon: introspection clone protocol and frame-event query compiler

A shallow embedding of

* `IntelPresentMon/Interprocess/source/IntrospectionTransfer.h`
  (`GetPadding`, `ProbeAllocator`, `BlockAllocator` and the `ApiClone` family), and
* `IntelPresentMon/PresentMonMiddleware/source/FrameEventQuery.cpp`
  (`PM_FRAME_EVENT_QUERY`),

followed by the properties established about them.

Conventions.  `size_t` values are natural numbers reduced modulo `2 ^ 64` at every
arithmetic step of the source; `uint32_t`, `uint16_t` and `uint8_t` values are reduced
modulo `2 ^ 32`, `2 ^ 16` and `2 ^ 8`.  A pointer is an address (a natural number), the null
pointer is address `0`.  Stateful code is written in state-passing style.
-/

namespace pmon

/-! ## Memory -/

/-- One object that the clone protocol constructs in destination memory.  The constructors
are the API structures (named as the `ApiType` of each node), a `PM_STAT` value, one
`void*` slot of a pointer array and one `char`.  Pointer fields hold addresses. -/
inductive Cell where
  | PM_INTROSPECTION_STRING (pData : Nat)
  | PM_INTROSPECTION_OBJARRAY (pData : Nat) (size : Nat)
  | PM_INTROSPECTION_ENUM_KEY (enumId : Int) (value : Int)
      (pSymbol pName pShortName pDescription : Nat)
  | PM_INTROSPECTION_ENUM (id : Int) (pSymbol pDescription pKeys : Nat)
  | PM_INTROSPECTION_DEVICE (id : Nat) (type : Int) (vendor : Int) (pName : Nat)
  | PM_INTROSPECTION_DEVICE_METRIC_INFO (deviceId : Nat) (availability : Int) (arraySize : Nat)
  | PM_INTROSPECTION_DATA_TYPE_INFO (type : Int) (enumId : Int)
  | PM_INTROSPECTION_METRIC (id : Int) (type : Int) (unit : Int)
      (pTypeInfo pStats pDeviceMetricInfo : Nat)
  | PM_INTROSPECTION_ROOT (pMetrics pEnums pDevices : Nat)
  | PM_STAT (value : Int)
  | voidPtr (p : Nat)
  | char (c : Nat)
  deriving DecidableEq, Repr

/-- Byte-addressed memory.  The byte at an address is either untouched (`none`) or it is
byte number `k` of an object `c` (`some (c, k)`), so that an object partly overwritten by a
later, overlapping store can no longer be read back. -/
abbrev Mem := Nat → Option (Cell × Nat)

/-- Store an object `c` occupying `sz` bytes at address `a`. -/
def Mem.store (m : Mem) (a sz : Nat) (c : Cell) : Mem :=
  fun x => if a ≤ x ∧ x < a + sz then some (c, x - a) else m x

/-- Bytes `a + k .. a + sz - 1` of memory are bytes `k .. sz - 1` of the object `c`;
`n` counts the bytes still to be checked. -/
def Mem.holds (m : Mem) (a : Nat) (c : Cell) : Nat → Nat → Bool
  | _, 0 => true
  | k, n + 1 => decide (m (a + k) = some (c, k)) && Mem.holds m a c (k + 1) n

/-- Read the object of `sz` bytes that starts at address `a`: the object found in the first
byte, provided that all `sz` bytes still belong to it. -/
def Mem.load (m : Mem) (a sz : Nat) : Option Cell :=
  match m a with
  | some (c, 0) => if Mem.holds m a c 0 sz then some c else none
  | _ => none

/-- Store the characters `bs` one byte each from address `a` on. -/
def Mem.storeChars (m : Mem) (a : Nat) : List Nat → Mem
  | [] => m
  | b :: bs => Mem.storeChars (m.store a 1 (Cell.char b)) (a + 1) bs

/-! ## Allocators (`IntrospectionTransfer.h`) -/

namespace ipc.intro

/-- `sizeof` and `alignof` of a C++ type. -/
structure TypeLayout where
  size : Nat
  align : Nat
  deriving DecidableEq, Repr

/-- `sizeof`/`alignof` of the element types that `ApiClone` allocates.  The API structures
are declared in `PresentMonAPI.h`, which is not among the sources, so their layout is a
parameter of the development. -/
structure ApiLayout where
  PM_INTROSPECTION_STRING : TypeLayout
  PM_INTROSPECTION_OBJARRAY : TypeLayout
  PM_INTROSPECTION_ENUM_KEY : TypeLayout
  PM_INTROSPECTION_ENUM : TypeLayout
  PM_INTROSPECTION_DEVICE : TypeLayout
  PM_INTROSPECTION_DEVICE_METRIC_INFO : TypeLayout
  PM_INTROSPECTION_DATA_TYPE_INFO : TypeLayout
  PM_INTROSPECTION_METRIC : TypeLayout
  PM_INTROSPECTION_ROOT : TypeLayout
  PM_STAT : TypeLayout
  voidPtr : TypeLayout
  deriving DecidableEq, Repr

/-- `sizeof(char) = alignof(char) = 1`. -/
def charLayout : TypeLayout := ⟨1, 1⟩

/-- The layout of the API types on x64 (8-byte pointers and `size_t`, 4-byte enums). -/
def x64Layout : ApiLayout where
  PM_INTROSPECTION_STRING := ⟨8, 8⟩
  PM_INTROSPECTION_OBJARRAY := ⟨16, 8⟩
  PM_INTROSPECTION_ENUM_KEY := ⟨40, 8⟩
  PM_INTROSPECTION_ENUM := ⟨32, 8⟩
  PM_INTROSPECTION_DEVICE := ⟨24, 8⟩
  PM_INTROSPECTION_DEVICE_METRIC_INFO := ⟨12, 4⟩
  PM_INTROSPECTION_DATA_TYPE_INFO := ⟨8, 4⟩
  PM_INTROSPECTION_METRIC := ⟨40, 8⟩
  PM_INTROSPECTION_ROOT := ⟨24, 8⟩
  PM_STAT := ⟨4, 4⟩
  voidPtr := ⟨8, 8⟩

/-- `GetPadding<T>(byteIndex)` with `alignment = alignof(T)`. -/
def GetPadding (alignment : Nat) (byteIndex : Nat) : Nat :=
  let partialBytes := byteIndex % alignment
  let padding := (alignment - partialBytes) % alignment
  padding

/-- One call of `allocate`, as observed from outside: the element type's size and alignment,
the element count, and the pointer that was returned. -/
structure AllocCall where
  elemSize : Nat
  elemAlign : Nat
  count : Nat
  result : Nat
  deriving DecidableEq, Repr

/-- The request part of a call: element size, element alignment, count. -/
def AllocCall.request (c : AllocCall) : Nat × Nat × Nat := (c.elemSize, c.elemAlign, c.count)

/-- The state that a clone pass runs over: the counter `*pTotalSize` shared by all rebound
copies of the allocator, the destination memory, and (ghost) the `allocate` calls so far. -/
structure Heap where
  totalSize : Nat
  mem : Mem
  calls : List AllocCall

/-- The state of a freshly made allocator over memory `m`. -/
def Heap.fresh (m : Mem) : Heap := ⟨0, m, []⟩

/-- The two allocator families a clone is run with.  `BlockAllocator pBytes` carries the
address of its buffer. -/
inductive Allocator where
  | ProbeAllocator
  | BlockAllocator (pBytes : Nat)
  deriving DecidableEq, Repr

/-- `ProbeAllocator<T>::allocate(count)` and `BlockAllocator<T>::allocate(count)`. -/
def Allocator.allocate (V : Allocator) (T : TypeLayout) (count : Nat) (h : Heap) : Nat × Heap :=
  match V with
  | .ProbeAllocator =>
    -- *pTotalSize += sizeof(T) * count + GetPadding<T>(*pTotalSize); return nullptr;
    let total := (h.totalSize +
      (T.size * count % 2 ^ 64 + GetPadding T.align h.totalSize) % 2 ^ 64) % 2 ^ 64
    (0, { h with totalSize := total, calls := h.calls ++ [⟨T.size, T.align, count, 0⟩] })
  | .BlockAllocator pBytes =>
    -- *pTotalSize += GetPadding<T>(*pTotalSize);
    let padded := (h.totalSize + GetPadding T.align h.totalSize) % 2 ^ 64
    -- const auto pStart = reinterpret_cast<T*>(pBytes + *pTotalSize);
    let pStart := (pBytes + padded) % 2 ^ 64
    -- *pTotalSize += sizeof(T) * count;
    let total := (padded + T.size * count % 2 ^ 64) % 2 ^ 64
    (pStart, { h with totalSize := total, calls := h.calls ++ [⟨T.size, T.align, count, pStart⟩] })

/-- `ProbeAllocator::GetTotalSize`: the value of the shared counter. -/
def Heap.GetTotalSize (h : Heap) : Nat := h.totalSize

/-- `std::allocator_traits<A>::construct(alloc, p, content)`: copy-construct `content` into
the `sizeof(T)` bytes at `p`. -/
def Heap.construct (h : Heap) (p : Nat) (T : TypeLayout) (content : Cell) : Heap :=
  { h with mem := h.mem.store p T.size content }

/-- `strcpy_s(dest, destsz, src)` for `src = buffer_.c_str()`: the characters of the source
up to its first zero character, then the terminating zero.  (`destsz` is `buffer_.size() + 1`,
never too small for that.) -/
def Heap.strcpy_s (h : Heap) (dest : Nat) (src : List Nat) : Heap :=
  { h with mem := h.mem.storeChars dest (src.takeWhile (fun c => c != 0) ++ [0]) }

/-! ## Metadata tree and `ApiClone` -/

structure IntrospectionString where
  buffer_ : List Nat
  deriving DecidableEq, Repr

structure IntrospectionObjArray (T : Type) where
  buffer_ : List T
  deriving DecidableEq, Repr

structure IntrospectionEnumKey where
  enumId_ : Int
  value_ : Int
  symbol_ : IntrospectionString
  name_ : IntrospectionString
  shortName_ : IntrospectionString
  description_ : IntrospectionString
  deriving DecidableEq, Repr

structure IntrospectionEnum where
  id_ : Int
  symbol_ : IntrospectionString
  description_ : IntrospectionString
  keys_ : IntrospectionObjArray IntrospectionEnumKey
  deriving DecidableEq, Repr

structure IntrospectionDevice where
  id_ : Nat
  type_ : Int
  vendor_ : Int
  name_ : IntrospectionString
  deriving DecidableEq, Repr

structure IntrospectionDeviceMetricInfo where
  deviceId_ : Nat
  availability_ : Int
  arraySize_ : Nat
  deriving DecidableEq, Repr

structure IntrospectionDataTypeInfo where
  type_ : Int
  enumId_ : Int
  deriving DecidableEq, Repr

structure IntrospectionMetric where
  id_ : Int
  type_ : Int
  unit_ : Int
  pTypeInfo_ : IntrospectionDataTypeInfo
  stats_ : IntrospectionObjArray Int
  deviceMetricInfo_ : IntrospectionObjArray IntrospectionDeviceMetricInfo
  deriving DecidableEq, Repr

structure IntrospectionRoot where
  metrics_ : IntrospectionObjArray IntrospectionMetric
  enums_ : IntrospectionObjArray IntrospectionEnum
  devices_ : IntrospectionObjArray IntrospectionDevice
  deriving DecidableEq, Repr

/-- `IntrospectionString::ApiClone`. -/
def IntrospectionString.ApiClone (L : ApiLayout) (voidAlloc : Allocator)
    (self : IntrospectionString) (h : Heap) : Nat × Heap :=
  -- auto pSelf = alloc.allocate(1);
  let a := voidAlloc.allocate L.PM_INTROSPECTION_STRING 1 h
  -- const auto bufferSize = buffer_.size() + 1;
  let bufferSize := self.buffer_.length + 1
  -- content.pData = charAlloc.allocate(bufferSize);
  let d := voidAlloc.allocate charLayout bufferSize a.2
  -- if (content.pData) strcpy_s(content.pData, bufferSize, buffer_.c_str());
  let h1 := if d.1 ≠ 0 then d.2.strcpy_s d.1 self.buffer_ else d.2
  -- if (pSelf) construct(alloc, pSelf, content);
  let h2 := if a.1 ≠ 0 then
    h1.construct a.1 L.PM_INTROSPECTION_STRING (Cell.PM_INTROSPECTION_STRING d.1) else h1
  (a.1, h2)

/-- The element branch of `IntrospectionObjArray<T>::ApiClone` for a `T` that is not
`IsApiClonable` (here `PM_STAT`): allocate one `T` and copy-construct the element into it. -/
def cloneNonApiClonable (L : ApiLayout) (voidAlloc : Allocator) (stat : Int) (h : Heap) :
    Nat × Heap :=
  -- auto pNonApiClonableElement = tAlloc.allocate(1);
  let a := voidAlloc.allocate L.PM_STAT 1 h
  -- if (pNonApiClonableElement) construct(tAlloc, pNonApiClonableElement, *buffer_[i]);
  let h1 := if a.1 ≠ 0 then a.2.construct a.1 L.PM_STAT (Cell.PM_STAT stat) else a.2
  (a.1, h1)

/-- The loop of `IntrospectionObjArray<T>::ApiClone` from index `i` on, over the remaining
elements: clone the element, then store its pointer in slot `i` when `content.pData` is not
null. -/
def IntrospectionObjArray.cloneElements {T : Type} (L : ApiLayout)
    (cloneElement : T → Heap → Nat × Heap) (pData : Nat) : List T → Nat → Heap → Heap
  | [], _, h => h
  | x :: xs, i, h =>
    let e := cloneElement x h
    -- if (content.pData) content.pData[i] = pElement;
    let h1 := if pData ≠ 0 then
      e.2.construct (pData + i * L.voidPtr.size) L.voidPtr (Cell.voidPtr e.1) else e.2
    IntrospectionObjArray.cloneElements L cloneElement pData xs (i + 1) h1

/-- `IntrospectionObjArray<T>::ApiClone`; `cloneElement` is `T::ApiClone` when `T` is
`IsApiClonable` and `cloneNonApiClonable` otherwise. -/
def IntrospectionObjArray.ApiClone {T : Type} (L : ApiLayout)
    (cloneElement : T → Heap → Nat × Heap) (voidAlloc : Allocator)
    (self : IntrospectionObjArray T) (h : Heap) : Nat × Heap :=
  -- auto pSelf = alloc.allocate(1);
  let a := voidAlloc.allocate L.PM_INTROSPECTION_OBJARRAY 1 h
  -- content.size = buffer_.size();
  let size := self.buffer_.length
  -- content.pData = voidPtrAlloc.allocate(content.size);
  let d := voidAlloc.allocate L.voidPtr size a.2
  let h1 := IntrospectionObjArray.cloneElements L cloneElement d.1 self.buffer_ 0 d.2
  -- if (pSelf) construct(alloc, pSelf, content);
  let h2 := if a.1 ≠ 0 then
    h1.construct a.1 L.PM_INTROSPECTION_OBJARRAY (Cell.PM_INTROSPECTION_OBJARRAY d.1 size)
    else h1
  (a.1, h2)

/-- `IntrospectionEnumKey::ApiClone`. -/
def IntrospectionEnumKey.ApiClone (L : ApiLayout) (voidAlloc : Allocator)
    (self : IntrospectionEnumKey) (h : Heap) : Nat × Heap :=
  let a := voidAlloc.allocate L.PM_INTROSPECTION_ENUM_KEY 1 h
  let s := self.symbol_.ApiClone L voidAlloc a.2
  let n := self.name_.ApiClone L voidAlloc s.2
  let sn := self.shortName_.ApiClone L voidAlloc n.2
  let ds := self.description_.ApiClone L voidAlloc sn.2
  let h1 := if a.1 ≠ 0 then
    ds.2.construct a.1 L.PM_INTROSPECTION_ENUM_KEY
      (Cell.PM_INTROSPECTION_ENUM_KEY self.enumId_ self.value_ s.1 n.1 sn.1 ds.1)
    else ds.2
  (a.1, h1)

/-- `IntrospectionEnum::ApiClone`. -/
def IntrospectionEnum.ApiClone (L : ApiLayout) (voidAlloc : Allocator)
    (self : IntrospectionEnum) (h : Heap) : Nat × Heap :=
  let a := voidAlloc.allocate L.PM_INTROSPECTION_ENUM 1 h
  let s := self.symbol_.ApiClone L voidAlloc a.2
  let ds := self.description_.ApiClone L voidAlloc s.2
  let k := self.keys_.ApiClone L (IntrospectionEnumKey.ApiClone L voidAlloc) voidAlloc ds.2
  let h1 := if a.1 ≠ 0 then
    k.2.construct a.1 L.PM_INTROSPECTION_ENUM
      (Cell.PM_INTROSPECTION_ENUM self.id_ s.1 ds.1 k.1)
    else k.2
  (a.1, h1)

/-- `IntrospectionDevice::ApiClone`. -/
def IntrospectionDevice.ApiClone (L : ApiLayout) (voidAlloc : Allocator)
    (self : IntrospectionDevice) (h : Heap) : Nat × Heap :=
  let a := voidAlloc.allocate L.PM_INTROSPECTION_DEVICE 1 h
  let n := self.name_.ApiClone L voidAlloc a.2
  let h1 := if a.1 ≠ 0 then
    n.2.construct a.1 L.PM_INTROSPECTION_DEVICE
      (Cell.PM_INTROSPECTION_DEVICE self.id_ self.type_ self.vendor_ n.1)
    else n.2
  (a.1, h1)

/-- `IntrospectionDeviceMetricInfo::ApiClone`. -/
def IntrospectionDeviceMetricInfo.ApiClone (L : ApiLayout) (voidAlloc : Allocator)
    (self : IntrospectionDeviceMetricInfo) (h : Heap) : Nat × Heap :=
  let a := voidAlloc.allocate L.PM_INTROSPECTION_DEVICE_METRIC_INFO 1 h
  let h1 := if a.1 ≠ 0 then
    a.2.construct a.1 L.PM_INTROSPECTION_DEVICE_METRIC_INFO
      (Cell.PM_INTROSPECTION_DEVICE_METRIC_INFO self.deviceId_ self.availability_ self.arraySize_)
    else a.2
  (a.1, h1)

/-- `IntrospectionDataTypeInfo::ApiClone`. -/
def IntrospectionDataTypeInfo.ApiClone (L : ApiLayout) (voidAlloc : Allocator)
    (self : IntrospectionDataTypeInfo) (h : Heap) : Nat × Heap :=
  let a := voidAlloc.allocate L.PM_INTROSPECTION_DATA_TYPE_INFO 1 h
  let h1 := if a.1 ≠ 0 then
    a.2.construct a.1 L.PM_INTROSPECTION_DATA_TYPE_INFO
      (Cell.PM_INTROSPECTION_DATA_TYPE_INFO self.type_ self.enumId_)
    else a.2
  (a.1, h1)

/-- `IntrospectionMetric::ApiClone`. -/
def IntrospectionMetric.ApiClone (L : ApiLayout) (voidAlloc : Allocator)
    (self : IntrospectionMetric) (h : Heap) : Nat × Heap :=
  let a := voidAlloc.allocate L.PM_INTROSPECTION_METRIC 1 h
  let t := self.pTypeInfo_.ApiClone L voidAlloc a.2
  let s := self.stats_.ApiClone L (cloneNonApiClonable L voidAlloc) voidAlloc t.2
  let d := self.deviceMetricInfo_.ApiClone L
    (IntrospectionDeviceMetricInfo.ApiClone L voidAlloc) voidAlloc s.2
  let h1 := if a.1 ≠ 0 then
    d.2.construct a.1 L.PM_INTROSPECTION_METRIC
      (Cell.PM_INTROSPECTION_METRIC self.id_ self.type_ self.unit_ t.1 s.1 d.1)
    else d.2
  (a.1, h1)

/-- `IntrospectionRoot::ApiClone`. -/
def IntrospectionRoot.ApiClone (L : ApiLayout) (voidAlloc : Allocator)
    (self : IntrospectionRoot) (h : Heap) : Nat × Heap :=
  let a := voidAlloc.allocate L.PM_INTROSPECTION_ROOT 1 h
  let m := self.metrics_.ApiClone L (IntrospectionMetric.ApiClone L voidAlloc) voidAlloc a.2
  let e := self.enums_.ApiClone L (IntrospectionEnum.ApiClone L voidAlloc) voidAlloc m.2
  let d := self.devices_.ApiClone L (IntrospectionDevice.ApiClone L voidAlloc) voidAlloc e.2
  let h1 := if a.1 ≠ 0 then
    d.2.construct a.1 L.PM_INTROSPECTION_ROOT (Cell.PM_INTROSPECTION_ROOT m.1 e.1 d.1)
    else d.2
  (a.1, h1)

end ipc.intro

/-! ## Query compiler and executor (`FrameEventQuery.cpp`) -/

namespace util

/-- Modelled from the spec: `util::GetPadding(byteIndex, alignment)` of
`CommonUtilities/source/Memory.h`, which is not among the sources: "the bytes needed so this
field starts at an address aligned to `elementSize` within the destination blob given the
running blob length so far".  It is the computation of `ipc.intro.GetPadding` with the
alignment passed as a value.  For `alignment = 0` (the size of a metric outside the layout
table) the spec gives no value; the definition then yields 0, where the C++ expression
`byteIndex % alignment` of `GetPadding<T>` would be a division by zero; `GetPaddingChecked`
below makes that case explicit. -/
def GetPadding (byteIndex : Nat) (alignment : Nat) : Nat :=
  let partialBytes := byteIndex % alignment
  let padding := (alignment - partialBytes) % alignment
  padding

/-- Modelled from the spec: `util::GetPadding(byteIndex, alignment)` of
`CommonUtilities/source/Memory.h` with its division made explicit.  The computation of the
sibling `GetPadding<T>` starts with `byteIndex % alignment`; for `alignment = 0` that is an
integer division by zero, which is undefined in C++ (a hardware exception on x86): `none`.
For every other alignment the result is `GetPadding byteIndex alignment`. -/
def GetPaddingChecked (byteIndex : Nat) (alignment : Nat) : Option Nat :=
  if alignment = 0 then none else some (GetPadding byteIndex alignment)

end util

namespace mid

/-- The metric identifiers: the six that occur in `METRIC_OFFSET_SIZE_LOOKUP_LIST`, and
every other enumerator of `PM_METRIC`. -/
inductive PM_METRIC where
  | PM_METRIC_PRESENT_QPC
  | PM_METRIC_PRESENT_RUNTIME
  | PM_METRIC_PRESENT_MODE
  | PM_METRIC_GPU_POWER
  | PM_METRIC_CPU_UTILIZATION
  | PM_METRIC_GPU_FAN_SPEED
  | other (id : Nat)
  deriving DecidableEq, Repr

/-- `offsetof` and `sizeof` of one member of `PmNsmFrameData`. -/
structure NsmMember where
  offset : Nat
  size : Nat
  deriving DecidableEq, Repr

/-- The part of the layout of `PmNsmFrameData` that `METRIC_OFFSET_SIZE_LOOKUP_LIST` refers
to.  The structure is declared outside the sources, so its layout is a parameter.
`fan_speed_rpm_0` is the member expression `power_telemetry.fan_speed_rpm[0]`: the offset of
element 0 of the array and the size of one element. -/
structure PmNsmFrameData where
  PresentStartTime : NsmMember
  Runtime : NsmMember
  PresentMode : NsmMember
  gpu_power_w : NsmMember
  cpu_utilization : NsmMember
  fan_speed_rpm_0 : NsmMember
  deriving DecidableEq, Repr

/-- `METRIC_OFFSET_SIZE_LOOKUP_LIST`: the member each listed metric maps to. -/
def METRIC_OFFSET_SIZE_LOOKUP_LIST (fd : PmNsmFrameData) : PM_METRIC → Option NsmMember
  | .PM_METRIC_PRESENT_QPC => some fd.PresentStartTime
  | .PM_METRIC_PRESENT_RUNTIME => some fd.Runtime
  | .PM_METRIC_PRESENT_MODE => some fd.PresentMode
  | .PM_METRIC_GPU_POWER => some fd.gpu_power_w
  | .PM_METRIC_CPU_UTILIZATION => some fd.cpu_utilization
  | .PM_METRIC_GPU_FAN_SPEED => some fd.fan_speed_rpm_0
  | .other _ => none

/-- `GetNsmMemberSize_`: `sizeof(fd.nsm)` returned as `uint16_t`, `0` by default. -/
def GetNsmMemberSize_ (fd : PmNsmFrameData) (metric : PM_METRIC) : Nat :=
  match METRIC_OFFSET_SIZE_LOOKUP_LIST fd metric with
  | some nsm => nsm.size % 2 ^ 16
  | none => 0

/-- `GetNsmMemberOffset_`: `(uint32_t)offsetof(PmNsmFrameData, nsm)`, `0` by default. -/
def GetNsmMemberOffset_ (fd : PmNsmFrameData) (metric : PM_METRIC) : Nat :=
  match METRIC_OFFSET_SIZE_LOOKUP_LIST fd metric with
  | some nsm => nsm.offset % 2 ^ 32
  | none => 0

/-- `PM_QUERY_ELEMENT` (`arrayIndex` is a `uint32_t`, `dataOffset` and `dataSize` are
`uint64_t`). -/
structure PM_QUERY_ELEMENT where
  metric : PM_METRIC
  stat : Int
  deviceId : Nat
  arrayIndex : Nat
  dataOffset : Nat
  dataSize : Nat
  deriving DecidableEq, Repr

/-- `PM_FRAME_EVENT_QUERY::CopyCommand_`: `uint32_t offset`, `uint8_t padding`,
`uint16_t size`. -/
structure CopyCommand_ where
  offset : Nat
  padding : Nat
  size : Nat
  deriving DecidableEq, Repr

/-- `PM_FRAME_EVENT_QUERY::MapQueryElementToCopyCommand_`. -/
def MapQueryElementToCopyCommand_ (fd : PmNsmFrameData) (q : PM_QUERY_ELEMENT) (pos : Nat) :
    CopyCommand_ :=
  -- const auto size = GetNsmMemberSize_(q.metric);
  let size := GetNsmMemberSize_ fd q.metric
  { -- .offset = GetNsmMemberOffset_(q.metric) + size * q.arrayIndex   (unsigned, 32 bits)
    offset := (GetNsmMemberOffset_ fd q.metric + size * q.arrayIndex % 2 ^ 32) % 2 ^ 32
    -- .padding = (uint8_t)util::GetPadding(pos, size)
    padding := util.GetPadding pos size % 2 ^ 8
    -- .size = size
    size := size }

/-- The data members of `PM_FRAME_EVENT_QUERY`. -/
structure PM_FRAME_EVENT_QUERY where
  copyCommands_ : List CopyCommand_
  blobSize_ : Nat
  deriving DecidableEq, Repr

/-- The loop of the constructor over the remaining query elements.  It returns the query
object and the elements as the loop leaves them (the span is updated in place). -/
def PM_FRAME_EVENT_QUERY.ctorLoop (fd : PmNsmFrameData) :
    List PM_QUERY_ELEMENT → PM_FRAME_EVENT_QUERY → PM_FRAME_EVENT_QUERY × List PM_QUERY_ELEMENT
  | [], self => (self, [])
  | q :: qs, self =>
    -- copyCommands_.push_back(MapQueryElementToCopyCommand_(q, blobSize_));
    let cmd := MapQueryElementToCopyCommand_ fd q self.blobSize_
    -- q.dataSize = cmd.size;  q.dataOffset = blobSize_ + cmd.padding;
    let q1 := { q with dataSize := cmd.size, dataOffset := (self.blobSize_ + cmd.padding) % 2 ^ 64 }
    -- blobSize_ += cmd.size + cmd.padding;
    let self1 : PM_FRAME_EVENT_QUERY :=
      { copyCommands_ := self.copyCommands_ ++ [cmd]
        blobSize_ := (self.blobSize_ + (cmd.size + cmd.padding)) % 2 ^ 64 }
    let r := PM_FRAME_EVENT_QUERY.ctorLoop fd qs self1
    (r.1, q1 :: r.2)

/-- The constructor `PM_FRAME_EVENT_QUERY(std::span<PM_QUERY_ELEMENT> queryElements)`: the
loop run from an empty command list and blob size `0`. -/
def PM_FRAME_EVENT_QUERY.ctor (fd : PmNsmFrameData) (queryElements : List PM_QUERY_ELEMENT) :
    PM_FRAME_EVENT_QUERY × List PM_QUERY_ELEMENT :=
  PM_FRAME_EVENT_QUERY.ctorLoop fd queryElements ⟨[], 0⟩

/-- `PM_FRAME_EVENT_QUERY::GetBlobSize`. -/
def PM_FRAME_EVENT_QUERY.GetBlobSize (self : PM_FRAME_EVENT_QUERY) : Nat := self.blobSize_

/-- `std::copy_n(first, count, result)` between two byte buffers, `first` and `result` given
as indices.  Reading or writing outside a buffer is undefined behaviour: `none`. -/
def copy_n (src : List Nat) (first : Nat) : Nat → List Nat → Nat → Option (List Nat)
  | 0, dst, _ => some dst
  | count + 1, dst, result =>
    match src[first]? with
    | none => none
    | some b =>
      if result < dst.length then copy_n src (first + 1) count (dst.set result b) (result + 1)
      else none

/-- The loop of `GatherToBlob` over the remaining commands; `destBlob` is the index that the
advancing destination pointer has reached. -/
def gatherLoop (sourceFrameData : List Nat) :
    List CopyCommand_ → List Nat → Nat → Option (List Nat)
  | [], dst, _ => some dst
  | cmd :: cmds, dst, destBlob =>
    -- std::copy_n(sourceFrameData + cmd.offset, cmd.size, destBlob + cmd.padding);
    match copy_n sourceFrameData cmd.offset cmd.size dst (destBlob + cmd.padding) with
    | none => none
    -- destBlob += cmd.size + cmd.padding;
    | some dst1 => gatherLoop sourceFrameData cmds dst1 (destBlob + (cmd.size + cmd.padding))

/-- `PM_FRAME_EVENT_QUERY::GatherToBlob`: the destination buffer after the call. -/
def PM_FRAME_EVENT_QUERY.GatherToBlob (self : PM_FRAME_EVENT_QUERY)
    (sourceFrameData : List Nat) (destBlob : List Nat) : Option (List Nat) :=
  gatherLoop sourceFrameData self.copyCommands_ destBlob 0

end mid

namespace ipc.intro

/-! ## The requests of a clone pass, listed from the tree -/

/-- An allocation request: the element type and the element count. -/
abbrev Request := TypeLayout × Nat

/-- Issue the requests `rs` in order against the allocator `V`, discarding the pointers. -/
def Allocator.replay (V : Allocator) : List Request → Heap → Heap
  | [], h => h
  | r :: rs, h => Allocator.replay V rs (V.allocate r.1 r.2 h).2

/-- The byte count reached from counter value `c` after the requests `rs`, each preceded by
its alignment padding, in exact (unbounded) arithmetic. -/
def exactEnd : List Request → Nat → Nat
  | [], c => c
  | r :: rs, c => exactEnd rs (c + GetPadding r.1.align c + r.1.size * r.2)

def IntrospectionString.requests (L : ApiLayout) (self : IntrospectionString) : List Request :=
  [(L.PM_INTROSPECTION_STRING, 1), (charLayout, self.buffer_.length + 1)]

def requestsNonApiClonable (L : ApiLayout) (_stat : Int) : List Request :=
  [(L.PM_STAT, 1)]

def IntrospectionObjArray.elementRequests {T : Type} (elementRequest : T → List Request) :
    List T → List Request
  | [] => []
  | x :: xs => elementRequest x ++ IntrospectionObjArray.elementRequests elementRequest xs

def IntrospectionObjArray.requests {T : Type} (L : ApiLayout)
    (elementRequest : T → List Request) (self : IntrospectionObjArray T) : List Request :=
  [(L.PM_INTROSPECTION_OBJARRAY, 1), (L.voidPtr, self.buffer_.length)] ++
    IntrospectionObjArray.elementRequests elementRequest self.buffer_

def IntrospectionEnumKey.requests (L : ApiLayout) (self : IntrospectionEnumKey) :
    List Request :=
  [(L.PM_INTROSPECTION_ENUM_KEY, 1)] ++ self.symbol_.requests L ++ self.name_.requests L ++
    self.shortName_.requests L ++ self.description_.requests L

def IntrospectionEnum.requests (L : ApiLayout) (self : IntrospectionEnum) : List Request :=
  [(L.PM_INTROSPECTION_ENUM, 1)] ++ self.symbol_.requests L ++ self.description_.requests L ++
    self.keys_.requests L (IntrospectionEnumKey.requests L)

def IntrospectionDevice.requests (L : ApiLayout) (self : IntrospectionDevice) : List Request :=
  [(L.PM_INTROSPECTION_DEVICE, 1)] ++ self.name_.requests L

def IntrospectionDeviceMetricInfo.requests (L : ApiLayout)
    (_self : IntrospectionDeviceMetricInfo) : List Request :=
  [(L.PM_INTROSPECTION_DEVICE_METRIC_INFO, 1)]

def IntrospectionDataTypeInfo.requests (L : ApiLayout) (_self : IntrospectionDataTypeInfo) :
    List Request :=
  [(L.PM_INTROSPECTION_DATA_TYPE_INFO, 1)]

def IntrospectionMetric.requests (L : ApiLayout) (self : IntrospectionMetric) : List Request :=
  [(L.PM_INTROSPECTION_METRIC, 1)] ++ self.pTypeInfo_.requests L ++
    self.stats_.requests L (requestsNonApiClonable L) ++
    self.deviceMetricInfo_.requests L (IntrospectionDeviceMetricInfo.requests L)

def IntrospectionRoot.requests (L : ApiLayout) (self : IntrospectionRoot) : List Request :=
  [(L.PM_INTROSPECTION_ROOT, 1)] ++ self.metrics_.requests L (IntrospectionMetric.requests L) ++
    self.enums_.requests L (IntrospectionEnum.requests L) ++
    self.devices_.requests L (IntrospectionDevice.requests L)

/-- Two heaps on which the allocator has done the same: same counter, same calls. -/
def Heap.SameControl (h h' : Heap) : Prop :=
  h.totalSize = h'.totalSize ∧ h.calls = h'.calls

/-- The first address after the byte range handed out by a call. -/
def AllocCall.stop (c : AllocCall) : Nat := c.result + c.elemSize * c.count

/-- The request of a recorded call. -/
def AllocCall.toRequest (c : AllocCall) : Request := (⟨c.elemSize, c.elemAlign⟩, c.count)

/-- The exact number of bytes a clone of the tree takes: the requests that the sizing pass
issues, each with its alignment padding, added up without wrap-around. -/
def IntrospectionRoot.cloneExtent (L : ApiLayout) (T : IntrospectionRoot) : Nat :=
  exactEnd ((T.ApiClone L .ProbeAllocator (Heap.fresh (fun _ => none))).2.calls.map
    AllocCall.toRequest) 0

/-- A small metadata tree: one metric with two stats and one per-device entry, one enum
with one key, one device. -/
def sampleRoot : IntrospectionRoot where
  metrics_ := ⟨[⟨1, 2, 3, ⟨4, 5⟩, ⟨[7, 8]⟩, ⟨[⟨0, 1, 1⟩]⟩⟩]⟩
  enums_ := ⟨[⟨9, ⟨[65]⟩, ⟨[66, 67]⟩, ⟨[⟨9, 0, ⟨[75]⟩, ⟨[107]⟩, ⟨[107, 49]⟩, ⟨[]⟩⟩]⟩⟩]⟩
  devices_ := ⟨[⟨0, 1, 2, ⟨[71, 80, 85]⟩⟩]⟩

/-- Heap `h` is reached from heap `h0` by a stretch of a placement pass over the buffer at
`pBytes` that issued the requests `rs`: the counter advanced exactly, the ranges handed out
lie in the stretch and follow one another, and memory changed only inside the stretch. -/
structure Placed (pBytes : Nat) (rs : List Request) (h0 h : Heap) : Prop where
  totalSize : h.totalSize = exactEnd rs h0.totalSize
  calls : ∃ new, h.calls = h0.calls ++ new ∧
    (∀ x ∈ new, pBytes + h0.totalSize ≤ x.result ∧
      x.stop ≤ pBytes + exactEnd rs h0.totalSize) ∧
    new.Pairwise (fun a b => a.stop ≤ b.result)
  frame : ∀ a, a < pBytes + h0.totalSize ∨ pBytes + exactEnd rs h0.totalSize ≤ a →
    h.mem a = h0.mem a

/-- `Placed`, provided the stretch ends inside the 64-bit address space. -/
def PlacedIf (pBytes : Nat) (rs : List Request) (h0 h : Heap) : Prop :=
  pBytes + exactEnd rs h0.totalSize < 2 ^ 64 → Placed pBytes rs h0 h

end ipc.intro

namespace mid

/-- A record layout with `PRESENT_MODE` at offset 8, size 4, and `GPU_POWER` at offset 40,
size 4. -/
def exampleLayout : PmNsmFrameData where
  PresentStartTime := ⟨0, 8⟩
  Runtime := ⟨12, 4⟩
  PresentMode := ⟨8, 4⟩
  gpu_power_w := ⟨40, 4⟩
  cpu_utilization := ⟨48, 8⟩
  fan_speed_rpm_0 := ⟨56, 8⟩

/-- A record layout in which one looked-up member is 260 bytes wide, as a `char[260]`
member would be. -/
def wideLayout : PmNsmFrameData where
  PresentStartTime := ⟨0, 260⟩
  Runtime := ⟨260, 4⟩
  PresentMode := ⟨264, 4⟩
  gpu_power_w := ⟨268, 8⟩
  cpu_utilization := ⟨276, 8⟩
  fan_speed_rpm_0 := ⟨284, 8⟩

/-- A query element as a caller submits it: only metric and array index chosen. -/
def element (metric : PM_METRIC) (arrayIndex : Nat) : PM_QUERY_ELEMENT :=
  ⟨metric, 0, 0, arrayIndex, 0, 0⟩

/-- The element list `[(A,0),(B,2),(A,0)]` with `A = PRESENT_MODE`, `B = GPU_FAN_SPEED`. -/
def repeatedQuery : List PM_QUERY_ELEMENT :=
  [element .PM_METRIC_PRESENT_MODE 0, element .PM_METRIC_GPU_FAN_SPEED 2,
    element .PM_METRIC_PRESENT_MODE 0]

/-- The same requests as `repeatedQuery`, with other stats and device ids and with stale
values in the output fields. -/
def repeatedQueryStale : List PM_QUERY_ELEMENT :=
  [⟨.PM_METRIC_PRESENT_MODE, 1, 0, 0, 77, 5⟩, ⟨.PM_METRIC_GPU_FAN_SPEED, 0, 2, 2, 0, 9⟩,
    ⟨.PM_METRIC_PRESENT_MODE, 0, 0, 0, 3, 3⟩]

/-- A 48-byte record with the `int` 2 (little endian) at offset 8 and the `float` 150.5
(`0x43168000`, little endian) at offset 40. -/
def exampleRecord : List Nat :=
  List.replicate 8 0 ++ [2, 0, 0, 0] ++ List.replicate 28 0 ++ [0, 128, 22, 67] ++
    List.replicate 4 0

/-- `PM_FRAME_EVENT_QUERY::MapQueryElementToCopyCommand_` with the call of
`util::GetPadding` checked: `none` when that call divides by zero. -/
def MapQueryElementToCopyCommand_checked (fd : PmNsmFrameData) (q : PM_QUERY_ELEMENT)
    (pos : Nat) : Option CopyCommand_ :=
  -- const auto size = GetNsmMemberSize_(q.metric);
  let size := GetNsmMemberSize_ fd q.metric
  -- .padding = (uint8_t)util::GetPadding(pos, size)
  match util.GetPaddingChecked pos size with
  | none => none
  | some padding =>
    some
      { offset := (GetNsmMemberOffset_ fd q.metric + size * q.arrayIndex % 2 ^ 32) % 2 ^ 32
        padding := padding % 2 ^ 8
        size := size }

/-- The loop of the constructor with the call of `util::GetPadding` checked: `none` when
the loop reaches an element for which that call divides by zero. -/
def PM_FRAME_EVENT_QUERY.ctorLoop_checked (fd : PmNsmFrameData) :
    List PM_QUERY_ELEMENT → PM_FRAME_EVENT_QUERY →
      Option (PM_FRAME_EVENT_QUERY × List PM_QUERY_ELEMENT)
  | [], self => some (self, [])
  | q :: qs, self =>
    -- copyCommands_.push_back(MapQueryElementToCopyCommand_(q, blobSize_));
    match MapQueryElementToCopyCommand_checked fd q self.blobSize_ with
    | none => none
    | some cmd =>
      -- q.dataSize = cmd.size;  q.dataOffset = blobSize_ + cmd.padding;
      let q1 := { q with dataSize := cmd.size,
                         dataOffset := (self.blobSize_ + cmd.padding) % 2 ^ 64 }
      -- blobSize_ += cmd.size + cmd.padding;
      let self1 : PM_FRAME_EVENT_QUERY :=
        { copyCommands_ := self.copyCommands_ ++ [cmd]
          blobSize_ := (self.blobSize_ + (cmd.size + cmd.padding)) % 2 ^ 64 }
      match PM_FRAME_EVENT_QUERY.ctorLoop_checked fd qs self1 with
      | none => none
      | some r => some (r.1, q1 :: r.2)

/-- The constructor `PM_FRAME_EVENT_QUERY(std::span<PM_QUERY_ELEMENT> queryElements)` with
the call of `util::GetPadding` checked. -/
def PM_FRAME_EVENT_QUERY.ctor_checked (fd : PmNsmFrameData)
    (queryElements : List PM_QUERY_ELEMENT) :
    Option (PM_FRAME_EVENT_QUERY × List PM_QUERY_ELEMENT) :=
  PM_FRAME_EVENT_QUERY.ctorLoop_checked fd queryElements ⟨[], 0⟩

end mid

namespace ipc.intro

/-! ## Reading a clone back from destination memory -/

/-- The C string at address `a`: the characters before the first zero character.  `fuel`
bounds the number of characters inspected. -/
def readCString (m : Mem) : Nat → Nat → Option (List Nat)
  | 0, _ => none
  | fuel + 1, a =>
    match m.load a 1 with
    | some (Cell.char c) =>
      if c = 0 then some [] else (readCString m fuel (a + 1)).map (fun cs => c :: cs)
    | _ => none

/-- The string behind a `PM_INTROSPECTION_STRING*`. -/
def readString (L : ApiLayout) (m : Mem) (fuel : Nat) (p : Nat) : Option IntrospectionString :=
  match m.load p L.PM_INTROSPECTION_STRING.size with
  | some (Cell.PM_INTROSPECTION_STRING pData) =>
    (readCString m fuel pData).map IntrospectionString.mk
  | _ => none

/-- The `PM_STAT` behind a pointer. -/
def readStat (L : ApiLayout) (m : Mem) (p : Nat) : Option Int :=
  match m.load p L.PM_STAT.size with
  | some (Cell.PM_STAT v) => some v
  | _ => none

/-- The elements behind slots `i, i + 1, ..., i + n - 1` of the pointer array at `pData`. -/
def readElements {T : Type} (L : ApiLayout) (m : Mem) (readElement : Nat → Option T)
    (pData : Nat) : Nat → Nat → Option (List T)
  | _, 0 => some []
  | i, n + 1 =>
    match m.load (pData + i * L.voidPtr.size) L.voidPtr.size with
    | some (Cell.voidPtr p) =>
      match readElement p, readElements L m readElement pData (i + 1) n with
      | some x, some xs => some (x :: xs)
      | _, _ => none
    | _ => none

/-- The array behind a `PM_INTROSPECTION_OBJARRAY*`: `size` elements, in slot order. -/
def readObjArray {T : Type} (L : ApiLayout) (m : Mem) (readElement : Nat → Option T)
    (p : Nat) : Option (IntrospectionObjArray T) :=
  match m.load p L.PM_INTROSPECTION_OBJARRAY.size with
  | some (Cell.PM_INTROSPECTION_OBJARRAY pData size) =>
    (readElements L m readElement pData 0 size).map IntrospectionObjArray.mk
  | _ => none

def readEnumKey (L : ApiLayout) (m : Mem) (fuel : Nat) (p : Nat) :
    Option IntrospectionEnumKey :=
  match m.load p L.PM_INTROSPECTION_ENUM_KEY.size with
  | some (Cell.PM_INTROSPECTION_ENUM_KEY enumId value pSymbol pName pShortName pDescription) =>
    match readString L m fuel pSymbol, readString L m fuel pName,
      readString L m fuel pShortName, readString L m fuel pDescription with
    | some s, some n, some sn, some d => some ⟨enumId, value, s, n, sn, d⟩
    | _, _, _, _ => none
  | _ => none

def readEnum (L : ApiLayout) (m : Mem) (fuel : Nat) (p : Nat) : Option IntrospectionEnum :=
  match m.load p L.PM_INTROSPECTION_ENUM.size with
  | some (Cell.PM_INTROSPECTION_ENUM id pSymbol pDescription pKeys) =>
    match readString L m fuel pSymbol, readString L m fuel pDescription,
      readObjArray L m (readEnumKey L m fuel) pKeys with
    | some s, some d, some k => some ⟨id, s, d, k⟩
    | _, _, _ => none
  | _ => none

def readDevice (L : ApiLayout) (m : Mem) (fuel : Nat) (p : Nat) : Option IntrospectionDevice :=
  match m.load p L.PM_INTROSPECTION_DEVICE.size with
  | some (Cell.PM_INTROSPECTION_DEVICE id type vendor pName) =>
    match readString L m fuel pName with
    | some n => some ⟨id, type, vendor, n⟩
    | none => none
  | _ => none

def readDeviceMetricInfo (L : ApiLayout) (m : Mem) (p : Nat) :
    Option IntrospectionDeviceMetricInfo :=
  match m.load p L.PM_INTROSPECTION_DEVICE_METRIC_INFO.size with
  | some (Cell.PM_INTROSPECTION_DEVICE_METRIC_INFO deviceId availability arraySize) =>
    some ⟨deviceId, availability, arraySize⟩
  | _ => none

def readDataTypeInfo (L : ApiLayout) (m : Mem) (p : Nat) : Option IntrospectionDataTypeInfo :=
  match m.load p L.PM_INTROSPECTION_DATA_TYPE_INFO.size with
  | some (Cell.PM_INTROSPECTION_DATA_TYPE_INFO type enumId) => some ⟨type, enumId⟩
  | _ => none

def readMetric (L : ApiLayout) (m : Mem) (p : Nat) : Option IntrospectionMetric :=
  match m.load p L.PM_INTROSPECTION_METRIC.size with
  | some (Cell.PM_INTROSPECTION_METRIC id type unit pTypeInfo pStats pDeviceMetricInfo) =>
    match readDataTypeInfo L m pTypeInfo, readObjArray L m (readStat L m) pStats,
      readObjArray L m (readDeviceMetricInfo L m) pDeviceMetricInfo with
    | some t, some s, some d => some ⟨id, type, unit, t, s, d⟩
    | _, _, _ => none
  | _ => none

/-- The metadata tree behind a `PM_INTROSPECTION_ROOT*`: every node decoded from the object
stored at the pointer that its parent holds for it. -/
def readRoot (L : ApiLayout) (m : Mem) (fuel : Nat) (p : Nat) : Option IntrospectionRoot :=
  match m.load p L.PM_INTROSPECTION_ROOT.size with
  | some (Cell.PM_INTROSPECTION_ROOT pMetrics pEnums pDevices) =>
    match readObjArray L m (readMetric L m) pMetrics,
      readObjArray L m (readEnum L m fuel) pEnums,
      readObjArray L m (readDevice L m fuel) pDevices with
    | some ms, some es, some ds => some ⟨ms, es, ds⟩
    | _, _, _ => none
  | _ => none

/-- Every element type has at least one byte. -/
abbrev ApiLayout.SizesPositive (L : ApiLayout) : Prop :=
  0 < L.PM_INTROSPECTION_STRING.size ∧ 0 < L.PM_INTROSPECTION_OBJARRAY.size ∧
  0 < L.PM_INTROSPECTION_ENUM_KEY.size ∧ 0 < L.PM_INTROSPECTION_ENUM.size ∧
  0 < L.PM_INTROSPECTION_DEVICE.size ∧ 0 < L.PM_INTROSPECTION_DEVICE_METRIC_INFO.size ∧
  0 < L.PM_INTROSPECTION_DATA_TYPE_INFO.size ∧ 0 < L.PM_INTROSPECTION_METRIC.size ∧
  0 < L.PM_INTROSPECTION_ROOT.size ∧ 0 < L.PM_STAT.size ∧ 0 < L.voidPtr.size

/-- The string holds no zero character, so that it is the C string of its own buffer. -/
abbrev IntrospectionString.NulFree (self : IntrospectionString) : Prop := 0 ∉ self.buffer_

abbrev IntrospectionEnumKey.NulFree (self : IntrospectionEnumKey) : Prop :=
  self.symbol_.NulFree ∧ self.name_.NulFree ∧ self.shortName_.NulFree ∧
    self.description_.NulFree

abbrev IntrospectionEnum.NulFree (self : IntrospectionEnum) : Prop :=
  self.symbol_.NulFree ∧ self.description_.NulFree ∧ ∀ k ∈ self.keys_.buffer_, k.NulFree

abbrev IntrospectionDevice.NulFree (self : IntrospectionDevice) : Prop := self.name_.NulFree

/-- No string of the tree holds a zero character. -/
abbrev IntrospectionRoot.NulFree (self : IntrospectionRoot) : Prop :=
  (∀ e ∈ self.enums_.buffer_, e.NulFree) ∧ ∀ d ∈ self.devices_.buffer_, d.NulFree

/-- Memory `m'` holds what memory `m` holds at every address of `[lo, hi)`. -/
def AgreeOn (lo hi : Nat) (m m' : Mem) : Prop := ∀ a, lo ≤ a → a < hi → m' a = m a

/-- The clone computation `f`, which issues the requests `rs`, can be read back as `t`: from
any heap on which its stretch ends inside the address space behind `pBytes` and is at most
`fuel` bytes long, `read` decodes `t` at the returned pointer from every memory that agrees
with the resulting memory on the stretch. -/
def Readable {α : Type} (pBytes fuel : Nat) (rs : List Request) (f : Heap → Nat × Heap)
    (read : Mem → Nat → Option α) (t : α) : Prop :=
  ∀ h : Heap, pBytes + exactEnd rs h.totalSize < 2 ^ 64 →
    exactEnd rs h.totalSize ≤ h.totalSize + fuel →
    ∀ m' : Mem, AgreeOn (pBytes + h.totalSize) (pBytes + exactEnd rs h.totalSize) (f h).2.mem m' →
      read m' (f h).1 = some t

/-- The requests `rs`, issued from counter value `c`, end inside the address space behind
`pBytes` and within `fuel` bytes of `c0`. -/
def Budget (pBytes fuel c0 : Nat) (rs : List Request) (c : Nat) : Prop :=
  pBytes + exactEnd rs c < 2 ^ 64 ∧ exactEnd rs c ≤ c0 + fuel

/-- The tree `sampleRoot` with the device name `"G\0U"`: a zero character inside. -/
def nulRoot : IntrospectionRoot :=
  { sampleRoot with devices_ := ⟨[⟨0, 1, 2, ⟨[71, 0, 85]⟩⟩]⟩ }

/-- A clone operation, as a function of the heap it starts from, returns the null pointer
and leaves every byte of memory as it was. -/
def Silent (clone : Heap → Nat × Heap) : Prop :=
  ∀ h, (clone h).1 = 0 ∧ (clone h).2.mem = h.mem

/-! ## Allocator objects and their shared counter (`IntrospectionTransfer.h`) -/

/-- The `size_t` objects created by `std::make_shared<size_t>()`, by reference: `value r` is
the number held by the object with reference `r`; `next` is the reference that the next
`make_shared` hands out. -/
structure Counters where
  value : Nat → Nat
  next : Nat

/-- `std::make_shared<size_t>()`: a new, value-initialised counter and its reference. -/
def Counters.make_shared (c : Counters) : Nat × Counters :=
  (c.next, { value := Function.update c.value c.next 0, next := c.next + 1 })

/-- The data member of a `ProbeAllocator<T>` object: `std::shared_ptr<size_t> pTotalSize`,
as a reference into `Counters`. -/
structure ProbeAllocator where
  pTotalSize : Nat
  deriving DecidableEq, Repr

/-- `ProbeAllocator() = default`: the default member initializer makes a new counter. -/
def ProbeAllocator.default (c : Counters) : ProbeAllocator × Counters :=
  let r := c.make_shared
  (⟨r.1⟩, r.2)

/-- `ProbeAllocator(const ProbeAllocator<void>& other) : pTotalSize(other.pTotalSize)`: the
conversion that rebinding goes through. -/
def ProbeAllocator.rebind (other : ProbeAllocator) : ProbeAllocator :=
  ⟨other.pTotalSize⟩

/-- `ProbeAllocator<T>::allocate(count)` on the allocator object: the update of
`*pTotalSize`, and the null pointer. -/
def ProbeAllocator.allocate (self : ProbeAllocator) (T : TypeLayout) (count : Nat)
    (c : Counters) : Nat × Counters :=
  let old := c.value self.pTotalSize
  let total := (old + (T.size * count % 2 ^ 64 + GetPadding T.align old) % 2 ^ 64) % 2 ^ 64
  (0, { c with value := Function.update c.value self.pTotalSize total })

/-- `ProbeAllocator::GetTotalSize`: `*pTotalSize`. -/
def ProbeAllocator.GetTotalSize (self : ProbeAllocator) (c : Counters) : Nat :=
  c.value self.pTotalSize

/-- The data members of a `BlockAllocator<T>` object: the counter reference and the buffer
pointer. -/
structure BlockAllocator where
  pTotalSize : Nat
  pBytes : Nat
  deriving DecidableEq, Repr

/-- `BlockAllocator(size_t nBytes)`: a new counter; `pBytes` is what `malloc(nBytes)`
returned (`mallocResult`). -/
def BlockAllocator.ofSize (mallocResult : Nat) (c : Counters) : BlockAllocator × Counters :=
  let r := c.make_shared
  (⟨r.1, mallocResult⟩, r.2)

/-- `BlockAllocator(const BlockAllocator<void>& other)`: counter reference and buffer
pointer are copied. -/
def BlockAllocator.rebind (other : BlockAllocator) : BlockAllocator :=
  ⟨other.pTotalSize, other.pBytes⟩

/-- `BlockAllocator<T>::allocate(count)` on the allocator object. -/
def BlockAllocator.allocate (self : BlockAllocator) (T : TypeLayout) (count : Nat)
    (c : Counters) : Nat × Counters :=
  let old := c.value self.pTotalSize
  let padded := (old + GetPadding T.align old) % 2 ^ 64
  let pStart := (self.pBytes + padded) % 2 ^ 64
  let total := (padded + T.size * count % 2 ^ 64) % 2 ^ 64
  (pStart, { c with value := Function.update c.value self.pTotalSize total })

/-- The counters after a `ProbeAllocator<void>` and then a `BlockAllocator<void>` over a
buffer at address 4096 were constructed, starting with no counter at all. -/
def sampleCounters : Counters :=
  (BlockAllocator.ofSize 4096 (ProbeAllocator.default ⟨fun _ => 0, 0⟩).2).2

/-- The `ProbeAllocator<void>` of `sampleCounters`. -/
def sampleProbe : ProbeAllocator := (ProbeAllocator.default ⟨fun _ => 0, 0⟩).1

/-- The `BlockAllocator<void>` of `sampleCounters`. -/
def sampleBlock : BlockAllocator :=
  (BlockAllocator.ofSize 4096 (ProbeAllocator.default ⟨fun _ => 0, 0⟩).2).1

/-! ## Population of the metadata tree (`IntrospectionHelpers.cpp`) -/

/-- The enumerators of `PresentMonAPI.h` that `PopulateDevices` and `PopulateMetrics` name.
The header is not among the sources, so their values are a parameter. -/
structure ApiEnums where
  PM_DEVICE_TYPE_INDEPENDENT : Int
  PM_DEVICE_TYPE_GRAPHICS_ADAPTER : Int
  PM_DEVICE_VENDOR_UNKNOWN : Int
  PM_DEVICE_VENDOR_INTEL : Int
  PM_DEVICE_VENDOR_NVIDIA : Int
  PM_METRIC_AVAILABILITY_AVAILABLE : Int
  PM_METRIC_GPU_FAN_SPEED : Int
  deriving DecidableEq, Repr

/-- Enumerator values with distinct numbers, for examples. -/
def sampleEnums : ApiEnums where
  PM_DEVICE_TYPE_INDEPENDENT := 0
  PM_DEVICE_TYPE_GRAPHICS_ADAPTER := 1
  PM_DEVICE_VENDOR_UNKNOWN := 3
  PM_DEVICE_VENDOR_INTEL := 0
  PM_DEVICE_VENDOR_NVIDIA := 1
  PM_METRIC_AVAILABILITY_AVAILABLE := 0
  PM_METRIC_GPU_FAN_SPEED := 26

/-- `IntrospectionObjArray::PushBack`. -/
def IntrospectionObjArray.PushBack {T : Type} (self : IntrospectionObjArray T) (pObj : T) :
    IntrospectionObjArray T :=
  ⟨self.buffer_ ++ [pObj]⟩

/-- `IntrospectionRoot::AddMetric`. -/
def IntrospectionRoot.AddMetric (self : IntrospectionRoot) (pMetric : IntrospectionMetric) :
    IntrospectionRoot :=
  { self with metrics_ := self.metrics_.PushBack pMetric }

/-- `IntrospectionRoot::AddDevice`. -/
def IntrospectionRoot.AddDevice (self : IntrospectionRoot) (pDevice : IntrospectionDevice) :
    IntrospectionRoot :=
  { self with devices_ := self.devices_.PushBack pDevice }

/-- `IntrospectionMetric::AddStats`. -/
def IntrospectionMetric.AddStats (self : IntrospectionMetric) (stats : List Int) :
    IntrospectionMetric :=
  stats.foldl (fun m stat => { m with stats_ := m.stats_.PushBack stat }) self

/-- The constructor `IntrospectionMetric(id, type, unit, typeInfo, stats)`. -/
def IntrospectionMetric.ctor (id_in type_in unit_in : Int)
    (typeInfo_in : IntrospectionDataTypeInfo) (stats_in : List Int) : IntrospectionMetric :=
  IntrospectionMetric.AddStats ⟨id_in, type_in, unit_in, typeInfo_in, ⟨[]⟩, ⟨[]⟩⟩ stats_in

/-- `IntrospectionMetric::AddDeviceMetricInfo`. -/
def IntrospectionMetric.AddDeviceMetricInfo (self : IntrospectionMetric)
    (info : IntrospectionDeviceMetricInfo) : IntrospectionMetric :=
  { self with deviceMetricInfo_ := self.deviceMetricInfo_.PushBack info }

/-- The characters of a string literal. -/
def chars (s : String) : List Nat := s.toList.map Char.toNat

/-- `PopulateDevices`. -/
def PopulateDevices (E : ApiEnums) (root : IntrospectionRoot) : IntrospectionRoot :=
  let root := root.AddDevice ⟨0, E.PM_DEVICE_TYPE_INDEPENDENT, E.PM_DEVICE_VENDOR_UNKNOWN,
    ⟨chars "Device-independent"⟩⟩
  let root := root.AddDevice ⟨1, E.PM_DEVICE_TYPE_GRAPHICS_ADAPTER, E.PM_DEVICE_VENDOR_INTEL,
    ⟨chars "Arc 750"⟩⟩
  root.AddDevice ⟨2, E.PM_DEVICE_TYPE_GRAPHICS_ADAPTER, E.PM_DEVICE_VENDOR_NVIDIA,
    ⟨chars "GeForce RTX 2080 ti"⟩⟩

/-- The lambda `PopulateDeviceMetricInfo` of `PopulateMetrics`.  Its `metric.id` is read as
the metric's identifier, the member `id_` that `GetId()` returns. -/
def PopulateDeviceMetricInfo (E : ApiEnums) (metric : IntrospectionMetric)
    (deviceType : Int) : IntrospectionMetric :=
  if deviceType = E.PM_DEVICE_TYPE_INDEPENDENT then
    metric.AddDeviceMetricInfo ⟨0, E.PM_METRIC_AVAILABILITY_AVAILABLE, 1⟩
  else if metric.id_ = E.PM_METRIC_GPU_FAN_SPEED then
    (metric.AddDeviceMetricInfo ⟨1, E.PM_METRIC_AVAILABILITY_AVAILABLE, 1⟩).AddDeviceMetricInfo
      ⟨2, E.PM_METRIC_AVAILABILITY_AVAILABLE, 2⟩
  else
    (metric.AddDeviceMetricInfo ⟨1, E.PM_METRIC_AVAILABILITY_AVAILABLE, 1⟩).AddDeviceMetricInfo
      ⟨2, E.PM_METRIC_AVAILABILITY_AVAILABLE, 1⟩

/-- One entry of `METRIC_LIST`: the arguments that the list passes to `X_REG_METRIC`. -/
structure MetricEntry where
  metric : Int
  metric_type : Int
  unit : Int
  data_type : Int
  enum_id : Int
  device_type : Int
  stats : List Int
  deriving DecidableEq, Repr

/-- The expansion of `X_REG_METRIC` for one entry: make the metric, populate its per-device
infos, add it to the root. -/
def X_REG_METRIC (E : ApiEnums) (root : IntrospectionRoot) (e : MetricEntry) :
    IntrospectionRoot :=
  let pMetric := IntrospectionMetric.ctor e.metric e.metric_type e.unit
    ⟨e.data_type, e.enum_id⟩ e.stats
  let pMetric := PopulateDeviceMetricInfo E pMetric e.device_type
  root.AddMetric pMetric

/-- `PopulateMetrics`: `METRIC_LIST(X_REG_METRIC)`.  `METRIC_LIST` is defined in
`IntrospectionMetadata.h`, which is not among the sources, so the list is a parameter. -/
def PopulateMetrics (E : ApiEnums) (METRIC_LIST : List MetricEntry)
    (root : IntrospectionRoot) : IntrospectionRoot :=
  METRIC_LIST.foldl (X_REG_METRIC E) root

/-- The root before population: `IntrospectionRoot{}`. -/
def IntrospectionRoot.empty : IntrospectionRoot := ⟨⟨[]⟩, ⟨[]⟩, ⟨[]⟩⟩

/-- A metric list with a device-independent metric, a per-device metric, the fan speed
metric as a per-device metric and the fan speed metric entered as device-independent. -/
def sampleMetricList : List MetricEntry :=
  [⟨1, 0, 0, 2, 0, 0, [5]⟩, ⟨7, 1, 3, 1, 0, 1, [1, 2]⟩, ⟨26, 1, 4, 1, 0, 1, [1]⟩,
    ⟨26, 1, 4, 1, 0, 0, []⟩]

/-- The string `"G\0U"`: three characters, the middle one zero. -/
def nulString : IntrospectionString := ⟨[71, 0, 85]⟩

/-- The string `"GPU"`. -/
def sampleString : IntrospectionString := ⟨[71, 80, 85]⟩

end ipc.intro

/-! ## Owning handles over allocators (`ExperimentalInterprocess.h`) -/

namespace ipc.experimental

/-- `ShmAllocator<T>`, the Boost.Interprocess allocator over a segment manager: it holds
the segment manager it allocates from (`mngr`).  Boost is not among the sources; of the
allocator only this is used: it allocates from and deallocates to its segment manager, and
`allocate` throws when the segment has not enough free bytes. -/
structure ShmAllocator where
  mngr : Nat
  deriving DecidableEq, Repr

/-- The converting constructor between `ShmAllocator<T>` and `ShmAllocator<U>`, which
`rebind_alloc` and passing an allocator as another allocator type go through: the segment
manager stays. -/
def ShmAllocator.rebind (other : ShmAllocator) : ShmAllocator := ⟨other.mngr⟩

/-- An allocation that was handed out and not yet deallocated. -/
structure Block where
  mngr : Nat
  ptr : Nat
  bytes : Nat
  deriving DecidableEq, Repr

/-- The calls made at the allocator interface, in the order they happen. -/
inductive Event where
  | allocate (mngr bytes ptr : Nat)
  | construct (ptr : Nat)
  | destroy (ptr : Nat)
  | deallocate (mngr ptr count : Nat)
  deriving DecidableEq, Repr

/-- The representation of an `AllocString` that holds a buffer: its allocator, the buffer
and the characters. -/
structure AllocString where
  allocator : ShmAllocator
  pData : Nat
  text : List Nat
  deriving DecidableEq, Repr

/-- `AllocatorDeleter<A>`: its member `A allocator`. -/
structure AllocatorDeleter where
  allocator : ShmAllocator
  deriving DecidableEq, Repr

/-- `UptrT<T, A>`: the pointer and the deleter of the `bip::unique_ptr`. -/
structure UptrT where
  ptr : Nat
  deleter : AllocatorDeleter
  deriving DecidableEq, Repr

/-- The representation of an `AllocVector<UptrT<Leaf2, A>, LeafPtrAllocator>`: its allocator,
its buffer (null while the capacity is 0), the capacity and the handles it holds. -/
structure AllocVector where
  allocator : ShmAllocator
  pData : Nat
  capacity : Nat
  elems : List UptrT
  deriving DecidableEq, Repr

/-- The shared memory as the allocators see it: free bytes of each segment manager, the
next address not handed out yet, the outstanding allocations (latest first), the string
objects and the vector objects by address, and the history of calls at the allocator
interface. -/
structure Shm where
  free : Nat → Nat
  next : Nat
  outstanding : List Block
  strings : List (Nat × AllocString)
  vectors : List (Nat × AllocVector)
  events : List Event

/-- `allocator.allocate(count)` for elements of `elemSize` bytes; `none` is the exception
that Boost throws when the segment cannot serve the request. -/
def ShmAllocator.allocate (self : ShmAllocator) (elemSize count : Nat) (s : Shm) :
    Option (Nat × Shm) :=
  let bytes := elemSize * count
  if bytes ≤ s.free self.mngr then
    some (s.next,
      { s with
        free := Function.update s.free self.mngr (s.free self.mngr - bytes)
        next := s.next + bytes
        outstanding := ⟨self.mngr, s.next, bytes⟩ :: s.outstanding
        events := s.events ++ [Event.allocate self.mngr bytes s.next] })
  else none

/-- `allocator.deallocate(ptr, count)`: the segment manager takes back the allocation at
`ptr` that it holds (it knows the size; `count` is only passed along). -/
def ShmAllocator.deallocate (self : ShmAllocator) (ptr count : Nat) (s : Shm) : Shm :=
  match s.outstanding.find? (fun b => b.mngr = self.mngr ∧ b.ptr = ptr) with
  | some b =>
    { s with
      free := Function.update s.free self.mngr (s.free self.mngr + b.bytes)
      outstanding := s.outstanding.erase b
      events := s.events ++ [Event.deallocate self.mngr ptr count] }
  | none => { s with events := s.events ++ [Event.deallocate self.mngr ptr count] }

/-- What `MakeUnique` and `AllocatorDeleter` use of the managed type `T<A>`: its size, its
constructor `T(args..., A allocator)` run on the storage at an address (`Except.error` is an
exception leaving the constructor, with the state it leaves behind), and its destructor. -/
structure ObjectType (Args : Type) where
  size : Nat
  ctor : Args → ShmAllocator → Nat → Shm → Except Shm Shm
  dtor : Nat → Shm → Shm

/-- `std::allocator_traits<Allocator>::construct(allocator, ptr, args..., allocator)`:
placement-new of `T(args..., allocator)`, the allocator converted to the constructor's
parameter type `A`. -/
def construct {Args : Type} (T : ObjectType Args) (allocator : ShmAllocator) (ptr : Nat)
    (args : Args) (s : Shm) : Except Shm Shm :=
  T.ctor args allocator.rebind ptr { s with events := s.events ++ [Event.construct ptr] }

/-- `std::allocator_traits<A>::destroy(allocator, ptr)`: the destructor call. -/
def destroy {Args : Type} (T : ObjectType Args) (ptr : Nat) (s : Shm) : Shm :=
  T.dtor ptr { s with events := s.events ++ [Event.destroy ptr] }

/-- `AllocatorDeleter::operator()(pointer ptr)`. -/
def AllocatorDeleter.call {Args : Type} (T : ObjectType Args) (self : AllocatorDeleter)
    (ptr : Nat) (s : Shm) : Shm :=
  -- std::allocator_traits<A>::destroy(allocator, to_raw_pointer(ptr));
  let s1 := destroy T ptr s
  -- allocator.deallocate(to_raw_pointer(ptr), 1u);
  self.allocator.deallocate ptr 1 s1

/-- `MakeUnique<T, A>(allocator_in, args...)`; `Except.error` is an exception leaving the
function, with the state at that moment. -/
def MakeUnique {Args : Type} (T : ObjectType Args) (allocator_in : ShmAllocator) (args : Args)
    (s : Shm) : Except Shm (UptrT × Shm) :=
  -- Allocator allocator(std::move(allocator_in));
  let allocator := allocator_in.rebind
  -- auto ptr = allocator.allocate(1);
  match allocator.allocate T.size 1 s with
  | none => Except.error s
  | some (ptr, s1) =>
    -- std::allocator_traits<Allocator>::construct(allocator, ptr, args..., allocator);
    match construct T allocator ptr args s1 with
    | Except.error s2 => Except.error s2
    -- return UptrT<T, A>(to_raw_pointer(ptr), Deleter(allocator));
    | Except.ok s2 => Except.ok (⟨ptr, ⟨allocator⟩⟩, s2)

/-- The class `Leaf2<A>`; `sizeofLeaf2` is `sizeof(Leaf2<A>)`.  The constructor makes `str`
an empty string over the allocator and then assigns and appends the text, for which the
string takes a buffer from its allocator; Boost's string is not among the sources, and the
two steps are taken as one acquisition of the final buffer of `text.length + 1` characters.
When that fails the exception leaves the constructor and the still empty `str` is
destroyed.  The destructor destroys `str`, which gives its buffer back. -/
def Leaf2 (sizeofLeaf2 : Nat) : ObjectType Int where
  size := sizeofLeaf2
  ctor := fun x allocator ptr s =>
    -- str = "very-long-string-forcing-text-allocate-block-";
    -- str.append(std::to_string(x).c_str());
    let text := ipc.intro.chars ("very-long-string-forcing-text-allocate-block-" ++ toString x)
    match allocator.rebind.allocate 1 (text.length + 1) s with
    | none => Except.error s
    | some (p, s1) =>
      Except.ok { s1 with strings := (ptr, ⟨allocator.rebind, p, text⟩) :: s1.strings }
  dtor := fun ptr s =>
    match s.strings.lookup ptr with
    | some str =>
      let s1 := str.allocator.deallocate str.pData (str.text.length + 1) s
      { s1 with strings := s1.strings.filter (fun e => e.1 ≠ ptr) }
    | none => s

/-- A constructor that fails leaves the outstanding allocations as it found them. -/
def ObjectType.FailsClean {Args : Type} (T : ObjectType Args) : Prop :=
  ∀ (args : Args) (a : ShmAllocator) (p : Nat) (s s1 : Shm),
    T.ctor args a p s = Except.error s1 → s1.outstanding = s.outstanding

/-- The destructor only adds to the history of calls. -/
def ObjectType.DtorExtends {Args : Type} (T : ObjectType Args) : Prop :=
  ∀ (p : Nat) (s : Shm), ∃ evs, (T.dtor p s).events = s.events ++ evs

/-- The destructor gives back what the constructor acquired: destroying a constructed
object, whatever calls were recorded since, leaves the outstanding allocations that the
constructor found. -/
def ObjectType.Balanced {Args : Type} (T : ObjectType Args) : Prop :=
  ∀ (args : Args) (a : ShmAllocator) (p : Nat) (s s1 : Shm) (evs : List Event),
    T.ctor args a p s = Except.ok s1 →
      (T.dtor p { s1 with events := evs }).outstanding = s.outstanding

/-- A segment in which every segment manager has `free` bytes left and nothing is
allocated; addresses are handed out from 4096 on. -/
def sampleShm (free : Nat) : Shm where
  free := fun _ => free
  next := 4096
  outstanding := []
  strings := []
  vectors := []
  events := []

/-- The segment after `MakeUnique<Leaf2>(allocator, 5)` through an allocator on segment
manager 7, started in `sampleShm 200` with a `Leaf2` of 32 bytes: the object at 4096 and the
47 bytes of its string buffer at 4128. -/
def sampleLeaf2Shm : Shm where
  free := Function.update (Function.update (fun _ => 200) 7 168) 7 121
  next := 4175
  outstanding := [⟨7, 4128, 47⟩, ⟨7, 4096, 32⟩]
  strings := [(4096, ⟨⟨7⟩, 4128,
    ipc.intro.chars "very-long-string-forcing-text-allocate-block-5"⟩)]
  vectors := []
  events := [Event.allocate 7 32 4096, Event.construct 4096, Event.allocate 7 47 4128]

/-- The segment in which `MakeUnique<Leaf2>(allocator, 5)` fails when started in
`sampleShm 32`: the 32 bytes of the object at 4096 are allocated and nothing is free. -/
def sampleFailedShm : Shm where
  free := Function.update (fun _ => 32) 7 0
  next := 4128
  outstanding := [⟨7, 4096, 32⟩]
  strings := []
  vectors := []
  events := [Event.allocate 7 32 4096, Event.construct 4096]

/-! ## Nodes that own their children (`Leaf2`, `Branch2`, `Root2`) -/

/-- The text that the constructor of `Leaf2` gives its string for the argument `x`:
`"very-long-string-forcing-text-allocate-block-"` followed by `std::to_string(x)`. -/
def leafText (x : Int) : List Nat :=
  ipc.intro.chars ("very-long-string-forcing-text-allocate-block-" ++ toString x)

/-- `Leaf2::GetString` through a pointer to the leaf: `str.c_str()` as a `std::string`, the
characters before the first zero character.  `none`: no `Leaf2` lives at the address, the
call is undefined. -/
def Leaf2.GetString (ptr : Nat) (s : Shm) : Option (List Nat) :=
  match s.strings.lookup ptr with
  | some str => some (str.text.takeWhile (fun c => c != 0))
  | none => none

/-- The destructor of a `UptrT<T, A>`: the deleter is called on a pointer that is not
null. -/
def UptrT.dtor {Args : Type} (T : ObjectType Args) (self : UptrT) (s : Shm) : Shm :=
  if self.ptr ≠ 0 then self.deleter.call T self.ptr s else s

/-- `leafPtrs.reserve(n)` on the vector just constructed over `allocator`: storage for `n`
handles of `sizeofUptr` bytes each, none for `n = 0`; `none` is the exception of a failed
allocation.  Of Boost's vector only this is used: `reserve` takes one buffer for `n`
elements, and `push_back` within the capacity takes nothing. -/
def AllocVector.reserve (sizeofUptr : Nat) (allocator : ShmAllocator) (n : Nat) (s : Shm) :
    Option (AllocVector × Shm) :=
  if n = 0 then some (⟨allocator, 0, 0, []⟩, s)
  else
    match allocator.allocate sizeofUptr n s with
    | none => none
    | some (p, s1) => some (⟨allocator, p, n, []⟩, s1)

/-- The destructor of the vector of leaf handles: the handles are destroyed in order, then
the buffer goes back to the allocator. -/
def AllocVector.dtor (sizeofLeaf2 : Nat) (self : AllocVector) (s : Shm) : Shm :=
  let s1 := self.elems.foldl (fun st u => u.dtor (Leaf2 sizeofLeaf2) st) s
  if self.capacity ≠ 0 then self.allocator.deallocate self.pData self.capacity s1 else s1

/-- The loop `for (int i = 0; i < n; i++) leafPtrs.push_back(MakeUnique<Leaf2, A>(allocator,
i))` from index `i` on, with `remaining = n - i` turns to go.  An exception of `MakeUnique`
leaves the loop with the handles pushed so far. -/
def Branch2.pushLeaves (sizeofLeaf2 : Nat) (allocator : ShmAllocator) :
    Nat → Nat → List UptrT → Shm → Except (List UptrT × Shm) (List UptrT × Shm)
  | 0, _, leafPtrs, s => Except.ok (leafPtrs, s)
  | remaining + 1, i, leafPtrs, s =>
    match MakeUnique (Leaf2 sizeofLeaf2) allocator (Int.ofNat i) s with
    | Except.error s1 => Except.error (leafPtrs, s1)
    | Except.ok (u, s1) =>
      Branch2.pushLeaves sizeofLeaf2 allocator remaining (i + 1) (leafPtrs ++ [u]) s1

/-- The class `Branch2<A>`, with `sizeof(Branch2<A>)`, `sizeof(Leaf2<A>)` and the size of a
leaf handle as parameters.  The constructor makes `leafPtrs` over the allocator, reserves
`n` places and pushes the `n` leaves; for a negative `n` the `reserve` of `(size_type)n`
elements fails.  An exception in the body destroys `leafPtrs`.  The destructor destroys
`leafPtrs`. -/
def Branch2 (sizeofBranch2 sizeofLeaf2 sizeofUptr : Nat) : ObjectType Int where
  size := sizeofBranch2
  ctor := fun n allocator ptr s =>
    if n < 0 then Except.error s
    else
      -- leafPtrs{ allocator }    leafPtrs.reserve(n);
      match AllocVector.reserve sizeofUptr allocator.rebind n.toNat s with
      | none => Except.error s
      | some (v, s1) =>
        match Branch2.pushLeaves sizeofLeaf2 allocator n.toNat 0 [] s1 with
        | Except.error (leafPtrs, s2) =>
          Except.error (AllocVector.dtor sizeofLeaf2 { v with elems := leafPtrs } s2)
        | Except.ok (leafPtrs, s2) =>
          Except.ok { s2 with vectors := (ptr, { v with elems := leafPtrs }) :: s2.vectors }
  dtor := fun ptr s =>
    match s.vectors.lookup ptr with
    | some v =>
      let s1 := AllocVector.dtor sizeofLeaf2 v s
      { s1 with vectors := s1.vectors.filter (fun e => e.1 ≠ ptr) }
    | none => s

/-- The loop of `Branch2::GetString` over the remaining handles: `s += l->GetString() + "|"`. -/
def Branch2.appendLeaves : List UptrT → List Nat → Shm → Option (List Nat)
  | [], str, _ => some str
  | l :: ls, str, s =>
    match Leaf2.GetString l.ptr s with
    | none => none
    | some t => Branch2.appendLeaves ls (str ++ (t ++ ipc.intro.chars "|")) s

/-- `Branch2::GetString` through a pointer to the branch; `none`: no `Branch2` lives at the
address. -/
def Branch2.GetString (ptr : Nat) (s : Shm) : Option (List Nat) :=
  match s.vectors.lookup ptr with
  | some v => Branch2.appendLeaves v.elems [] s
  | none => none

/-- The data members of `Root2<A>`. -/
structure Root2 where
  pBranch1 : UptrT
  pBranch2 : UptrT
  deriving DecidableEq, Repr

/-- The constructor `Root2(n1, n2, allocator)`: the two members are initialised in order; an
exception from the second `MakeUnique` destroys `pBranch1`. -/
def Root2.ctor (sizeofBranch2 sizeofLeaf2 sizeofUptr : Nat) (n1 n2 : Int)
    (allocator : ShmAllocator) (s : Shm) : Except Shm (Root2 × Shm) :=
  -- pBranch1{ MakeUnique<Branch2, A>(allocator, n1) }
  match MakeUnique (Branch2 sizeofBranch2 sizeofLeaf2 sizeofUptr) allocator n1 s with
  | Except.error s1 => Except.error s1
  | Except.ok (b1, s1) =>
    -- pBranch2{ MakeUnique<Branch2, A>(allocator, n2) }
    match MakeUnique (Branch2 sizeofBranch2 sizeofLeaf2 sizeofUptr) allocator n2 s1 with
    | Except.error s2 =>
      Except.error (b1.dtor (Branch2 sizeofBranch2 sizeofLeaf2 sizeofUptr) s2)
    | Except.ok (b2, s2) => Except.ok (⟨b1, b2⟩, s2)

/-- `Root2::GetString`: `pBranch1->GetString() + " - $$ - " + pBranch2->GetString()`. -/
def Root2.GetString (self : Root2) (s : Shm) : Option (List Nat) :=
  match Branch2.GetString self.pBranch1.ptr s, Branch2.GetString self.pBranch2.ptr s with
  | some s1, some s2 => some (s1 ++ ipc.intro.chars " - $$ - " ++ s2)
  | _, _ => none

/-- The string of a branch of `n` leaves as the claim words it: for the leaves 0 to `n - 1`
in order, the leaf's string followed by `"|"`. -/
def branchText (n : Nat) : List Nat :=
  ((List.range n).map (fun i =>
    (leafText (Int.ofNat i)).takeWhile (fun c => c != 0) ++ ipc.intro.chars "|")).flatten

/-- The bytes that `MakeUnique<Leaf2>` with argument `x` takes from the segment: the leaf
and the buffer of its string. -/
def leafBytes (sizeofLeaf2 : Nat) (x : Int) : Nat :=
  sizeofLeaf2 + ((leafText x).length + 1)

/-- The bytes that the leaves `i` to `i + k - 1` take. -/
def leavesBytes (sizeofLeaf2 : Nat) (i k : Nat) : Nat :=
  ((List.range' i k).map (fun j => leafBytes sizeofLeaf2 (Int.ofNat j))).sum

/-- The bytes that `MakeUnique<Branch2>` with argument `n` takes: the branch, the buffer of
its vector and its leaves. -/
def branchBytes (sizeofBranch2 sizeofLeaf2 sizeofUptr : Nat) (n : Nat) : Nat :=
  sizeofBranch2 + (sizeofUptr * n + leavesBytes sizeofLeaf2 0 n)

end ipc.experimental

/-! ## The session wrapper (`PresentMonAPIWrapper`, `Session.h`) -/

namespace pmapi

/-- The calls into the C API of `PresentMonAPI.h` that `Session` makes. -/
inductive ApiCall where
  | pmCloseSession
  | pmGetIntrospectionRoot
  | pmFreeIntrospectionRoot (ptr : Nat)
  deriving DecidableEq, Repr

/-- The C API, which is declared outside the sources, as a parameter: the value of
`PM_STATUS_SUCCESS`, and what `pmGetIntrospectionRoot(&pRoot)` answers after the calls made
so far: its status and the pointer it stores in `pRoot`. -/
structure PresentMonAPI where
  PM_STATUS_SUCCESS : Int
  pmGetIntrospectionRoot : List ApiCall → Int × Nat

/-- The data member of `Session`: `bool token_`. -/
structure Session where
  token_ : Bool
  deriving DecidableEq, Repr

/-- A `SessionException` with its message. -/
structure SessionException where
  what : String
  deriving DecidableEq, Repr

/-- The `intro::Root` that `GetIntrospectionRoot` makes from the API pointer (together with a
deleter that calls `pmFreeIntrospectionRoot` on it). -/
structure Root where
  pRoot : Nat
  deriving DecidableEq, Repr

/-- The move constructor `Session(Session&& rhs)`: the new session and `rhs` afterwards. -/
def Session.moveCtor (rhs : Session) : Session × Session :=
  -- token_{ rhs.token_ }      rhs.token_ = false;
  (⟨rhs.token_⟩, { rhs with token_ := false })

/-- The destructor `~Session()`, acting on the history of API calls. -/
def Session.dtor (self : Session) (calls : List ApiCall) : List ApiCall :=
  if self.token_ then calls ++ [ApiCall.pmCloseSession] else calls

/-- `Session::GetIntrospectionRoot`: the root or the exception thrown, and the history of
API calls afterwards. -/
def Session.GetIntrospectionRoot (api : PresentMonAPI) (self : Session)
    (calls : List ApiCall) : Except SessionException Root × List ApiCall :=
  -- if (!token_) throw SessionException
  if !self.token_ then
    (Except.error ⟨"introspection call failed due to empty session object"⟩, calls)
  else
    -- if (auto sta = pmGetIntrospectionRoot(&pRoot); sta != PM_STATUS_SUCCESS) throw
    let r := api.pmGetIntrospectionRoot calls
    let calls1 := calls ++ [ApiCall.pmGetIntrospectionRoot]
    if r.1 ≠ api.PM_STATUS_SUCCESS then
      (Except.error ⟨"introspection call failed with error id=" ++ toString r.1⟩, calls1)
    else
      -- return std::make_shared<intro::Root>(pRoot, deleter);
      (Except.ok ⟨r.2⟩, calls1)

/-- Move-construct a new session from session number `i` of the sessions alive: the source
is left as the move constructor leaves it and the new session joins the others. -/
def moveConstructFrom (sessions : List Session) (i : Nat) : List Session :=
  match sessions[i]? with
  | some s => sessions.set i (Session.moveCtor s).2 ++ [(Session.moveCtor s).1]
  | none => sessions

/-- Destroy the sessions one after the other. -/
def destroyAll (sessions : List Session) (calls : List ApiCall) : List ApiCall :=
  sessions.foldl (fun c s => s.dtor c) calls

/-- An API that answers status 0 (success) and the pointer 4096 while no root was fetched,
and status 5 afterwards. -/
def sampleApi : PresentMonAPI where
  PM_STATUS_SUCCESS := 0
  pmGetIntrospectionRoot := fun calls =>
    if ApiCall.pmGetIntrospectionRoot ∈ calls then (5, 0) else (0, 4096)

/-- The move assignment `Session::operator=(Session&& rhs)` with `*this` the session number
`dst` and `rhs` the session number `src` of the sessions alive (`dst = src` is an assignment
of a session to itself): the sessions and the history of API calls afterwards.  The
operator calls no API function. -/
def moveAssign (sessions : List Session) (dst src : Nat) (calls : List ApiCall) :
    List Session × List ApiCall :=
  match sessions[dst]?, sessions[src]? with
  | some self, some rhs =>
    -- token_ = rhs.token_;
    let sessions1 := sessions.set dst { self with token_ := rhs.token_ }
    -- rhs.token_ = false;
    let sessions2 := sessions1.set src { rhs with token_ := false }
    (sessions2, calls)
  | _, _ => (sessions, calls)

end pmapi

/-! ## The DxgKrnl event descriptors (`PresentData/ETW/Microsoft_Windows_DxgKrnl.h`) -/

namespace Microsoft_Windows_DxgKrnl

/-- The enumerators of `enum class Keyword : uint64_t`. -/
def Keyword.Base : Nat := 0x1
def Keyword.Profiler : Nat := 0x2
def Keyword.References : Nat := 0x4
def Keyword.ForceVsync : Nat := 0x8
def Keyword.Patch : Nat := 0x10
def Keyword.Cdd : Nat := 0x20
def Keyword.Resource : Nat := 0x40
def Keyword.Memory : Nat := 0x80
def Keyword.Dxgkrnl_StatusChangeNotify : Nat := 0x100
def Keyword.DxgKrnl_Power : Nat := 0x200
def Keyword.DriverEvents : Nat := 0x400
def Keyword.LongHaul : Nat := 0x800
def Keyword.StablePower : Nat := 0x1000
def Keyword.DefaultOverride : Nat := 0x2000
def Keyword.HistoryBuffer : Nat := 0x4000
def Keyword.GPUScheduler : Nat := 0x8000
def Keyword.DxgKrnl : Nat := 0x10000
def Keyword.DxgKrnl_WDI : Nat := 0x20000
def Keyword.Miracast : Nat := 0x40000
def Keyword.IndirectSwapChain : Nat := 0x80000
def Keyword.GPUVA : Nat := 0x100000
def Keyword.VidMmWorkerThread : Nat := 0x200000
def Keyword.Diagnostics : Nat := 0x400000
def Keyword.VirtualGpu : Nat := 0x800000
def Keyword.AdapterLock : Nat := 0x1000000
def Keyword.MixedReality : Nat := 0x2000000
def Keyword.HardwareSchedulingLog : Nat := 0x4000000
def Keyword.win_ResponseTime : Nat := 0x1000000000000
def Keyword.Microsoft_Windows_DxgKrnl_Diagnostic : Nat := 0x8000000000000000
def Keyword.Microsoft_Windows_DxgKrnl_Performance : Nat := 0x4000000000000000
def Keyword.Microsoft_Windows_DxgKrnl_Power : Nat := 0x2000000000000000
def Keyword.Microsoft_Windows_DxgKrnl_Contention : Nat := 0x1000000000000000
def Keyword.Microsoft_Windows_DxgKrnl_Admin : Nat := 0x800000000000000
def Keyword.Microsoft_Windows_DxgKrnl_Operational : Nat := 0x400000000000000

/-- The enumerators of `enum class Level : uint8_t`. -/
def Level.win_LogAlways : Nat := 0x0
def Level.win_Error : Nat := 0x2
def Level.win_Informational : Nat := 0x4

/-- The enumerators of `enum class Channel : uint8_t`. -/
def Channel.Microsoft_Windows_DxgKrnl_Diagnostic : Nat := 0x10
def Channel.Microsoft_Windows_DxgKrnl_Performance : Nat := 0x11
def Channel.Microsoft_Windows_DxgKrnl_Power : Nat := 0x12
def Channel.Microsoft_Windows_DxgKrnl_Contention : Nat := 0x13
def Channel.Microsoft_Windows_DxgKrnl_Admin : Nat := 0x14
def Channel.Microsoft_Windows_DxgKrnl_Operational : Nat := 0x15

/-- The static members of a struct that `EVENT_DESCRIPTOR_DECL` declares. -/
structure EVENT_DESCRIPTOR where
  Id : Nat
  Version : Nat
  Channel : Nat
  Level : Nat
  Opcode : Nat
  Task : Nat
  Keyword : Nat
  deriving DecidableEq, Repr

/-- The macro `EVENT_DESCRIPTOR_DECL(name_, id_, version_, channel_, level_, opcode_, task_,
keyword_)`: each member is initialised with the conversion to its type (`uint16_t`,
`uint8_t`, or the `uint64_t` enumeration `Keyword`).  The name is the name of the
definition. -/
def EVENT_DESCRIPTOR_DECL (id_ version_ channel_ level_ opcode_ task_ keyword_ : Nat) :
    EVENT_DESCRIPTOR where
  Id := id_ % 2 ^ 16
  Version := version_ % 2 ^ 8
  Channel := channel_ % 2 ^ 8
  Level := level_ % 2 ^ 8
  Opcode := opcode_ % 2 ^ 8
  Task := task_ % 2 ^ 16
  Keyword := keyword_ % 2 ^ 64

def Blit_Info : EVENT_DESCRIPTOR :=
  EVENT_DESCRIPTOR_DECL 0x00a6 0x00 0x11 0x04 0x00 0x0067 0x4000000000000001
def Blit_Cancel : EVENT_DESCRIPTOR :=
  EVENT_DESCRIPTOR_DECL 0x01f5 0x00 0x11 0x04 0x00 0x0135 0x4000000000000001
def Flip_Info : EVENT_DESCRIPTOR :=
  EVENT_DESCRIPTOR_DECL 0x00a8 0x00 0x11 0x00 0x00 0x0003 0x4000000000000001
def FlipMultiPlaneOverlay_Info : EVENT_DESCRIPTOR :=
  EVENT_DESCRIPTOR_DECL 0x00fc 0x00 0x11 0x00 0x00 0x008f 0x4000000000000001
def HSyncDPCMultiPlane_Info : EVENT_DESCRIPTOR :=
  EVENT_DESCRIPTOR_DECL 0x017e 0x00 0x11 0x00 0x00 0x00e6 0x4000000000000001
def MMIOFlip_Info : EVENT_DESCRIPTOR :=
  EVENT_DESCRIPTOR_DECL 0x0074 0x00 0x11 0x00 0x00 0x0011 0x4000000000000001
def MMIOFlipMultiPlaneOverlay_Info : EVENT_DESCRIPTOR :=
  EVENT_DESCRIPTOR_DECL 0x0103 0x03 0x11 0x00 0x00 0x0090 0x4000000000000001
def Present_Info : EVENT_DESCRIPTOR :=
  EVENT_DESCRIPTOR_DECL 0x00b8 0x01 0x11 0x00 0x00 0x006b 0x4000000000000001
def PresentHistory_Start : EVENT_DESCRIPTOR :=
  EVENT_DESCRIPTOR_DECL 0x00ab 0x00 0x11 0x00 0x01 0x0006 0x4000000000000001
def PresentHistory_Info : EVENT_DESCRIPTOR :=
  EVENT_DESCRIPTOR_DECL 0x00ac 0x00 0x11 0x00 0x00 0x0006 0x4000000000000001
def PresentHistoryDetailed_Start : EVENT_DESCRIPTOR :=
  EVENT_DESCRIPTOR_DECL 0x00d7 0x00 0x11 0x00 0x01 0x007e 0x4000000000000001
def QueuePacket_Start : EVENT_DESCRIPTOR :=
  EVENT_DESCRIPTOR_DECL 0x00b2 0x01 0x11 0x00 0x01 0x0009 0x4000000000000001
def QueuePacket_Stop : EVENT_DESCRIPTOR :=
  EVENT_DESCRIPTOR_DECL 0x00b4 0x01 0x11 0x00 0x02 0x0009 0x4000000000000001
def QueuePacket_Start_2 : EVENT_DESCRIPTOR :=
  EVENT_DESCRIPTOR_DECL 0x00f4 0x01 0x11 0x00 0x01 0x0009 0x4000000000000001
def QueuePacket_Start_3 : EVENT_DESCRIPTOR :=
  EVENT_DESCRIPTOR_DECL 0x00f5 0x02 0x11 0x00 0x01 0x0009 0x4000000000000001
def VSyncDPC_Info : EVENT_DESCRIPTOR :=
  EVENT_DESCRIPTOR_DECL 0x0011 0x00 0x11 0x00 0x00 0x000b 0x4000000000000001
def VSyncDPCMultiPlane_Info : EVENT_DESCRIPTOR :=
  EVENT_DESCRIPTOR_DECL 0x0111 0x02 0x11 0x00 0x00 0x009f 0x4000000000000001

/-- The event descriptors that the header declares, in the order of the header. -/
def eventDescriptors : List EVENT_DESCRIPTOR :=
  [Blit_Info, Blit_Cancel, Flip_Info, FlipMultiPlaneOverlay_Info, HSyncDPCMultiPlane_Info,
    MMIOFlip_Info, MMIOFlipMultiPlaneOverlay_Info, Present_Info, PresentHistory_Start,
    PresentHistory_Info, PresentHistoryDetailed_Start, QueuePacket_Start, QueuePacket_Stop,
    QueuePacket_Start_2, QueuePacket_Start_3, VSyncDPC_Info, VSyncDPCMultiPlane_Info]

end Microsoft_Windows_DxgKrnl

namespace ipc.intro

/-! ## Every clone pass issues the requests listed from the tree -/

theorem Heap.SameControl.same_refl (h : Heap) : h.SameControl h := ⟨rfl, rfl⟩

theorem Heap.SameControl.guarded_construct {h h' : Heap} (e : h.SameControl h') (b : Prop)
    [Decidable b] (p : Nat) (T : TypeLayout) (c : Cell) :
    Heap.SameControl (if b then h.construct p T c else h) h' := by
  split <;> exact e

theorem Heap.SameControl.guarded_strcpy_s {h h' : Heap} (e : h.SameControl h') (b : Prop)
    [Decidable b] (p : Nat) (s : List Nat) :
    Heap.SameControl (if b then h.strcpy_s p s else h) h' := by
  split <;> exact e

theorem Allocator.allocate_sameControl (V : Allocator) (T : TypeLayout) (count : Nat)
    {h h' : Heap} (e : h.SameControl h') :
    (V.allocate T count h).2.SameControl (V.allocate T count h').2 := by
  obtain ⟨e1, e2⟩ := e
  cases V <;> simp [Allocator.allocate, Heap.SameControl, e1, e2]

theorem Allocator.replay_sameControl (V : Allocator) (rs : List Request) {h h' : Heap}
    (e : h.SameControl h') : (V.replay rs h).SameControl (V.replay rs h') := by
  induction rs generalizing h h' with
  | nil => exact e
  | cons r rs ih => exact ih (V.allocate_sameControl r.1 r.2 e)

theorem Allocator.replay_append (V : Allocator) (rs1 rs2 : List Request) (h : Heap) :
    V.replay (rs1 ++ rs2) h = V.replay rs2 (V.replay rs1 h) := by
  induction rs1 generalizing h with
  | nil => rfl
  | cons r rs ih => exact ih _

/-- A single `allocate` appends its request to the requests issued so far. -/
theorem Allocator.allocate_follows (V : Allocator) (T : TypeLayout) (count : Nat)
    {h h0 : Heap} {rs0 : List Request} (e : h.SameControl (V.replay rs0 h0)) :
    (V.allocate T count h).2.SameControl (V.replay (rs0 ++ [(T, count)]) h0) := by
  rw [Allocator.replay_append]
  exact V.allocate_sameControl T count e

theorem IntrospectionString.ApiClone_follows_string (L : ApiLayout) (V : Allocator)
    (self : IntrospectionString) {h h0 : Heap} {rs0 : List Request}
    (e : h.SameControl (V.replay rs0 h0)) :
    (self.ApiClone L V h).2.SameControl (V.replay (rs0 ++ self.requests L) h0) := by
  have a := V.allocate_follows L.PM_INTROSPECTION_STRING 1 e
  have d := V.allocate_follows charLayout (self.buffer_.length + 1) a
  simp only [List.append_assoc, List.singleton_append] at d
  exact (d.guarded_strcpy_s _ _ _).guarded_construct _ _ _ _

theorem cloneNonApiClonable_follows (L : ApiLayout) (V : Allocator)
    (stat : Int) {h h0 : Heap} {rs0 : List Request}
    (e : h.SameControl (V.replay rs0 h0)) :
    (cloneNonApiClonable L V stat h).2.SameControl
      (V.replay (rs0 ++ requestsNonApiClonable L stat) h0) := by
  have a := V.allocate_follows L.PM_STAT 1 e
  exact a.guarded_construct _ _ _ _

theorem IntrospectionObjArray.cloneElements_follows {T : Type} (L : ApiLayout) (V : Allocator)
    (cloneElement : T → Heap → Nat × Heap) (elementRequest : T → List Request)
    (xs : List T)
    (hce : ∀ x ∈ xs, ∀ (h h0 : Heap) (rs0 : List Request), h.SameControl (V.replay rs0 h0) →
      (cloneElement x h).2.SameControl (V.replay (rs0 ++ elementRequest x) h0))
    (pData i : Nat) {h h0 : Heap} {rs0 : List Request}
    (e : h.SameControl (V.replay rs0 h0)) :
    (IntrospectionObjArray.cloneElements L cloneElement pData xs i h).SameControl
      (V.replay (rs0 ++ IntrospectionObjArray.elementRequests elementRequest xs) h0) := by
  induction xs generalizing i h rs0 with
  | nil => simpa [IntrospectionObjArray.cloneElements, IntrospectionObjArray.elementRequests]
      using e
  | cons x xs ih =>
    have e1 := hce x (List.mem_cons_self _ _) h h0 rs0 e
    have e2 := ih (fun y hy => hce y (List.mem_cons_of_mem _ hy)) (i + 1)
      (e1.guarded_construct (pData ≠ 0) (pData + i * L.voidPtr.size) L.voidPtr
        (Cell.voidPtr (cloneElement x h).1))
    simpa [IntrospectionObjArray.cloneElements, IntrospectionObjArray.elementRequests,
      List.append_assoc] using e2

theorem IntrospectionObjArray.ApiClone_follows_objArray {T : Type} (L : ApiLayout) (V : Allocator)
    (cloneElement : T → Heap → Nat × Heap) (elementRequest : T → List Request)
    (self : IntrospectionObjArray T)
    (hce : ∀ x ∈ self.buffer_, ∀ (h h0 : Heap) (rs0 : List Request),
      h.SameControl (V.replay rs0 h0) →
      (cloneElement x h).2.SameControl (V.replay (rs0 ++ elementRequest x) h0))
    {h h0 : Heap} {rs0 : List Request} (e : h.SameControl (V.replay rs0 h0)) :
    (self.ApiClone L cloneElement V h).2.SameControl
      (V.replay (rs0 ++ self.requests L elementRequest) h0) := by
  have a := V.allocate_follows L.PM_INTROSPECTION_OBJARRAY 1 e
  have d := V.allocate_follows L.voidPtr self.buffer_.length a
  have l := IntrospectionObjArray.cloneElements_follows L V cloneElement elementRequest
    self.buffer_ hce (V.allocate L.voidPtr self.buffer_.length
      (V.allocate L.PM_INTROSPECTION_OBJARRAY 1 h).2).1 0 d
  simp only [List.append_assoc, List.singleton_append] at l
  exact l.guarded_construct _ _ _ _

theorem IntrospectionEnumKey.ApiClone_follows_enumKey (L : ApiLayout) (V : Allocator)
    (self : IntrospectionEnumKey) {h h0 : Heap} {rs0 : List Request}
    (e : h.SameControl (V.replay rs0 h0)) :
    (self.ApiClone L V h).2.SameControl (V.replay (rs0 ++ self.requests L) h0) := by
  have a := V.allocate_follows L.PM_INTROSPECTION_ENUM_KEY 1 e
  have s := self.symbol_.ApiClone_follows_string L V a
  have n := self.name_.ApiClone_follows_string L V s
  have sn := self.shortName_.ApiClone_follows_string L V n
  have ds := self.description_.ApiClone_follows_string L V sn
  simp only [List.append_assoc] at ds
  exact ds.guarded_construct _ _ _ _

theorem IntrospectionEnum.ApiClone_follows_enum (L : ApiLayout) (V : Allocator)
    (self : IntrospectionEnum) {h h0 : Heap} {rs0 : List Request}
    (e : h.SameControl (V.replay rs0 h0)) :
    (self.ApiClone L V h).2.SameControl (V.replay (rs0 ++ self.requests L) h0) := by
  have a := V.allocate_follows L.PM_INTROSPECTION_ENUM 1 e
  have s := self.symbol_.ApiClone_follows_string L V a
  have ds := self.description_.ApiClone_follows_string L V s
  have k := self.keys_.ApiClone_follows_objArray L V (IntrospectionEnumKey.ApiClone L V)
    (IntrospectionEnumKey.requests L)
    (fun x _ _ _ _ ex => IntrospectionEnumKey.ApiClone_follows_enumKey L V x ex) ds
  simp only [List.append_assoc] at k
  exact k.guarded_construct _ _ _ _

theorem IntrospectionDevice.ApiClone_follows_device (L : ApiLayout) (V : Allocator)
    (self : IntrospectionDevice) {h h0 : Heap} {rs0 : List Request}
    (e : h.SameControl (V.replay rs0 h0)) :
    (self.ApiClone L V h).2.SameControl (V.replay (rs0 ++ self.requests L) h0) := by
  have a := V.allocate_follows L.PM_INTROSPECTION_DEVICE 1 e
  have n := self.name_.ApiClone_follows_string L V a
  simp only [List.append_assoc] at n
  exact n.guarded_construct _ _ _ _

theorem IntrospectionDeviceMetricInfo.ApiClone_follows_deviceMetricInfo (L : ApiLayout) (V : Allocator)
    (self : IntrospectionDeviceMetricInfo) {h h0 : Heap} {rs0 : List Request}
    (e : h.SameControl (V.replay rs0 h0)) :
    (self.ApiClone L V h).2.SameControl (V.replay (rs0 ++ self.requests L) h0) := by
  have a := V.allocate_follows L.PM_INTROSPECTION_DEVICE_METRIC_INFO 1 e
  exact a.guarded_construct _ _ _ _

theorem IntrospectionDataTypeInfo.ApiClone_follows_dataTypeInfo (L : ApiLayout) (V : Allocator)
    (self : IntrospectionDataTypeInfo) {h h0 : Heap} {rs0 : List Request}
    (e : h.SameControl (V.replay rs0 h0)) :
    (self.ApiClone L V h).2.SameControl (V.replay (rs0 ++ self.requests L) h0) := by
  have a := V.allocate_follows L.PM_INTROSPECTION_DATA_TYPE_INFO 1 e
  exact a.guarded_construct _ _ _ _

theorem IntrospectionMetric.ApiClone_follows_metric (L : ApiLayout) (V : Allocator)
    (self : IntrospectionMetric) {h h0 : Heap} {rs0 : List Request}
    (e : h.SameControl (V.replay rs0 h0)) :
    (self.ApiClone L V h).2.SameControl (V.replay (rs0 ++ self.requests L) h0) := by
  have a := V.allocate_follows L.PM_INTROSPECTION_METRIC 1 e
  have t := self.pTypeInfo_.ApiClone_follows_dataTypeInfo L V a
  have s := self.stats_.ApiClone_follows_objArray L V (cloneNonApiClonable L V)
    (requestsNonApiClonable L)
    (fun x _ _ _ _ ex => cloneNonApiClonable_follows L V x ex) t
  have d := self.deviceMetricInfo_.ApiClone_follows_objArray L V
    (IntrospectionDeviceMetricInfo.ApiClone L V) (IntrospectionDeviceMetricInfo.requests L)
    (fun x _ _ _ _ ex => IntrospectionDeviceMetricInfo.ApiClone_follows_deviceMetricInfo L V x ex) s
  simp only [List.append_assoc] at d
  exact d.guarded_construct _ _ _ _

theorem IntrospectionRoot.ApiClone_follows_root (L : ApiLayout) (V : Allocator)
    (self : IntrospectionRoot) {h h0 : Heap} {rs0 : List Request}
    (e : h.SameControl (V.replay rs0 h0)) :
    (self.ApiClone L V h).2.SameControl (V.replay (rs0 ++ self.requests L) h0) := by
  have a := V.allocate_follows L.PM_INTROSPECTION_ROOT 1 e
  have m := self.metrics_.ApiClone_follows_objArray L V (IntrospectionMetric.ApiClone L V)
    (IntrospectionMetric.requests L)
    (fun x _ _ _ _ ex => IntrospectionMetric.ApiClone_follows_metric L V x ex) a
  have en := self.enums_.ApiClone_follows_objArray L V (IntrospectionEnum.ApiClone L V)
    (IntrospectionEnum.requests L)
    (fun x _ _ _ _ ex => IntrospectionEnum.ApiClone_follows_enum L V x ex) m
  have d := self.devices_.ApiClone_follows_objArray L V (IntrospectionDevice.ApiClone L V)
    (IntrospectionDevice.requests L)
    (fun x _ _ _ _ ex => IntrospectionDevice.ApiClone_follows_device L V x ex) en
  simp only [List.append_assoc] at d
  simp only [IntrospectionRoot.requests, List.append_assoc]
  exact d.guarded_construct _ _ _ _

/-- A clone pass over the whole tree leaves the allocator as the replay of the tree's
requests leaves it. -/
theorem IntrospectionRoot.ApiClone_sameControl (L : ApiLayout) (V : Allocator)
    (self : IntrospectionRoot) (h : Heap) :
    (self.ApiClone L V h).2.SameControl (V.replay (self.requests L) h) := by
  have := @IntrospectionRoot.ApiClone_follows_root L V self h h [] (Heap.SameControl.same_refl h)
  simpa using this

/-! ## Replaying requests against the two allocators -/

theorem wrap_add_comm (c s y : Nat) :
    (c + (s % 2 ^ 64 + y) % 2 ^ 64) % 2 ^ 64 = ((c + y) % 2 ^ 64 + s % 2 ^ 64) % 2 ^ 64 := by
  omega

theorem allocate_totalSize_probe_block (pBytes : Nat) (T : TypeLayout) (count : Nat)
    (h h' : Heap) (e : h.totalSize = h'.totalSize) :
    (Allocator.ProbeAllocator.allocate T count h).2.totalSize =
      ((Allocator.BlockAllocator pBytes).allocate T count h').2.totalSize := by
  simp only [Allocator.allocate, e]
  exact wrap_add_comm _ _ _

theorem replay_totalSize_probe_block (pBytes : Nat) (rs : List Request) (h h' : Heap)
    (e : h.totalSize = h'.totalSize) :
    (Allocator.ProbeAllocator.replay rs h).totalSize =
      ((Allocator.BlockAllocator pBytes).replay rs h').totalSize := by
  induction rs generalizing h h' with
  | nil => exact e
  | cons r rs ih => exact ih _ _ (allocate_totalSize_probe_block pBytes r.1 r.2 h h' e)

theorem allocate_calls_request (V : Allocator) (T : TypeLayout) (count : Nat) (h : Heap) :
    (V.allocate T count h).2.calls.map AllocCall.request =
      h.calls.map AllocCall.request ++ [(T.size, T.align, count)] := by
  cases V <;> simp [Allocator.allocate, AllocCall.request]

theorem replay_calls_request (V : Allocator) (rs : List Request) (h : Heap) :
    (V.replay rs h).calls.map AllocCall.request =
      h.calls.map AllocCall.request ++ rs.map (fun r => (r.1.size, r.1.align, r.2)) := by
  induction rs generalizing h with
  | nil => simp [Allocator.replay]
  | cons r rs ih =>
    simp only [Allocator.replay, ih, allocate_calls_request, List.map_cons, List.append_assoc,
      List.singleton_append]

/-! ## The sizing pass against the placement pass -/

/-- C1: for every metadata tree, the total that a fresh `ProbeAllocator` reports after
`ApiClone` equals the byte offset that a fresh `BlockAllocator` has consumed after `ApiClone`
of the same tree, whatever the buffer address and the memory contents. -/
theorem IntrospectionRoot.probe_total_eq_block_offset (L : ApiLayout)
    (T : IntrospectionRoot) (pBytes : Nat) (m m' : Mem) :
    (T.ApiClone L .ProbeAllocator (Heap.fresh m)).2.GetTotalSize =
      (T.ApiClone L (.BlockAllocator pBytes) (Heap.fresh m')).2.totalSize := by
  have hp := (T.ApiClone_sameControl L .ProbeAllocator (Heap.fresh m)).1
  have hb := (T.ApiClone_sameControl L (.BlockAllocator pBytes) (Heap.fresh m')).1
  rw [Heap.GetTotalSize, hp, hb]
  exact replay_totalSize_probe_block pBytes _ _ _ rfl

theorem allocate_probe_result (T : TypeLayout) (count : Nat) (h : Heap)
    (hn : ∀ c ∈ h.calls, c.result = 0) :
    ∀ c ∈ (Allocator.ProbeAllocator.allocate T count h).2.calls, c.result = 0 := by
  intro c hc
  simp only [Allocator.allocate, List.mem_append, List.mem_singleton] at hc
  rcases hc with hc | hc
  · exact hn c hc
  · rw [hc]

theorem replay_probe_result (rs : List Request) (h : Heap)
    (hn : ∀ c ∈ h.calls, c.result = 0) :
    ∀ c ∈ (Allocator.ProbeAllocator.replay rs h).calls, c.result = 0 := by
  induction rs generalizing h with
  | nil => exact hn
  | cons r rs ih => exact ih _ (allocate_probe_result r.1 r.2 h hn)

/-- C2: for every metadata tree, the allocation requests of `ApiClone` (element size, element
alignment and count, in order) are the same in the sizing pass as in the placement pass,
although in the sizing pass every `allocate` returned the null pointer. -/
theorem IntrospectionRoot.requests_same_in_both_passes (L : ApiLayout)
    (T : IntrospectionRoot) (pBytes : Nat) (m m' : Mem) :
    (T.ApiClone L .ProbeAllocator (Heap.fresh m)).2.calls.map AllocCall.request =
        (T.ApiClone L (.BlockAllocator pBytes) (Heap.fresh m')).2.calls.map AllocCall.request ∧
      ∀ c ∈ (T.ApiClone L .ProbeAllocator (Heap.fresh m)).2.calls, c.result = 0 := by
  have hp := (T.ApiClone_sameControl L .ProbeAllocator (Heap.fresh m)).2
  have hb := (T.ApiClone_sameControl L (.BlockAllocator pBytes) (Heap.fresh m')).2
  refine ⟨?_, ?_⟩
  · rw [hp, hb, replay_calls_request, replay_calls_request]
    rfl
  · rw [hp]
    exact replay_probe_result _ _ (by simp [Heap.fresh])

/-! ## The placement pass in exact arithmetic -/

theorem exactEnd_append (rs1 rs2 : List Request) (c : Nat) :
    exactEnd (rs1 ++ rs2) c = exactEnd rs2 (exactEnd rs1 c) := by
  induction rs1 generalizing c with
  | nil => rfl
  | cons r rs ih => exact ih _

theorem le_exactEnd (rs : List Request) (c : Nat) : c ≤ exactEnd rs c := by
  induction rs generalizing c with
  | nil => exact Nat.le_refl _
  | cons r rs ih =>
    have := ih (c + GetPadding r.1.align c + r.1.size * r.2)
    simp only [exactEnd]
    omega

theorem exactEnd_le_append (rs1 rs2 : List Request) (c : Nat) :
    exactEnd rs1 c ≤ exactEnd (rs1 ++ rs2) c := by
  rw [exactEnd_append]
  exact le_exactEnd _ _

theorem exactEnd_cons_ge (T : TypeLayout) (n : Nat) (rs : List Request) (c : Nat) :
    c + GetPadding T.align c + T.size * n ≤ exactEnd ((T, n) :: rs) c :=
  le_exactEnd rs _

@[simp] theorem Heap.construct_mem (h : Heap) (p : Nat) (T : TypeLayout) (c : Cell) :
    (h.construct p T c).mem = h.mem.store p T.size c := rfl

@[simp] theorem Heap.construct_totalSize (h : Heap) (p : Nat) (T : TypeLayout) (c : Cell) :
    (h.construct p T c).totalSize = h.totalSize := rfl

@[simp] theorem Heap.construct_calls (h : Heap) (p : Nat) (T : TypeLayout) (c : Cell) :
    (h.construct p T c).calls = h.calls := rfl

@[simp] theorem Heap.strcpy_s_totalSize (h : Heap) (p : Nat) (s : List Nat) :
    (h.strcpy_s p s).totalSize = h.totalSize := rfl

@[simp] theorem Heap.strcpy_s_calls (h : Heap) (p : Nat) (s : List Nat) :
    (h.strcpy_s p s).calls = h.calls := rfl

theorem Mem.store_outside (m : Mem) (a sz : Nat) (c : Cell) (x : Nat)
    (hx : x < a ∨ a + sz ≤ x) : m.store a sz c x = m x := by
  simp only [Mem.store]
  rw [if_neg]
  omega

theorem Mem.store_inside (m : Mem) (a sz : Nat) (c : Cell) (x : Nat)
    (hx : a ≤ x ∧ x < a + sz) : m.store a sz c x = some (c, x - a) := by
  simp only [Mem.store]
  rw [if_pos hx]

theorem Mem.storeChars_outside (m : Mem) (a : Nat) (bs : List Nat) (x : Nat)
    (hx : x < a ∨ a + bs.length ≤ x) : m.storeChars a bs x = m x := by
  induction bs generalizing m a with
  | nil => rfl
  | cons b bs ih =>
    simp only [Mem.storeChars, List.length_cons] at hx ⊢
    rw [ih _ _ (by omega), Mem.store_outside _ _ _ _ _ (by omega)]

/-- What `BlockAllocator::allocate` does when the padded request ends inside the address
space. -/
theorem allocate_block (pBytes : Nat) (T : TypeLayout) (count : Nat) (h : Heap)
    (hb : pBytes + (h.totalSize + GetPadding T.align h.totalSize + T.size * count) < 2 ^ 64) :
    (Allocator.BlockAllocator pBytes).allocate T count h =
      (pBytes + (h.totalSize + GetPadding T.align h.totalSize),
        { h with
          totalSize := h.totalSize + GetPadding T.align h.totalSize + T.size * count
          calls := h.calls ++ [⟨T.size, T.align, count,
            pBytes + (h.totalSize + GetPadding T.align h.totalSize)⟩] }) := by
  have h1 : (h.totalSize + GetPadding T.align h.totalSize) % 2 ^ 64 =
      h.totalSize + GetPadding T.align h.totalSize := Nat.mod_eq_of_lt (by omega)
  have h2 : T.size * count % 2 ^ 64 = T.size * count := Nat.mod_eq_of_lt (by omega)
  have h3 : (pBytes + (h.totalSize + GetPadding T.align h.totalSize)) % 2 ^ 64 =
      pBytes + (h.totalSize + GetPadding T.align h.totalSize) := Nat.mod_eq_of_lt (by omega)
  have h4 : (h.totalSize + GetPadding T.align h.totalSize + T.size * count) % 2 ^ 64 =
      h.totalSize + GetPadding T.align h.totalSize + T.size * count :=
    Nat.mod_eq_of_lt (by omega)
  simp only [Allocator.allocate, h1, h2, h3, h4]

theorem Placed.placed_refl (pBytes : Nat) (h : Heap) : Placed pBytes [] h h where
  totalSize := rfl
  calls := ⟨[], by simp, by simp, List.Pairwise.nil⟩
  frame := fun _ _ => rfl

theorem Placed.seq {pBytes : Nat} {rs0 rs1 : List Request} {h0 h h1 : Heap}
    (p0 : Placed pBytes rs0 h0 h) (p1 : Placed pBytes rs1 h h1) :
    Placed pBytes (rs0 ++ rs1) h0 h1 := by
  have e0 := p0.totalSize
  have e1 := p1.totalSize
  have m0 := le_exactEnd rs0 h0.totalSize
  have m1 := le_exactEnd rs1 h.totalSize
  obtain ⟨n0, c0, r0, s0⟩ := p0.calls
  obtain ⟨n1, c1, r1, s1⟩ := p1.calls
  refine ⟨?_, ⟨n0 ++ n1, ?_, ?_, ?_⟩, ?_⟩
  · rw [exactEnd_append, ← e0, e1]
  · rw [c1, c0, List.append_assoc]
  · intro x hx
    rw [exactEnd_append, ← e0]
    rcases List.mem_append.1 hx with hx | hx
    · have := r0 x hx
      omega
    · have := r1 x hx
      omega
  · rw [List.pairwise_append]
    refine ⟨s0, s1, ?_⟩
    intro a ha b hb
    have := r0 a ha
    have := r1 b hb
    omega
  · intro a ha
    rw [exactEnd_append, ← e0] at ha
    rw [p1.frame a (by omega), p0.frame a (by omega)]

theorem PlacedIf.placedIf_refl (pBytes : Nat) (h : Heap) : PlacedIf pBytes [] h h :=
  fun _ => Placed.placed_refl pBytes h

theorem PlacedIf.seqIf {pBytes : Nat} {rs0 rs1 : List Request} {h0 h h1 : Heap}
    (p0 : PlacedIf pBytes rs0 h0 h) (p1 : PlacedIf pBytes rs1 h h1) :
    PlacedIf pBytes (rs0 ++ rs1) h0 h1 := by
  intro hb
  have q0 := p0 (by have := exactEnd_le_append rs0 rs1 h0.totalSize; omega)
  have q1 := p1 (by rw [q0.totalSize, ← exactEnd_append]; exact hb)
  exact q0.seq q1

/-- One `allocate` of the block allocator is a placed stretch. -/
theorem allocate_placedIf (pBytes : Nat) (T : TypeLayout) (count : Nat) (h : Heap) :
    PlacedIf pBytes [(T, count)] h ((Allocator.BlockAllocator pBytes).allocate T count h).2 := by
  intro hb
  simp only [exactEnd] at hb
  rw [allocate_block pBytes T count h (by omega)]
  refine ⟨rfl, ⟨_, rfl, ?_, List.pairwise_singleton _ _⟩, fun _ _ => rfl⟩
  intro x hx
  rw [List.mem_singleton] at hx
  subst hx
  simp only [AllocCall.stop, exactEnd]
  omega

/-- A store inside the stretch keeps it a placed stretch. -/
theorem PlacedIf.construct_inside {pBytes : Nat} {rs : List Request} {h0 h : Heap}
    (q : PlacedIf pBytes rs h0 h) (b : Prop) [Decidable b] (p : Nat) (T : TypeLayout)
    (c : Cell)
    (hin : pBytes + exactEnd rs h0.totalSize < 2 ^ 64 → b →
      pBytes + h0.totalSize ≤ p ∧ p + T.size ≤ pBytes + exactEnd rs h0.totalSize) :
    PlacedIf pBytes rs h0 (if b then h.construct p T c else h) := by
  intro hb
  have q' := q hb
  split
  · next hbt =>
    have := hin hb hbt
    refine ⟨q'.totalSize, q'.calls, ?_⟩
    intro a ha
    rw [Heap.construct_mem, Mem.store_outside _ _ _ _ _ (by omega), q'.frame a ha]
  · exact q'

theorem PlacedIf.strcpy_s_inside {pBytes : Nat} {rs : List Request} {h0 h : Heap}
    (q : PlacedIf pBytes rs h0 h) (b : Prop) [Decidable b] (p : Nat) (s : List Nat)
    (hin : pBytes + exactEnd rs h0.totalSize < 2 ^ 64 → b →
      pBytes + h0.totalSize ≤ p ∧ p + (s.length + 1) ≤ pBytes + exactEnd rs h0.totalSize) :
    PlacedIf pBytes rs h0 (if b then h.strcpy_s p s else h) := by
  intro hb
  have q' := q hb
  split
  · next hbt =>
    have := hin hb hbt
    have hl : (s.takeWhile (fun c => c != 0) ++ [0]).length ≤ s.length + 1 := by
      simp only [List.length_append, List.length_singleton, Nat.add_le_add_iff_right]
      exact (List.takeWhile_sublist _).length_le
    refine ⟨q'.totalSize, q'.calls, ?_⟩
    intro a ha
    show (h.mem.storeChars p _) a = _
    rw [Mem.storeChars_outside _ _ _ _ (by omega), q'.frame a ha]
  · exact q'

theorem allocate_block_fst (pBytes : Nat) (T : TypeLayout) (count : Nat) (h : Heap)
    (hb : pBytes + (h.totalSize + GetPadding T.align h.totalSize + T.size * count) < 2 ^ 64) :
    ((Allocator.BlockAllocator pBytes).allocate T count h).1 =
      pBytes + (h.totalSize + GetPadding T.align h.totalSize) := by
  rw [allocate_block pBytes T count h hb]

theorem allocate_block_totalSize (pBytes : Nat) (T : TypeLayout) (count : Nat) (h : Heap)
    (hb : pBytes + (h.totalSize + GetPadding T.align h.totalSize + T.size * count) < 2 ^ 64) :
    ((Allocator.BlockAllocator pBytes).allocate T count h).2.totalSize =
      h.totalSize + GetPadding T.align h.totalSize + T.size * count := by
  rw [allocate_block pBytes T count h hb]

theorem allocate_block_mem (pBytes : Nat) (T : TypeLayout) (count : Nat) (h : Heap) :
    ((Allocator.BlockAllocator pBytes).allocate T count h).2.mem = h.mem := rfl

/-- The pointer a node's clone returns is the one its first `allocate` returned; with the
node's requests inside the address space it is the padded counter value. -/
theorem self_pointer_in_stretch (pBytes : Nat) (T : TypeLayout) (rs : List Request)
    (h : Heap) (hb : pBytes + exactEnd ((T, 1) :: rs) h.totalSize < 2 ^ 64) :
    ((Allocator.BlockAllocator pBytes).allocate T 1 h).1 =
        pBytes + (h.totalSize + GetPadding T.align h.totalSize) ∧
      pBytes + h.totalSize ≤ ((Allocator.BlockAllocator pBytes).allocate T 1 h).1 ∧
      ((Allocator.BlockAllocator pBytes).allocate T 1 h).1 + T.size ≤
        pBytes + exactEnd ((T, 1) :: rs) h.totalSize := by
  have hg := exactEnd_cons_ge T 1 rs h.totalSize
  rw [allocate_block_fst pBytes T 1 h (by omega)]
  omega

theorem IntrospectionString.ApiClone_placedIf_string (L : ApiLayout) (pBytes : Nat)
    (self : IntrospectionString) (h : Heap) :
    PlacedIf pBytes (self.requests L) h (self.ApiClone L (.BlockAllocator pBytes) h).2 := by
  have a := allocate_placedIf pBytes L.PM_INTROSPECTION_STRING 1 h
  have d := allocate_placedIf pBytes charLayout (self.buffer_.length + 1)
    ((Allocator.BlockAllocator pBytes).allocate L.PM_INTROSPECTION_STRING 1 h).2
  refine ((a.seqIf d).strcpy_s_inside _ _ _ ?_).construct_inside _ _ _ _ ?_
  · intro hb _
    simp only [List.singleton_append, exactEnd] at hb ⊢
    have hs : charLayout.size * (self.buffer_.length + 1) = self.buffer_.length + 1 := by
      simp [charLayout]
    have e1 := allocate_block_totalSize pBytes L.PM_INTROSPECTION_STRING 1 h (by omega)
    have e2 := allocate_block_fst pBytes charLayout (self.buffer_.length + 1)
      ((Allocator.BlockAllocator pBytes).allocate L.PM_INTROSPECTION_STRING 1 h).2
      (by rw [e1]; omega)
    rw [e1] at e2
    omega
  · intro hb _
    have := self_pointer_in_stretch pBytes _ _ h hb
    exact ⟨this.2.1, this.2.2⟩

theorem cloneNonApiClonable_placedIf (L : ApiLayout) (pBytes : Nat) (stat : Int) (h : Heap) :
    PlacedIf pBytes (requestsNonApiClonable L stat) h
      (cloneNonApiClonable L (.BlockAllocator pBytes) stat h).2 := by
  have a := allocate_placedIf pBytes L.PM_STAT 1 h
  refine a.construct_inside _ _ _ _ ?_
  intro hb _
  have := self_pointer_in_stretch pBytes _ _ h hb
  exact ⟨this.2.1, this.2.2⟩

theorem IntrospectionDeviceMetricInfo.ApiClone_placedIf_deviceMetricInfo (L : ApiLayout) (pBytes : Nat)
    (self : IntrospectionDeviceMetricInfo) (h : Heap) :
    PlacedIf pBytes (self.requests L) h (self.ApiClone L (.BlockAllocator pBytes) h).2 := by
  have a := allocate_placedIf pBytes L.PM_INTROSPECTION_DEVICE_METRIC_INFO 1 h
  refine a.construct_inside _ _ _ _ ?_
  intro hb _
  have := self_pointer_in_stretch pBytes _ _ h hb
  exact ⟨this.2.1, this.2.2⟩

theorem IntrospectionDataTypeInfo.ApiClone_placedIf_dataTypeInfo (L : ApiLayout) (pBytes : Nat)
    (self : IntrospectionDataTypeInfo) (h : Heap) :
    PlacedIf pBytes (self.requests L) h (self.ApiClone L (.BlockAllocator pBytes) h).2 := by
  have a := allocate_placedIf pBytes L.PM_INTROSPECTION_DATA_TYPE_INFO 1 h
  refine a.construct_inside _ _ _ _ ?_
  intro hb _
  have := self_pointer_in_stretch pBytes _ _ h hb
  exact ⟨this.2.1, this.2.2⟩

/-- The element loop is a placed stretch when each element clone is one and the pointer
slots `i ..` lie in the part of the stretch that precedes the loop. -/
theorem IntrospectionObjArray.cloneElements_placedIf {T : Type} (L : ApiLayout)
    (pBytes : Nat) (cloneElement : T → Heap → Nat × Heap)
    (elementRequest : T → List Request) (xs : List T)
    (hce : ∀ x ∈ xs, ∀ h : Heap, PlacedIf pBytes (elementRequest x) h (cloneElement x h).2)
    (pData i : Nat) {rs0 : List Request} {h0 h : Heap} (q : PlacedIf pBytes rs0 h0 h)
    (hin : pBytes + exactEnd rs0 h0.totalSize < 2 ^ 64 →
      pBytes + h0.totalSize ≤ pData + i * L.voidPtr.size ∧
        pData + i * L.voidPtr.size + xs.length * L.voidPtr.size ≤
          pBytes + exactEnd rs0 h0.totalSize) :
    PlacedIf pBytes (rs0 ++ IntrospectionObjArray.elementRequests elementRequest xs) h0
      (IntrospectionObjArray.cloneElements L cloneElement pData xs i h) := by
  induction xs generalizing i h rs0 with
  | nil =>
    simpa [IntrospectionObjArray.cloneElements, IntrospectionObjArray.elementRequests] using q
  | cons x xs ih =>
    have hm := exactEnd_le_append rs0 (elementRequest x) h0.totalSize
    have e1 : (i + 1) * L.voidPtr.size = i * L.voidPtr.size + L.voidPtr.size := by
      rw [Nat.add_mul, Nat.one_mul]
    have e2 : (x :: xs).length * L.voidPtr.size =
        xs.length * L.voidPtr.size + L.voidPtr.size := by
      rw [List.length_cons, Nat.add_mul, Nat.one_mul]
    have q1 := q.seqIf (hce x (List.mem_cons_self _ _) h)
    have q2 := q1.construct_inside (pData ≠ 0) (pData + i * L.voidPtr.size) L.voidPtr
      (Cell.voidPtr (cloneElement x h).1) (by
        intro hb _
        have := hin (by omega)
        omega)
    have q3 := ih (fun y hy => hce y (List.mem_cons_of_mem _ hy)) (i + 1) q2 (by
      intro hb
      have := hin (by omega)
      omega)
    simpa [IntrospectionObjArray.cloneElements, IntrospectionObjArray.elementRequests,
      List.append_assoc] using q3

theorem IntrospectionObjArray.ApiClone_placedIf_objArray {T : Type} (L : ApiLayout) (pBytes : Nat)
    (cloneElement : T → Heap → Nat × Heap) (elementRequest : T → List Request)
    (self : IntrospectionObjArray T)
    (hce : ∀ x ∈ self.buffer_, ∀ h : Heap,
      PlacedIf pBytes (elementRequest x) h (cloneElement x h).2) (h : Heap) :
    PlacedIf pBytes (self.requests L elementRequest) h
      (self.ApiClone L cloneElement (.BlockAllocator pBytes) h).2 := by
  have a := allocate_placedIf pBytes L.PM_INTROSPECTION_OBJARRAY 1 h
  have d := allocate_placedIf pBytes L.voidPtr self.buffer_.length
    ((Allocator.BlockAllocator pBytes).allocate L.PM_INTROSPECTION_OBJARRAY 1 h).2
  have l := IntrospectionObjArray.cloneElements_placedIf L pBytes cloneElement elementRequest
    self.buffer_ hce
    ((Allocator.BlockAllocator pBytes).allocate L.voidPtr self.buffer_.length
      ((Allocator.BlockAllocator pBytes).allocate L.PM_INTROSPECTION_OBJARRAY 1 h).2).1 0
    (a.seqIf d) (by
      intro hb
      simp only [List.singleton_append, exactEnd] at hb ⊢
      have e1 := allocate_block_totalSize pBytes L.PM_INTROSPECTION_OBJARRAY 1 h (by omega)
      have e2 := allocate_block_fst pBytes L.voidPtr self.buffer_.length
        ((Allocator.BlockAllocator pBytes).allocate L.PM_INTROSPECTION_OBJARRAY 1 h).2
        (by rw [e1]; omega)
      rw [e1] at e2
      rw [e2, Nat.mul_comm self.buffer_.length]
      omega)
  refine PlacedIf.construct_inside l _ _ _ _ ?_
  intro hb _
  have := self_pointer_in_stretch pBytes _ _ h hb
  exact ⟨this.2.1, this.2.2⟩

theorem IntrospectionEnumKey.ApiClone_placedIf_enumKey (L : ApiLayout) (pBytes : Nat)
    (self : IntrospectionEnumKey) (h : Heap) :
    PlacedIf pBytes (self.requests L) h (self.ApiClone L (.BlockAllocator pBytes) h).2 := by
  have a := allocate_placedIf pBytes L.PM_INTROSPECTION_ENUM_KEY 1 h
  have s := a.seqIf (self.symbol_.ApiClone_placedIf_string L pBytes _)
  have n := s.seqIf (self.name_.ApiClone_placedIf_string L pBytes _)
  have sn := n.seqIf (self.shortName_.ApiClone_placedIf_string L pBytes _)
  have ds := sn.seqIf (self.description_.ApiClone_placedIf_string L pBytes _)
  refine PlacedIf.construct_inside ds _ _ _ _ ?_
  intro hb _
  have := self_pointer_in_stretch pBytes _ _ h hb
  exact ⟨this.2.1, this.2.2⟩

theorem IntrospectionEnum.ApiClone_placedIf_enum (L : ApiLayout) (pBytes : Nat)
    (self : IntrospectionEnum) (h : Heap) :
    PlacedIf pBytes (self.requests L) h (self.ApiClone L (.BlockAllocator pBytes) h).2 := by
  have a := allocate_placedIf pBytes L.PM_INTROSPECTION_ENUM 1 h
  have s := a.seqIf (self.symbol_.ApiClone_placedIf_string L pBytes _)
  have ds := s.seqIf (self.description_.ApiClone_placedIf_string L pBytes _)
  have k := ds.seqIf (self.keys_.ApiClone_placedIf_objArray L pBytes
    (IntrospectionEnumKey.ApiClone L (.BlockAllocator pBytes)) (IntrospectionEnumKey.requests L)
    (fun x _ h => x.ApiClone_placedIf_enumKey L pBytes h) _)
  refine PlacedIf.construct_inside k _ _ _ _ ?_
  intro hb _
  have := self_pointer_in_stretch pBytes _ _ h hb
  exact ⟨this.2.1, this.2.2⟩

theorem IntrospectionDevice.ApiClone_placedIf_device (L : ApiLayout) (pBytes : Nat)
    (self : IntrospectionDevice) (h : Heap) :
    PlacedIf pBytes (self.requests L) h (self.ApiClone L (.BlockAllocator pBytes) h).2 := by
  have a := allocate_placedIf pBytes L.PM_INTROSPECTION_DEVICE 1 h
  have n := a.seqIf (self.name_.ApiClone_placedIf_string L pBytes _)
  refine PlacedIf.construct_inside n _ _ _ _ ?_
  intro hb _
  have := self_pointer_in_stretch pBytes _ _ h hb
  exact ⟨this.2.1, this.2.2⟩

theorem IntrospectionMetric.ApiClone_placedIf_metric (L : ApiLayout) (pBytes : Nat)
    (self : IntrospectionMetric) (h : Heap) :
    PlacedIf pBytes (self.requests L) h (self.ApiClone L (.BlockAllocator pBytes) h).2 := by
  have a := allocate_placedIf pBytes L.PM_INTROSPECTION_METRIC 1 h
  have t := a.seqIf (self.pTypeInfo_.ApiClone_placedIf_dataTypeInfo L pBytes _)
  have s := t.seqIf (self.stats_.ApiClone_placedIf_objArray L pBytes
    (cloneNonApiClonable L (.BlockAllocator pBytes)) (requestsNonApiClonable L)
    (fun x _ h => cloneNonApiClonable_placedIf L pBytes x h) _)
  have d := s.seqIf (self.deviceMetricInfo_.ApiClone_placedIf_objArray L pBytes
    (IntrospectionDeviceMetricInfo.ApiClone L (.BlockAllocator pBytes))
    (IntrospectionDeviceMetricInfo.requests L)
    (fun x _ h => x.ApiClone_placedIf_deviceMetricInfo L pBytes h) _)
  refine PlacedIf.construct_inside d _ _ _ _ ?_
  intro hb _
  have := self_pointer_in_stretch pBytes _ _ h hb
  exact ⟨this.2.1, this.2.2⟩

theorem IntrospectionRoot.ApiClone_placedIf_root (L : ApiLayout) (pBytes : Nat)
    (self : IntrospectionRoot) (h : Heap) :
    PlacedIf pBytes (self.requests L) h (self.ApiClone L (.BlockAllocator pBytes) h).2 := by
  have a := allocate_placedIf pBytes L.PM_INTROSPECTION_ROOT 1 h
  have m := a.seqIf (self.metrics_.ApiClone_placedIf_objArray L pBytes
    (IntrospectionMetric.ApiClone L (.BlockAllocator pBytes)) (IntrospectionMetric.requests L)
    (fun x _ h => x.ApiClone_placedIf_metric L pBytes h) _)
  have e := m.seqIf (self.enums_.ApiClone_placedIf_objArray L pBytes
    (IntrospectionEnum.ApiClone L (.BlockAllocator pBytes)) (IntrospectionEnum.requests L)
    (fun x _ h => x.ApiClone_placedIf_enum L pBytes h) _)
  have d := e.seqIf (self.devices_.ApiClone_placedIf_objArray L pBytes
    (IntrospectionDevice.ApiClone L (.BlockAllocator pBytes)) (IntrospectionDevice.requests L)
    (fun x _ h => x.ApiClone_placedIf_device L pBytes h) _)
  refine PlacedIf.construct_inside d _ _ _ _ ?_
  intro hb _
  have := self_pointer_in_stretch pBytes _ _ h hb
  exact ⟨this.2.1, this.2.2⟩

theorem allocate_probe_toRequest (T : TypeLayout) (count : Nat) (h : Heap) :
    (Allocator.ProbeAllocator.allocate T count h).2.calls.map AllocCall.toRequest =
      h.calls.map AllocCall.toRequest ++ [(T, count)] := by
  simp [Allocator.allocate, AllocCall.toRequest]

theorem replay_probe_toRequest (rs : List Request) (h : Heap) :
    (Allocator.ProbeAllocator.replay rs h).calls.map AllocCall.toRequest =
      h.calls.map AllocCall.toRequest ++ rs := by
  induction rs generalizing h with
  | nil => simp [Allocator.replay]
  | cons r rs ih => simp [Allocator.replay, ih, allocate_probe_toRequest]

/-- The exact extent of a clone is the exact end of the requests listed from the tree. -/
theorem IntrospectionRoot.cloneExtent_eq (L : ApiLayout) (T : IntrospectionRoot) :
    T.cloneExtent L = exactEnd (T.requests L) 0 := by
  have hp := (T.ApiClone_sameControl L .ProbeAllocator (Heap.fresh (fun _ => none))).2
  rw [IntrospectionRoot.cloneExtent, hp, replay_probe_toRequest]
  simp [Heap.fresh]

/-- When the clone fits behind `pBytes`, the total that the sizing pass reports is the exact
extent. -/
theorem IntrospectionRoot.probe_total_eq_exactEnd (L : ApiLayout) (T : IntrospectionRoot)
    (pBytes : Nat) (m : Mem) (hfit : pBytes + exactEnd (T.requests L) 0 < 2 ^ 64) :
    (T.ApiClone L .ProbeAllocator (Heap.fresh m)).2.GetTotalSize =
      exactEnd (T.requests L) 0 := by
  have q := T.ApiClone_placedIf_root L pBytes (Heap.fresh m) hfit
  rw [Heap.GetTotalSize, (T.ApiClone_sameControl L .ProbeAllocator (Heap.fresh m)).1,
    replay_totalSize_probe_block pBytes _ _ (Heap.fresh m) rfl,
    ← (T.ApiClone_sameControl L (.BlockAllocator pBytes) (Heap.fresh m)).1, q.totalSize]
  rfl

/-! ## Reading back what a placement pass stored -/

theorem Mem.holds_of_bytes (m : Mem) (a : Nat) (c : Cell) (k n : Nat)
    (hb : ∀ j, k ≤ j → j < k + n → m (a + j) = some (c, j)) : Mem.holds m a c k n = true := by
  induction n generalizing k with
  | zero => rfl
  | succ n ih =>
    simp only [Mem.holds, Bool.and_eq_true, decide_eq_true_eq]
    exact ⟨hb k (Nat.le_refl _) (by omega), ih (k + 1) (fun j h1 h2 => hb j (by omega) (by omega))⟩

/-- An object all of whose bytes are in memory can be loaded. -/
theorem Mem.load_of_bytes (m : Mem) (a sz : Nat) (c : Cell) (hsz : 0 < sz)
    (hb : ∀ j, j < sz → m (a + j) = some (c, j)) : m.load a sz = some c := by
  have h0 : m a = some (c, 0) := hb 0 hsz
  have hh := Mem.holds_of_bytes m a c 0 sz (fun j _ h2 => hb j (by omega))
  simp only [Mem.load, h0, hh, if_true]

/-- An object stored at `a` can be loaded from every memory that agrees with the store on
the bytes of the object. -/
theorem Mem.load_of_agree_store {m m' : Mem} {a sz : Nat} {c : Cell} {lo hi : Nat}
    (hm : AgreeOn lo hi (m.store a sz c) m') (hsz : 0 < sz) (hlo : lo ≤ a)
    (hhi : a + sz ≤ hi) : m'.load a sz = some c := by
  apply Mem.load_of_bytes m' a sz c hsz
  intro j hj
  rw [hm (a + j) (by omega) (by omega), Mem.store_inside _ _ _ _ _ (by omega)]
  simp

theorem AgreeOn.mono {lo hi : Nat} {m m' : Mem} (hm : AgreeOn lo hi m m') (lo' hi' : Nat)
    (hlo : lo ≤ lo') (hhi : hi' ≤ hi) : AgreeOn lo' hi' m m' :=
  fun a h1 h2 => hm a (by omega) (by omega)

/-- Agreement with a memory after a store is agreement with the memory before the store, on
a range that the store does not touch. -/
theorem AgreeOn.of_store {lo hi : Nat} {m m' : Mem} {a sz : Nat} {c : Cell}
    (hm : AgreeOn lo hi (m.store a sz c) m') (hd : a + sz ≤ lo ∨ hi ≤ a) : AgreeOn lo hi m m' := by
  intro x h1 h2
  rw [hm x h1 h2, Mem.store_outside _ _ _ _ _ (by omega)]

/-- Agreement with the memory after a placed stretch is agreement with the memory before
it, on a range below the stretch. -/
theorem AgreeOn.of_placed {pBytes : Nat} {rs : List Request} {h h' : Heap} {lo hi : Nat}
    {m' : Mem} (q : Placed pBytes rs h h') (hm : AgreeOn lo hi h'.mem m')
    (hd : hi ≤ pBytes + h.totalSize) : AgreeOn lo hi h.mem m' := by
  intro x h1 h2
  rw [hm x h1 h2, q.frame x (by omega)]

theorem Mem.storeChars_cons_at (m : Mem) (a : Nat) (b : Nat) (bs : List Nat) :
    m.storeChars a (b :: bs) a = some (Cell.char b, 0) := by
  simp only [Mem.storeChars]
  rw [Mem.storeChars_outside _ _ _ _ (by omega), Mem.store_inside _ _ _ _ _ (by omega)]
  simp

theorem Mem.load_one (m : Mem) (a : Nat) (c : Cell) (h : m a = some (c, 0)) :
    m.load a 1 = some c :=
  Mem.load_of_bytes m a 1 c (by omega) (fun j hj => by
    have : j = 0 := by omega
    subst this
    exact h)

/-- The characters that `strcpy_s` stored are read back as the string, when the string has
no zero character and the scan may go far enough. -/
theorem readCString_storeChars (s : List Nat) (a fuel : Nat) (m0 m : Mem) (hn : 0 ∉ s)
    (hf : s.length < fuel)
    (hm : AgreeOn a (a + (s.length + 1)) (m0.storeChars a (s ++ [0])) m) :
    readCString m fuel a = some s := by
  induction s generalizing a fuel m0 with
  | nil =>
    obtain ⟨fuel, rfl⟩ : ∃ k, fuel = k + 1 := ⟨fuel - 1, by simp at hf; omega⟩
    have h0 := hm a (Nat.le_refl _) (by simp)
    rw [List.nil_append, Mem.storeChars_cons_at] at h0
    simp [readCString, Mem.load_one m a _ h0]
  | cons c cs ih =>
    obtain ⟨fuel, rfl⟩ : ∃ k, fuel = k + 1 := ⟨fuel - 1, by simp at hf; omega⟩
    have h0 := hm a (Nat.le_refl _) (by simp)
    rw [List.cons_append, Mem.storeChars_cons_at] at h0
    have hc : c ≠ 0 := fun e => hn (by simp [e])
    have hr := ih (a + 1) fuel (m0.store a 1 (Cell.char c))
      (fun e => hn (List.mem_cons_of_mem _ e)) (by simp at hf; omega)
      (fun x h1 h2 => by
        rw [hm x (by omega) (by simp only [List.length_cons]; omega)]
        rfl)
    simp [readCString, Mem.load_one m a _ h0, hc, hr]

theorem takeWhile_nulFree (s : List Nat) (hn : 0 ∉ s) :
    s.takeWhile (fun c => c != 0) = s := by
  rw [List.takeWhile_eq_self_iff]
  intro c hc
  simp only [bne_iff_ne, ne_eq]
  intro e
  exact hn (e ▸ hc)

/-- The result of `BlockAllocator::allocate`, named: pointer `q` and heap `h'`. -/
theorem allocate_block_spec (pBytes : Nat) (T : TypeLayout) (count : Nat) (h : Heap)
    (hb : pBytes + (h.totalSize + GetPadding T.align h.totalSize + T.size * count) < 2 ^ 64) :
    ∃ q h', (Allocator.BlockAllocator pBytes).allocate T count h = (q, h') ∧
      q = pBytes + (h.totalSize + GetPadding T.align h.totalSize) ∧
      h'.totalSize = h.totalSize + GetPadding T.align h.totalSize + T.size * count ∧
      h'.mem = h.mem :=
  ⟨_, _, allocate_block pBytes T count h hb, rfl, rfl, rfl⟩

theorem IntrospectionString.ApiClone_readable_string (L : ApiLayout) (pBytes fuel : Nat)
    (hL : L.SizesPositive) (hp : 0 < pBytes) (self : IntrospectionString)
    (hn : self.NulFree) :
    Readable pBytes fuel (self.requests L) (self.ApiClone L (.BlockAllocator pBytes))
      (fun m q => readString L m fuel q) self := by
  intro h hb hf m' hm
  simp only [IntrospectionString.requests, exactEnd] at hb hf hm
  have hs : charLayout.size * (self.buffer_.length + 1) = self.buffer_.length + 1 := by
    simp [charLayout]
  obtain ⟨qa, ha, ea, hqa, hta, hma⟩ :=
    allocate_block_spec pBytes L.PM_INTROSPECTION_STRING 1 h (by omega)
  obtain ⟨qd, hd, ed, hqd, htd, hmd⟩ :=
    allocate_block_spec pBytes charLayout (self.buffer_.length + 1) ha (by rw [hta]; omega)
  rw [hta] at hqd htd
  have hA : qa ≠ 0 := by omega
  have hD : qd ≠ 0 := by omega
  have hsz := hL.1
  simp only [IntrospectionString.ApiClone, ea, ed, if_pos hA, if_pos hD,
    Heap.construct_mem] at hm ⊢
  have hload := Mem.load_of_agree_store hm hsz (by omega) (by omega)
  have hcs := readCString_storeChars self.buffer_ qd fuel hd.mem m' hn (by omega)
    (by
      have := ((hm.mono qd (qd + (self.buffer_.length + 1)) (by omega) (by omega)).of_store
        (Or.inl (by omega)))
      simpa [Heap.strcpy_s, takeWhile_nulFree _ hn] using this)
  simp only [readString, hload, hcs, Option.map_some']

theorem cloneNonApiClonable_readable (L : ApiLayout) (pBytes fuel : Nat)
    (hL : L.SizesPositive) (hp : 0 < pBytes) (stat : Int) :
    Readable pBytes fuel (requestsNonApiClonable L stat)
      (cloneNonApiClonable L (.BlockAllocator pBytes) stat) (fun m q => readStat L m q) stat := by
  intro h hb hf m' hm
  simp only [requestsNonApiClonable, exactEnd] at hb hf hm
  obtain ⟨qa, ha, ea, hqa, hta, hma⟩ := allocate_block_spec pBytes L.PM_STAT 1 h (by omega)
  have hA : qa ≠ 0 := by omega
  have hsz := hL.2.2.2.2.2.2.2.2.2.1
  simp only [cloneNonApiClonable, ea, if_pos hA, Heap.construct_mem] at hm ⊢
  have hload := Mem.load_of_agree_store hm hsz (by omega) (by omega)
  simp only [readStat, hload]

theorem IntrospectionDeviceMetricInfo.ApiClone_readable_deviceMetricInfo (L : ApiLayout) (pBytes fuel : Nat)
    (hL : L.SizesPositive) (hp : 0 < pBytes) (self : IntrospectionDeviceMetricInfo) :
    Readable pBytes fuel (self.requests L) (self.ApiClone L (.BlockAllocator pBytes))
      (fun m q => readDeviceMetricInfo L m q) self := by
  intro h hb hf m' hm
  simp only [IntrospectionDeviceMetricInfo.requests, exactEnd] at hb hf hm
  obtain ⟨qa, ha, ea, hqa, hta, hma⟩ :=
    allocate_block_spec pBytes L.PM_INTROSPECTION_DEVICE_METRIC_INFO 1 h (by omega)
  have hA : qa ≠ 0 := by omega
  have hsz := hL.2.2.2.2.2.1
  simp only [IntrospectionDeviceMetricInfo.ApiClone, ea, if_pos hA, Heap.construct_mem] at hm ⊢
  have hload := Mem.load_of_agree_store hm hsz (by omega) (by omega)
  simp only [readDeviceMetricInfo, hload]

theorem IntrospectionDataTypeInfo.ApiClone_readable_dataTypeInfo (L : ApiLayout) (pBytes fuel : Nat)
    (hL : L.SizesPositive) (hp : 0 < pBytes) (self : IntrospectionDataTypeInfo) :
    Readable pBytes fuel (self.requests L) (self.ApiClone L (.BlockAllocator pBytes))
      (fun m q => readDataTypeInfo L m q) self := by
  intro h hb hf m' hm
  simp only [IntrospectionDataTypeInfo.requests, exactEnd] at hb hf hm
  obtain ⟨qa, ha, ea, hqa, hta, hma⟩ :=
    allocate_block_spec pBytes L.PM_INTROSPECTION_DATA_TYPE_INFO 1 h (by omega)
  have hA : qa ≠ 0 := by omega
  have hsz := hL.2.2.2.2.2.2.1
  simp only [IntrospectionDataTypeInfo.ApiClone, ea, if_pos hA, Heap.construct_mem] at hm ⊢
  have hload := Mem.load_of_agree_store hm hsz (by omega) (by omega)
  simp only [readDataTypeInfo, hload]

/-- The element loop advances the counter exactly and, below the counter value it started
from, changes only the pointer slots it fills. -/
theorem IntrospectionObjArray.cloneElements_frame {T : Type} (L : ApiLayout)
    (pBytes : Nat) (cloneElement : T → Heap → Nat × Heap)
    (elementRequest : T → List Request) (xs : List T)
    (hpl : ∀ x ∈ xs, ∀ h : Heap, PlacedIf pBytes (elementRequest x) h (cloneElement x h).2)
    (pData i : Nat) (h : Heap)
    (hb : pBytes + exactEnd (IntrospectionObjArray.elementRequests elementRequest xs)
      h.totalSize < 2 ^ 64)
    (hslots : pData + i * L.voidPtr.size + xs.length * L.voidPtr.size ≤ pBytes + h.totalSize) :
    (IntrospectionObjArray.cloneElements L cloneElement pData xs i h).totalSize =
        exactEnd (IntrospectionObjArray.elementRequests elementRequest xs) h.totalSize ∧
      ∀ a, a < pBytes + h.totalSize →
        a < pData + i * L.voidPtr.size ∨
          pData + i * L.voidPtr.size + xs.length * L.voidPtr.size ≤ a →
        (IntrospectionObjArray.cloneElements L cloneElement pData xs i h).mem a = h.mem a := by
  induction xs generalizing i h with
  | nil => exact ⟨rfl, fun _ _ _ => rfl⟩
  | cons x xs ih =>
    simp only [IntrospectionObjArray.elementRequests, exactEnd_append] at hb ⊢
    have hm := le_exactEnd (IntrospectionObjArray.elementRequests elementRequest xs)
      (exactEnd (elementRequest x) h.totalSize)
    have hm0 := le_exactEnd (elementRequest x) h.totalSize
    have e1 : (i + 1) * L.voidPtr.size = i * L.voidPtr.size + L.voidPtr.size := by
      rw [Nat.add_mul, Nat.one_mul]
    have e2 : (x :: xs).length * L.voidPtr.size =
        xs.length * L.voidPtr.size + L.voidPtr.size := by
      rw [List.length_cons, Nat.add_mul, Nat.one_mul]
    have P := hpl x (List.mem_cons_self _ _) h (by omega)
    have ht : (if pData ≠ 0 then
        (cloneElement x h).2.construct (pData + i * L.voidPtr.size) L.voidPtr
          (Cell.voidPtr (cloneElement x h).1) else (cloneElement x h).2).totalSize =
        exactEnd (elementRequest x) h.totalSize := by
      split <;> exact P.totalSize
    obtain ⟨i1, i2⟩ := ih (fun y hy => hpl y (List.mem_cons_of_mem _ hy)) (i + 1)
      (if pData ≠ 0 then (cloneElement x h).2.construct (pData + i * L.voidPtr.size) L.voidPtr
          (Cell.voidPtr (cloneElement x h).1) else (cloneElement x h).2)
      (by rw [ht]; exact hb) (by rw [ht]; omega)
    rw [ht] at i1 i2
    refine ⟨i1, ?_⟩
    intro a ha hs
    simp only [IntrospectionObjArray.cloneElements]
    rw [i2 a (by omega) (by omega)]
    split
    · rw [Heap.construct_mem, Mem.store_outside _ _ _ _ _ (by omega), P.frame a (Or.inl ha)]
    · exact P.frame a (Or.inl ha)

/-- The elements cloned by the loop are read back, in order, through the pointer slots the
loop filled. -/
theorem IntrospectionObjArray.cloneElements_readable {T : Type} (L : ApiLayout)
    (pBytes fuel : Nat) (cloneElement : T → Heap → Nat × Heap)
    (elementRequest : T → List Request) (readElement : Mem → Nat → Option T) (xs : List T)
    (hpl : ∀ x ∈ xs, ∀ h : Heap, PlacedIf pBytes (elementRequest x) h (cloneElement x h).2)
    (hrd : ∀ x ∈ xs, Readable pBytes fuel (elementRequest x) (cloneElement x) readElement x)
    (hsz : 0 < L.voidPtr.size) (pData i : Nat) (hpd : pData ≠ 0) (h : Heap)
    (hb : pBytes + exactEnd (IntrospectionObjArray.elementRequests elementRequest xs)
      h.totalSize < 2 ^ 64)
    (hf : exactEnd (IntrospectionObjArray.elementRequests elementRequest xs) h.totalSize ≤
      h.totalSize + fuel)
    (hslots : pData + i * L.voidPtr.size + xs.length * L.voidPtr.size ≤ pBytes + h.totalSize)
    (m' : Mem)
    (hm1 : AgreeOn (pData + i * L.voidPtr.size)
      (pData + i * L.voidPtr.size + xs.length * L.voidPtr.size)
      (IntrospectionObjArray.cloneElements L cloneElement pData xs i h).mem m')
    (hm2 : AgreeOn (pBytes + h.totalSize)
      (pBytes + exactEnd (IntrospectionObjArray.elementRequests elementRequest xs) h.totalSize)
      (IntrospectionObjArray.cloneElements L cloneElement pData xs i h).mem m') :
    readElements L m' (readElement m') pData i xs.length = some xs := by
  induction xs generalizing i h with
  | nil => rfl
  | cons x xs ih =>
    simp only [IntrospectionObjArray.elementRequests, exactEnd_append] at hb hf hm2
    have hmono := le_exactEnd (IntrospectionObjArray.elementRequests elementRequest xs)
      (exactEnd (elementRequest x) h.totalSize)
    have hm0 := le_exactEnd (elementRequest x) h.totalSize
    have e1 : (i + 1) * L.voidPtr.size = i * L.voidPtr.size + L.voidPtr.size := by
      rw [Nat.add_mul, Nat.one_mul]
    have e2 : (x :: xs).length * L.voidPtr.size =
        xs.length * L.voidPtr.size + L.voidPtr.size := by
      rw [List.length_cons, Nat.add_mul, Nat.one_mul]
    have P := hpl x (List.mem_cons_self _ _) h (by omega)
    simp only [IntrospectionObjArray.cloneElements, if_pos hpd] at hm1 hm2
    have ht : ((cloneElement x h).2.construct (pData + i * L.voidPtr.size) L.voidPtr
        (Cell.voidPtr (cloneElement x h).1)).totalSize =
        exactEnd (elementRequest x) h.totalSize := P.totalSize
    obtain ⟨f1, f2⟩ := IntrospectionObjArray.cloneElements_frame L pBytes cloneElement
      elementRequest xs (fun y hy => hpl y (List.mem_cons_of_mem _ hy)) pData (i + 1)
      ((cloneElement x h).2.construct (pData + i * L.voidPtr.size) L.voidPtr
        (Cell.voidPtr (cloneElement x h).1))
      (by rw [ht]; exact hb) (by rw [ht]; omega)
    rw [ht] at f2
    -- the slot
    have hslot : m'.load (pData + i * L.voidPtr.size) L.voidPtr.size =
        some (Cell.voidPtr (cloneElement x h).1) := by
      apply Mem.load_of_bytes _ _ _ _ hsz
      intro j hj
      rw [hm1 _ (by omega) (by omega), f2 _ (by omega) (by omega), Heap.construct_mem,
        Mem.store_inside _ _ _ _ _ (by omega)]
      simp
    -- the element
    have helem : readElement m' (cloneElement x h).1 = some x := by
      apply hrd x (List.mem_cons_self _ _) h (by omega) (by omega)
      intro a h1 h2
      rw [hm2 a h1 (by omega), f2 a (by omega) (by omega), Heap.construct_mem,
        Mem.store_outside _ _ _ _ _ (by omega)]
    -- the rest
    have hrest := ih (fun y hy => hpl y (List.mem_cons_of_mem _ hy))
      (fun y hy => hrd y (List.mem_cons_of_mem _ hy)) (i + 1)
      ((cloneElement x h).2.construct (pData + i * L.voidPtr.size) L.voidPtr
        (Cell.voidPtr (cloneElement x h).1))
      (by rw [ht]; exact hb) (by rw [ht]; omega) (by rw [ht]; omega)
      (hm1.mono _ _ (by omega) (by omega))
      (by rw [ht]; exact hm2.mono _ _ (by omega) (Nat.le_refl _))
    simp only [List.length_cons, readElements, hslot, helem, hrest]

theorem IntrospectionObjArray.ApiClone_readable_objArray {T : Type} (L : ApiLayout)
    (pBytes fuel : Nat) (cloneElement : T → Heap → Nat × Heap)
    (elementRequest : T → List Request) (readElement : Mem → Nat → Option T)
    (self : IntrospectionObjArray T)
    (hpl : ∀ x ∈ self.buffer_, ∀ h : Heap,
      PlacedIf pBytes (elementRequest x) h (cloneElement x h).2)
    (hrd : ∀ x ∈ self.buffer_,
      Readable pBytes fuel (elementRequest x) (cloneElement x) readElement x)
    (hL : L.SizesPositive) (hp : 0 < pBytes) :
    Readable pBytes fuel (self.requests L elementRequest)
      (self.ApiClone L cloneElement (.BlockAllocator pBytes))
      (fun m q => readObjArray L m (readElement m) q) self := by
  intro h hb hf m' hm
  simp only [IntrospectionObjArray.requests, exactEnd_append] at hb hf hm
  simp only [exactEnd] at hb hf hm
  have hmono := le_exactEnd (IntrospectionObjArray.elementRequests elementRequest self.buffer_)
    (h.totalSize + GetPadding L.PM_INTROSPECTION_OBJARRAY.align h.totalSize +
      L.PM_INTROSPECTION_OBJARRAY.size * 1 +
      GetPadding L.voidPtr.align (h.totalSize +
        GetPadding L.PM_INTROSPECTION_OBJARRAY.align h.totalSize +
        L.PM_INTROSPECTION_OBJARRAY.size * 1) + L.voidPtr.size * self.buffer_.length)
  obtain ⟨qa, ha, ea, hqa, hta, hma⟩ :=
    allocate_block_spec pBytes L.PM_INTROSPECTION_OBJARRAY 1 h (by omega)
  obtain ⟨qd, hd, ed, hqd, htd, hmd⟩ :=
    allocate_block_spec pBytes L.voidPtr self.buffer_.length ha (by rw [hta]; omega)
  rw [hta] at hqd htd
  have hA : qa ≠ 0 := by omega
  have hD : qd ≠ 0 := by omega
  have hc := Nat.mul_comm L.voidPtr.size self.buffer_.length
  simp only [IntrospectionObjArray.ApiClone, ea, ed, if_pos hA, Heap.construct_mem] at hm ⊢
  have hload := Mem.load_of_agree_store hm hL.2.1 (by omega) (by omega)
  have hels := IntrospectionObjArray.cloneElements_readable L pBytes fuel cloneElement
    elementRequest readElement self.buffer_ hpl hrd hL.2.2.2.2.2.2.2.2.2.2 qd 0 hD hd
    (by rw [htd]; exact hb) (by rw [htd]; omega) (by rw [htd]; omega) m'
    ((hm.mono _ _ (by omega) (by rw [htd] at *; omega)).of_store (Or.inl (by omega)))
    ((hm.mono _ _ (by omega) (by rw [htd])).of_store (Or.inl (by omega)))
  simp only [readObjArray, hload, hels, Option.map_some']

/-! ## Nodes with children -/

theorem Budget.cons {pBytes fuel c0 : Nat} {T : TypeLayout} {n : Nat} {rs : List Request}
    {c : Nat} (B : Budget pBytes fuel c0 ((T, n) :: rs) c) :
    pBytes + (c + GetPadding T.align c + T.size * n) < 2 ^ 64 ∧
      Budget pBytes fuel c0 rs (c + GetPadding T.align c + T.size * n) := by
  have := le_exactEnd rs (c + GetPadding T.align c + T.size * n)
  obtain ⟨b1, b2⟩ := B
  simp only [exactEnd] at b1 b2
  exact ⟨by omega, b1, b2⟩

theorem Budget.split {pBytes fuel c0 : Nat} {rs rest : List Request} {c : Nat}
    (B : Budget pBytes fuel c0 (rs ++ rest) c) :
    Budget pBytes fuel c0 rs c ∧ Budget pBytes fuel c0 rest (exactEnd rs c) := by
  have := le_exactEnd rest (exactEnd rs c)
  obtain ⟨b1, b2⟩ := B
  rw [exactEnd_append] at b1 b2
  exact ⟨⟨by omega, by omega⟩, b1, b2⟩

theorem Placed.le {pBytes : Nat} {rs : List Request} {h h' : Heap}
    (q : Placed pBytes rs h h') : h.totalSize ≤ h'.totalSize := by
  rw [q.totalSize]
  exact le_exactEnd _ _

/-- Using the readability of a child clone inside its parent: the stretch of the child is
named by the counter values before and after it. -/
theorem Readable.use {α : Type} {pBytes fuel c0 : Nat} {rs : List Request}
    {f : Heap → Nat × Heap} {read : Mem → Nat → Option α} {t : α}
    (R : Readable pBytes fuel rs f read t) {h : Heap} (q : PlacedIf pBytes rs h (f h).2)
    (B : Budget pBytes fuel c0 rs h.totalSize) (hc : c0 ≤ h.totalSize) :
    (∀ m' : Mem, AgreeOn (pBytes + h.totalSize) (pBytes + (f h).2.totalSize) (f h).2.mem m' →
        read m' (f h).1 = some t) ∧ Placed pBytes rs h (f h).2 := by
  have P := q B.1
  refine ⟨?_, P⟩
  intro m' hm
  rw [P.totalSize] at hm
  exact R h B.1 (by have := B.2; omega) m' hm

theorem IntrospectionDevice.ApiClone_readable_device (L : ApiLayout) (pBytes fuel : Nat)
    (hL : L.SizesPositive) (hp : 0 < pBytes) (self : IntrospectionDevice)
    (hn : self.NulFree) :
    Readable pBytes fuel (self.requests L) (self.ApiClone L (.BlockAllocator pBytes))
      (fun m q => readDevice L m fuel q) self := by
  intro h hb hf m' hm
  have PW := self.ApiClone_placedIf_device L pBytes h hb
  rw [← PW.totalSize] at hm
  have B : Budget pBytes fuel h.totalSize (self.requests L) h.totalSize := ⟨hb, hf⟩
  simp only [IntrospectionDevice.requests, List.singleton_append] at B
  obtain ⟨ba, B0⟩ := B.cons
  obtain ⟨qa, ha, ea, hqa, hta, hma⟩ :=
    allocate_block_spec pBytes L.PM_INTROSPECTION_DEVICE 1 h ba
  rw [← hta] at B0
  have hA : qa ≠ 0 := by omega
  have hsz := hL.2.2.2.2.1
  simp only [IntrospectionDevice.ApiClone, ea, if_pos hA, Heap.construct_mem,
    Heap.construct_totalSize] at hm ⊢
  obtain ⟨R1, P1⟩ := (self.name_.ApiClone_readable_string L pBytes fuel hL hp hn).use
    (self.name_.ApiClone_placedIf_string L pBytes ha) B0 (by omega)
  have L1 := P1.le
  generalize self.name_.ApiClone L (.BlockAllocator pBytes) ha = r1 at *
  have hload := Mem.load_of_agree_store hm hsz (by omega) (by omega)
  have h1 := R1 m' ((hm.mono _ _ (by omega) (Nat.le_refl _)).of_store (Or.inl (by omega)))
  simp only [readDevice, hload, h1]

theorem IntrospectionEnumKey.ApiClone_readable_enumKey (L : ApiLayout) (pBytes fuel : Nat)
    (hL : L.SizesPositive) (hp : 0 < pBytes) (self : IntrospectionEnumKey)
    (hn : self.NulFree) :
    Readable pBytes fuel (self.requests L) (self.ApiClone L (.BlockAllocator pBytes))
      (fun m q => readEnumKey L m fuel q) self := by
  intro h hb hf m' hm
  have PW := self.ApiClone_placedIf_enumKey L pBytes h hb
  rw [← PW.totalSize] at hm
  have B : Budget pBytes fuel h.totalSize (self.requests L) h.totalSize := ⟨hb, hf⟩
  simp only [IntrospectionEnumKey.requests, List.singleton_append, List.append_assoc,
    List.cons_append, List.nil_append] at B
  obtain ⟨ba, B0⟩ := B.cons
  obtain ⟨qa, ha, ea, hqa, hta, hma⟩ :=
    allocate_block_spec pBytes L.PM_INTROSPECTION_ENUM_KEY 1 h ba
  rw [← hta] at B0
  have hA : qa ≠ 0 := by omega
  have hsz := hL.2.2.1
  simp only [IntrospectionEnumKey.ApiClone, ea, if_pos hA, Heap.construct_mem,
    Heap.construct_totalSize] at hm ⊢
  -- symbol
  obtain ⟨B1, B1'⟩ := B0.split
  obtain ⟨R1, P1⟩ := (self.symbol_.ApiClone_readable_string L pBytes fuel hL hp hn.1).use
    (self.symbol_.ApiClone_placedIf_string L pBytes ha) B1 (by omega)
  have L1 := P1.le
  rw [← P1.totalSize] at B1'
  generalize self.symbol_.ApiClone L (.BlockAllocator pBytes) ha = r1 at *
  -- name
  obtain ⟨B2, B2'⟩ := B1'.split
  obtain ⟨R2, P2⟩ := (self.name_.ApiClone_readable_string L pBytes fuel hL hp hn.2.1).use
    (self.name_.ApiClone_placedIf_string L pBytes r1.2) B2 (by omega)
  have L2 := P2.le
  rw [← P2.totalSize] at B2'
  generalize self.name_.ApiClone L (.BlockAllocator pBytes) r1.2 = r2 at *
  -- short name
  obtain ⟨B3, B3'⟩ := B2'.split
  obtain ⟨R3, P3⟩ := (self.shortName_.ApiClone_readable_string L pBytes fuel hL hp hn.2.2.1).use
    (self.shortName_.ApiClone_placedIf_string L pBytes r2.2) B3 (by omega)
  have L3 := P3.le
  rw [← P3.totalSize] at B3'
  generalize self.shortName_.ApiClone L (.BlockAllocator pBytes) r2.2 = r3 at *
  -- description
  obtain ⟨R4, P4⟩ := (self.description_.ApiClone_readable_string L pBytes fuel hL hp hn.2.2.2).use
    (self.description_.ApiClone_placedIf_string L pBytes r3.2) B3' (by omega)
  have L4 := P4.le
  generalize self.description_.ApiClone L (.BlockAllocator pBytes) r3.2 = r4 at *
  have hload := Mem.load_of_agree_store hm hsz (by omega) (by omega)
  have h4 := R4 m' ((hm.mono (pBytes + r3.2.totalSize) (pBytes + r4.2.totalSize) (by omega)
    (Nat.le_refl _)).of_store (Or.inl (by omega)))
  have h3 := R3 m' (((hm.mono (pBytes + r2.2.totalSize) (pBytes + r3.2.totalSize) (by omega)
    (by omega)).of_store (Or.inl (by omega))).of_placed P4 (Nat.le_refl _))
  have h2 := R2 m' ((((hm.mono (pBytes + r1.2.totalSize) (pBytes + r2.2.totalSize) (by omega)
    (by omega)).of_store (Or.inl (by omega))).of_placed P4 (by omega)).of_placed P3
      (Nat.le_refl _))
  have h1 := R1 m' (((((hm.mono (pBytes + ha.totalSize) (pBytes + r1.2.totalSize) (by omega)
    (by omega)).of_store (Or.inl (by omega))).of_placed P4 (by omega)).of_placed P3
      (by omega)).of_placed P2 (Nat.le_refl _))
  simp only [readEnumKey, hload, h1, h2, h3, h4]

theorem IntrospectionEnum.ApiClone_readable_enum (L : ApiLayout) (pBytes fuel : Nat)
    (hL : L.SizesPositive) (hp : 0 < pBytes) (self : IntrospectionEnum)
    (hn : self.NulFree) :
    Readable pBytes fuel (self.requests L) (self.ApiClone L (.BlockAllocator pBytes))
      (fun m q => readEnum L m fuel q) self := by
  intro h hb hf m' hm
  have PW := self.ApiClone_placedIf_enum L pBytes h hb
  rw [← PW.totalSize] at hm
  have B : Budget pBytes fuel h.totalSize (self.requests L) h.totalSize := ⟨hb, hf⟩
  simp only [IntrospectionEnum.requests, List.singleton_append, List.append_assoc,
    List.cons_append, List.nil_append] at B
  obtain ⟨ba, B0⟩ := B.cons
  obtain ⟨qa, ha, ea, hqa, hta, hma⟩ :=
    allocate_block_spec pBytes L.PM_INTROSPECTION_ENUM 1 h ba
  rw [← hta] at B0
  have hA : qa ≠ 0 := by omega
  have hsz := hL.2.2.2.1
  simp only [IntrospectionEnum.ApiClone, ea, if_pos hA, Heap.construct_mem,
    Heap.construct_totalSize] at hm ⊢
  -- symbol
  obtain ⟨B1, B1'⟩ := B0.split
  obtain ⟨R1, P1⟩ := (self.symbol_.ApiClone_readable_string L pBytes fuel hL hp hn.1).use
    (self.symbol_.ApiClone_placedIf_string L pBytes ha) B1 (by omega)
  have L1 := P1.le
  rw [← P1.totalSize] at B1'
  generalize self.symbol_.ApiClone L (.BlockAllocator pBytes) ha = r1 at *
  -- description
  obtain ⟨B2, B2'⟩ := B1'.split
  obtain ⟨R2, P2⟩ := (self.description_.ApiClone_readable_string L pBytes fuel hL hp hn.2.1).use
    (self.description_.ApiClone_placedIf_string L pBytes r1.2) B2 (by omega)
  have L2 := P2.le
  rw [← P2.totalSize] at B2'
  generalize self.description_.ApiClone L (.BlockAllocator pBytes) r1.2 = r2 at *
  -- keys
  obtain ⟨R3, P3⟩ := (self.keys_.ApiClone_readable_objArray L pBytes fuel
    (IntrospectionEnumKey.ApiClone L (.BlockAllocator pBytes)) (IntrospectionEnumKey.requests L)
    (fun m q => readEnumKey L m fuel q)
    (fun x _ h => x.ApiClone_placedIf_enumKey L pBytes h)
    (fun x hx => x.ApiClone_readable_enumKey L pBytes fuel hL hp (hn.2.2 x hx)) hL hp).use
    (self.keys_.ApiClone_placedIf_objArray L pBytes _ _ (fun x _ h => x.ApiClone_placedIf_enumKey L pBytes h)
      r2.2) B2' (by omega)
  have L3 := P3.le
  generalize self.keys_.ApiClone L (IntrospectionEnumKey.ApiClone L (.BlockAllocator pBytes))
    (.BlockAllocator pBytes) r2.2 = r3 at *
  have hload := Mem.load_of_agree_store hm hsz (by omega) (by omega)
  have h3 := R3 m' ((hm.mono (pBytes + r2.2.totalSize) (pBytes + r3.2.totalSize) (by omega)
    (Nat.le_refl _)).of_store (Or.inl (by omega)))
  have h2 := R2 m' (((hm.mono (pBytes + r1.2.totalSize) (pBytes + r2.2.totalSize) (by omega)
    (by omega)).of_store (Or.inl (by omega))).of_placed P3 (Nat.le_refl _))
  have h1 := R1 m' ((((hm.mono (pBytes + ha.totalSize) (pBytes + r1.2.totalSize) (by omega)
    (by omega)).of_store (Or.inl (by omega))).of_placed P3 (by omega)).of_placed P2
      (Nat.le_refl _))
  simp only [readEnum, hload, h1, h2, h3]

theorem IntrospectionMetric.ApiClone_readable_metric (L : ApiLayout) (pBytes fuel : Nat)
    (hL : L.SizesPositive) (hp : 0 < pBytes) (self : IntrospectionMetric) :
    Readable pBytes fuel (self.requests L) (self.ApiClone L (.BlockAllocator pBytes))
      (fun m q => readMetric L m q) self := by
  intro h hb hf m' hm
  have PW := self.ApiClone_placedIf_metric L pBytes h hb
  rw [← PW.totalSize] at hm
  have B : Budget pBytes fuel h.totalSize (self.requests L) h.totalSize := ⟨hb, hf⟩
  simp only [IntrospectionMetric.requests, List.singleton_append, List.append_assoc,
    List.cons_append, List.nil_append] at B
  obtain ⟨ba, B0⟩ := B.cons
  obtain ⟨qa, ha, ea, hqa, hta, hma⟩ :=
    allocate_block_spec pBytes L.PM_INTROSPECTION_METRIC 1 h ba
  rw [← hta] at B0
  have hA : qa ≠ 0 := by omega
  have hsz := hL.2.2.2.2.2.2.2.1
  simp only [IntrospectionMetric.ApiClone, ea, if_pos hA, Heap.construct_mem,
    Heap.construct_totalSize] at hm ⊢
  -- type info
  obtain ⟨B1, B1'⟩ := B0.split
  obtain ⟨R1, P1⟩ := (self.pTypeInfo_.ApiClone_readable_dataTypeInfo L pBytes fuel hL hp).use
    (self.pTypeInfo_.ApiClone_placedIf_dataTypeInfo L pBytes ha) B1 (by omega)
  have L1 := P1.le
  rw [← P1.totalSize] at B1'
  generalize self.pTypeInfo_.ApiClone L (.BlockAllocator pBytes) ha = r1 at *
  -- stats
  obtain ⟨B2, B2'⟩ := B1'.split
  obtain ⟨R2, P2⟩ := (self.stats_.ApiClone_readable_objArray L pBytes fuel
    (cloneNonApiClonable L (.BlockAllocator pBytes)) (requestsNonApiClonable L)
    (fun m q => readStat L m q)
    (fun x _ h => cloneNonApiClonable_placedIf L pBytes x h)
    (fun x _ => cloneNonApiClonable_readable L pBytes fuel hL hp x) hL hp).use
    (self.stats_.ApiClone_placedIf_objArray L pBytes _ _
      (fun x _ h => cloneNonApiClonable_placedIf L pBytes x h) r1.2) B2 (by omega)
  have L2 := P2.le
  rw [← P2.totalSize] at B2'
  generalize self.stats_.ApiClone L (cloneNonApiClonable L (.BlockAllocator pBytes))
    (.BlockAllocator pBytes) r1.2 = r2 at *
  -- per-device infos
  obtain ⟨R3, P3⟩ := (self.deviceMetricInfo_.ApiClone_readable_objArray L pBytes fuel
    (IntrospectionDeviceMetricInfo.ApiClone L (.BlockAllocator pBytes))
    (IntrospectionDeviceMetricInfo.requests L)
    (fun m q => readDeviceMetricInfo L m q)
    (fun x _ h => x.ApiClone_placedIf_deviceMetricInfo L pBytes h)
    (fun x _ => x.ApiClone_readable_deviceMetricInfo L pBytes fuel hL hp) hL hp).use
    (self.deviceMetricInfo_.ApiClone_placedIf_objArray L pBytes _ _
      (fun x _ h => x.ApiClone_placedIf_deviceMetricInfo L pBytes h) r2.2) B2' (by omega)
  have L3 := P3.le
  generalize self.deviceMetricInfo_.ApiClone L
    (IntrospectionDeviceMetricInfo.ApiClone L (.BlockAllocator pBytes))
    (.BlockAllocator pBytes) r2.2 = r3 at *
  have hload := Mem.load_of_agree_store hm hsz (by omega) (by omega)
  have h3 := R3 m' ((hm.mono (pBytes + r2.2.totalSize) (pBytes + r3.2.totalSize) (by omega)
    (Nat.le_refl _)).of_store (Or.inl (by omega)))
  have h2 := R2 m' (((hm.mono (pBytes + r1.2.totalSize) (pBytes + r2.2.totalSize) (by omega)
    (by omega)).of_store (Or.inl (by omega))).of_placed P3 (Nat.le_refl _))
  have h1 := R1 m' ((((hm.mono (pBytes + ha.totalSize) (pBytes + r1.2.totalSize) (by omega)
    (by omega)).of_store (Or.inl (by omega))).of_placed P3 (by omega)).of_placed P2
      (Nat.le_refl _))
  simp only [readMetric, hload, h1, h2, h3]

theorem IntrospectionRoot.ApiClone_readable_root (L : ApiLayout) (pBytes fuel : Nat)
    (hL : L.SizesPositive) (hp : 0 < pBytes) (self : IntrospectionRoot)
    (hn : self.NulFree) :
    Readable pBytes fuel (self.requests L) (self.ApiClone L (.BlockAllocator pBytes))
      (fun m q => readRoot L m fuel q) self := by
  intro h hb hf m' hm
  have PW := self.ApiClone_placedIf_root L pBytes h hb
  rw [← PW.totalSize] at hm
  have B : Budget pBytes fuel h.totalSize (self.requests L) h.totalSize := ⟨hb, hf⟩
  simp only [IntrospectionRoot.requests, List.singleton_append, List.append_assoc,
    List.cons_append, List.nil_append] at B
  obtain ⟨ba, B0⟩ := B.cons
  obtain ⟨qa, ha, ea, hqa, hta, hma⟩ :=
    allocate_block_spec pBytes L.PM_INTROSPECTION_ROOT 1 h ba
  rw [← hta] at B0
  have hA : qa ≠ 0 := by omega
  have hsz := hL.2.2.2.2.2.2.2.2.1
  simp only [IntrospectionRoot.ApiClone, ea, if_pos hA, Heap.construct_mem,
    Heap.construct_totalSize] at hm ⊢
  -- metrics
  obtain ⟨B1, B1'⟩ := B0.split
  obtain ⟨R1, P1⟩ := (self.metrics_.ApiClone_readable_objArray L pBytes fuel
    (IntrospectionMetric.ApiClone L (.BlockAllocator pBytes)) (IntrospectionMetric.requests L)
    (fun m q => readMetric L m q)
    (fun x _ h => x.ApiClone_placedIf_metric L pBytes h)
    (fun x _ => x.ApiClone_readable_metric L pBytes fuel hL hp) hL hp).use
    (self.metrics_.ApiClone_placedIf_objArray L pBytes _ _
      (fun x _ h => x.ApiClone_placedIf_metric L pBytes h) ha) B1 (by omega)
  have L1 := P1.le
  rw [← P1.totalSize] at B1'
  generalize self.metrics_.ApiClone L (IntrospectionMetric.ApiClone L (.BlockAllocator pBytes))
    (.BlockAllocator pBytes) ha = r1 at *
  -- enums
  obtain ⟨B2, B2'⟩ := B1'.split
  obtain ⟨R2, P2⟩ := (self.enums_.ApiClone_readable_objArray L pBytes fuel
    (IntrospectionEnum.ApiClone L (.BlockAllocator pBytes)) (IntrospectionEnum.requests L)
    (fun m q => readEnum L m fuel q)
    (fun x _ h => x.ApiClone_placedIf_enum L pBytes h)
    (fun x hx => x.ApiClone_readable_enum L pBytes fuel hL hp (hn.1 x hx)) hL hp).use
    (self.enums_.ApiClone_placedIf_objArray L pBytes _ _
      (fun x _ h => x.ApiClone_placedIf_enum L pBytes h) r1.2) B2 (by omega)
  have L2 := P2.le
  rw [← P2.totalSize] at B2'
  generalize self.enums_.ApiClone L (IntrospectionEnum.ApiClone L (.BlockAllocator pBytes))
    (.BlockAllocator pBytes) r1.2 = r2 at *
  -- devices
  obtain ⟨R3, P3⟩ := (self.devices_.ApiClone_readable_objArray L pBytes fuel
    (IntrospectionDevice.ApiClone L (.BlockAllocator pBytes)) (IntrospectionDevice.requests L)
    (fun m q => readDevice L m fuel q)
    (fun x _ h => x.ApiClone_placedIf_device L pBytes h)
    (fun x hx => x.ApiClone_readable_device L pBytes fuel hL hp (hn.2 x hx)) hL hp).use
    (self.devices_.ApiClone_placedIf_objArray L pBytes _ _
      (fun x _ h => x.ApiClone_placedIf_device L pBytes h) r2.2) B2' (by omega)
  have L3 := P3.le
  generalize self.devices_.ApiClone L (IntrospectionDevice.ApiClone L (.BlockAllocator pBytes))
    (.BlockAllocator pBytes) r2.2 = r3 at *
  have hload := Mem.load_of_agree_store hm hsz (by omega) (by omega)
  have h3 := R3 m' ((hm.mono (pBytes + r2.2.totalSize) (pBytes + r3.2.totalSize) (by omega)
    (Nat.le_refl _)).of_store (Or.inl (by omega)))
  have h2 := R2 m' (((hm.mono (pBytes + r1.2.totalSize) (pBytes + r2.2.totalSize) (by omega)
    (by omega)).of_store (Or.inl (by omega))).of_placed P3 (Nat.le_refl _))
  have h1 := R1 m' ((((hm.mono (pBytes + ha.totalSize) (pBytes + r1.2.totalSize) (by omega)
    (by omega)).of_store (Or.inl (by omega))).of_placed P3 (by omega)).of_placed P2
      (Nat.le_refl _))
  simp only [readRoot, hload, h1, h2, h3]

/-! ## The clone round trip -/

/-- C3, the claim as stated fails: a device name with a zero character inside, `"G\0U"`, is
cloned by `strcpy_s` up to that character only; the clone of `nulRoot` reads back with the
device name `"G"`, not as `nulRoot`. -/
theorem IntrospectionRoot.clone_truncates_string_at_nul :
    readRoot x64Layout
        (nulRoot.ApiClone x64Layout (.BlockAllocator 4096) (Heap.fresh (fun _ => none))).2.mem
        (nulRoot.ApiClone x64Layout .ProbeAllocator (Heap.fresh (fun _ => none))).2.GetTotalSize
        (nulRoot.ApiClone x64Layout (.BlockAllocator 4096) (Heap.fresh (fun _ => none))).1 =
      some { nulRoot with devices_ := ⟨[⟨0, 1, 2, ⟨[71]⟩⟩]⟩ } ∧
    readRoot x64Layout
        (nulRoot.ApiClone x64Layout (.BlockAllocator 4096) (Heap.fresh (fun _ => none))).2.mem
        (nulRoot.ApiClone x64Layout .ProbeAllocator (Heap.fresh (fun _ => none))).2.GetTotalSize
        (nulRoot.ApiClone x64Layout (.BlockAllocator 4096) (Heap.fresh (fun _ => none))).1 ≠
      some nulRoot := by
  decide

/-- C3, amended: for every metadata tree `T` none of whose strings holds a zero character,
cloned through a `BlockAllocator` over a buffer of the probed size `N` at a non-null address
`pBytes` (with `pBytes + N` inside the address space), decoding the structure behind the
returned root pointer gives `T` again: every node with the same scalar fields, the same
strings, the same number of children in the same order.  The decoding depends on the `N`
bytes of the buffer only: it gives `T` from every memory that agrees with the result there. -/
theorem IntrospectionRoot.clone_roundtrip (L : ApiLayout) (hL : L.SizesPositive)
    (T : IntrospectionRoot) (hn : T.NulFree) (pBytes : Nat) (hp : 0 < pBytes)
    (hfit : pBytes + T.cloneExtent L < 2 ^ 64) (m m' : Mem)
    (hm : AgreeOn pBytes
      (pBytes + (T.ApiClone L .ProbeAllocator (Heap.fresh m)).2.GetTotalSize)
      (T.ApiClone L (.BlockAllocator pBytes) (Heap.fresh m)).2.mem m') :
    readRoot L m' (T.ApiClone L .ProbeAllocator (Heap.fresh m)).2.GetTotalSize
      (T.ApiClone L (.BlockAllocator pBytes) (Heap.fresh m)).1 = some T := by
  rw [IntrospectionRoot.cloneExtent_eq] at hfit
  have hN := T.probe_total_eq_exactEnd L pBytes m hfit
  rw [hN] at hm ⊢
  exact T.ApiClone_readable_root L pBytes _ hL hp hn (Heap.fresh m) hfit
    (by simp [Heap.fresh]) m' (by simpa [Heap.fresh] using hm)

theorem IntrospectionRoot.clone_roundtrip_witness :
    x64Layout.SizesPositive ∧ sampleRoot.NulFree ∧ 0 < 4096 ∧
      4096 + sampleRoot.cloneExtent x64Layout < 2 ^ 64 ∧
      readRoot x64Layout
        (sampleRoot.ApiClone x64Layout (.BlockAllocator 4096) (Heap.fresh (fun _ => none))).2.mem
        (sampleRoot.ApiClone x64Layout .ProbeAllocator (Heap.fresh (fun _ => none))).2.GetTotalSize
        (sampleRoot.ApiClone x64Layout (.BlockAllocator 4096) (Heap.fresh (fun _ => none))).1 =
      some sampleRoot :=
  ⟨by decide, by decide, by decide, by decide,
    IntrospectionRoot.clone_roundtrip x64Layout (by decide) sampleRoot (by decide) 4096
      (by decide) (by decide) (fun _ => none) _ (fun _ _ _ => rfl)⟩

/-- C4: for every metadata tree whose clone fits in the address space behind `pBytes`, with
probed total `N`: every byte range that the `BlockAllocator` hands out lies inside the
`N` bytes of the buffer, the ranges start at non-decreasing addresses in request order and
each ends before the next begins, and the placement pass changes no memory outside the
buffer. -/
theorem IntrospectionRoot.placement_inside_buffer (L : ApiLayout) (T : IntrospectionRoot)
    (pBytes : Nat) (m : Mem) (hfit : pBytes + T.cloneExtent L < 2 ^ 64) :
    (∀ c ∈ (T.ApiClone L (.BlockAllocator pBytes) (Heap.fresh m)).2.calls,
        pBytes ≤ c.result ∧ c.result + c.elemSize * c.count ≤
          pBytes + (T.ApiClone L .ProbeAllocator (Heap.fresh m)).2.GetTotalSize) ∧
      (T.ApiClone L (.BlockAllocator pBytes) (Heap.fresh m)).2.calls.Pairwise
        (fun a b => a.result ≤ b.result ∧ a.result + a.elemSize * a.count ≤ b.result) ∧
      ∀ a, a < pBytes ∨
          pBytes + (T.ApiClone L .ProbeAllocator (Heap.fresh m)).2.GetTotalSize ≤ a →
        (T.ApiClone L (.BlockAllocator pBytes) (Heap.fresh m)).2.mem a = m a := by
  rw [IntrospectionRoot.cloneExtent_eq] at hfit
  have q := T.ApiClone_placedIf_root L pBytes (Heap.fresh m) hfit
  have hN := T.probe_total_eq_exactEnd L pBytes m hfit
  rw [hN]
  obtain ⟨new, hc, hr, hs⟩ := q.calls
  have hc' : (T.ApiClone L (.BlockAllocator pBytes) (Heap.fresh m)).2.calls = new := by
    rw [hc]; rfl
  rw [hc']
  refine ⟨?_, ?_, ?_⟩
  · intro c hcm
    have := hr c hcm
    simp only [AllocCall.stop, Heap.fresh] at this
    omega
  · refine hs.imp ?_
    intro a b hab
    simp only [AllocCall.stop] at hab
    omega
  · intro a ha
    exact q.frame a (by simpa [Heap.fresh] using ha)

theorem IntrospectionRoot.placement_inside_buffer_witness :
    4096 + sampleRoot.cloneExtent x64Layout < 2 ^ 64 ∧
      (∀ c ∈ (sampleRoot.ApiClone x64Layout (.BlockAllocator 4096)
            (Heap.fresh (fun _ => none))).2.calls,
        4096 ≤ c.result ∧ c.result + c.elemSize * c.count ≤ 4096 +
          (sampleRoot.ApiClone x64Layout .ProbeAllocator
            (Heap.fresh (fun _ => none))).2.GetTotalSize) :=
  ⟨by decide, (IntrospectionRoot.placement_inside_buffer x64Layout sampleRoot 4096
    (fun _ => none) (by decide)).1⟩

end ipc.intro
namespace mid

/-! ## Padding -/

theorem util_GetPadding_lt (pos s : Nat) (hs : 0 < s) : util.GetPadding pos s < s :=
  Nat.mod_lt _ hs

theorem util_GetPadding_aligned (pos s : Nat) (hs : 0 < s) :
    (pos + util.GetPadding pos s) % s = 0 := by
  have h1 : pos % s < s := Nat.mod_lt _ hs
  have h2 := Nat.div_add_mod pos s
  by_cases h0 : pos % s = 0
  · simp only [util.GetPadding, h0, Nat.sub_zero, Nat.mod_self, Nat.add_zero]
  · have h3 : (s - pos % s) % s = s - pos % s := Nat.mod_eq_of_lt (by omega)
    have h4 : pos + (s - pos % s) = s * (pos / s + 1) := by
      rw [Nat.mul_add, Nat.mul_one]
      omega
    simp only [util.GetPadding, h3]
    rw [h4, Nat.mul_mod_right]

/-! ## The constructor loop -/

theorem GetNsmMemberSize_lt (fd : PmNsmFrameData) (metric : PM_METRIC) :
    GetNsmMemberSize_ fd metric < 2 ^ 16 := by
  unfold GetNsmMemberSize_
  split
  · exact Nat.mod_lt _ (by norm_num)
  · norm_num

theorem MapQueryElementToCopyCommand_size_lt (fd : PmNsmFrameData) (q : PM_QUERY_ELEMENT)
    (pos : Nat) : (MapQueryElementToCopyCommand_ fd q pos).size < 2 ^ 16 :=
  GetNsmMemberSize_lt fd q.metric

theorem MapQueryElementToCopyCommand_padding_lt (fd : PmNsmFrameData) (q : PM_QUERY_ELEMENT)
    (pos : Nat) : (MapQueryElementToCopyCommand_ fd q pos).padding < 2 ^ 8 :=
  Nat.mod_lt _ (by norm_num)

/-- The commands already in the list do not influence the loop. -/
theorem PM_FRAME_EVENT_QUERY.ctorLoop_commands_append (fd : PmNsmFrameData)
    (qs : List PM_QUERY_ELEMENT) (cmds : List CopyCommand_) (b : Nat) :
    PM_FRAME_EVENT_QUERY.ctorLoop fd qs ⟨cmds, b⟩ =
      (⟨cmds ++ (PM_FRAME_EVENT_QUERY.ctorLoop fd qs ⟨[], b⟩).1.copyCommands_,
          (PM_FRAME_EVENT_QUERY.ctorLoop fd qs ⟨[], b⟩).1.blobSize_⟩,
        (PM_FRAME_EVENT_QUERY.ctorLoop fd qs ⟨[], b⟩).2) := by
  induction qs generalizing cmds b with
  | nil => simp [PM_FRAME_EVENT_QUERY.ctorLoop]
  | cons q qs ih =>
    simp only [PM_FRAME_EVENT_QUERY.ctorLoop, List.nil_append]
    rw [ih (cmds ++ _), ih [_]]
    simp

/-- One turn of the loop, started from an empty command list. -/
theorem PM_FRAME_EVENT_QUERY.ctorLoop_cons (fd : PmNsmFrameData) (q : PM_QUERY_ELEMENT)
    (qs : List PM_QUERY_ELEMENT) (b : Nat) :
    PM_FRAME_EVENT_QUERY.ctorLoop fd (q :: qs) ⟨[], b⟩ =
      (⟨MapQueryElementToCopyCommand_ fd q b ::
            (PM_FRAME_EVENT_QUERY.ctorLoop fd qs ⟨[], (b +
              ((MapQueryElementToCopyCommand_ fd q b).size +
                (MapQueryElementToCopyCommand_ fd q b).padding)) % 2 ^ 64⟩).1.copyCommands_,
          (PM_FRAME_EVENT_QUERY.ctorLoop fd qs ⟨[], (b +
              ((MapQueryElementToCopyCommand_ fd q b).size +
                (MapQueryElementToCopyCommand_ fd q b).padding)) % 2 ^ 64⟩).1.blobSize_⟩,
        { q with
          dataSize := (MapQueryElementToCopyCommand_ fd q b).size
          dataOffset := (b + (MapQueryElementToCopyCommand_ fd q b).padding) % 2 ^ 64 } ::
          (PM_FRAME_EVENT_QUERY.ctorLoop fd qs ⟨[], (b +
              ((MapQueryElementToCopyCommand_ fd q b).size +
                (MapQueryElementToCopyCommand_ fd q b).padding)) % 2 ^ 64⟩).2) := by
  simp only [PM_FRAME_EVENT_QUERY.ctorLoop, List.nil_append]
  rw [PM_FRAME_EVENT_QUERY.ctorLoop_commands_append]
  simp

/-! ## Copying -/

theorem copy_n_spec (src : List Nat) (first n : Nat) (dst : List Nat) (result : Nat)
    (hs : first + n ≤ src.length) (hd : result + n ≤ dst.length) :
    ∃ blob, copy_n src first n dst result = some blob ∧ blob.length = dst.length ∧
      (∀ j, j < result ∨ result + n ≤ j → blob[j]? = dst[j]?) ∧
      ∀ t, t < n → blob[result + t]? = src[first + t]? := by
  induction n generalizing first dst result with
  | zero => exact ⟨dst, rfl, rfl, fun _ _ => rfl, fun t ht => absurd ht (Nat.not_lt_zero t)⟩
  | succ n ih =>
    have hf : first < src.length := by omega
    have hr : result < dst.length := by omega
    obtain ⟨blob, hb, hl, ho, hi⟩ := ih (first + 1) (dst.set result src[first]) (result + 1)
      (by omega) (by rw [List.length_set]; omega)
    refine ⟨blob, ?_, ?_, ?_, ?_⟩
    · simp only [copy_n, List.getElem?_eq_getElem hf, if_pos hr]
      exact hb
    · rw [hl, List.length_set]
    · intro j hj
      rw [ho j (by omega), List.getElem?_set_ne (by omega)]
    · intro t ht
      cases t with
      | zero =>
        rw [Nat.add_zero, Nat.add_zero, ho result (by omega), List.getElem?_set,
          if_pos rfl, if_pos hr, List.getElem?_eq_getElem hf]
      | succ t =>
        have := hi t (by omega)
        rw [show result + (t + 1) = result + 1 + t by omega,
          show first + (t + 1) = first + 1 + t by omega]
        exact this

/-! ## Where the constructor places the fields -/

/-- Without wrap-around of `blobSize_`, every field reported by the loop lies between the
blob size before the loop and the blob size after it. -/
theorem PM_FRAME_EVENT_QUERY.ctorLoop_ranges (fd : PmNsmFrameData)
    (qs : List PM_QUERY_ELEMENT) (b : Nat) (hb : b + qs.length * 2 ^ 17 ≤ 2 ^ 64) :
    b ≤ (PM_FRAME_EVENT_QUERY.ctorLoop fd qs ⟨[], b⟩).1.blobSize_ ∧
      ∀ q ∈ (PM_FRAME_EVENT_QUERY.ctorLoop fd qs ⟨[], b⟩).2,
        b ≤ q.dataOffset ∧ q.dataOffset + q.dataSize ≤
          (PM_FRAME_EVENT_QUERY.ctorLoop fd qs ⟨[], b⟩).1.blobSize_ := by
  induction qs generalizing b with
  | nil => simp [PM_FRAME_EVENT_QUERY.ctorLoop]
  | cons q qs ih =>
    rw [PM_FRAME_EVENT_QUERY.ctorLoop_cons]
    have h1 := MapQueryElementToCopyCommand_size_lt fd q b
    have h2 := MapQueryElementToCopyCommand_padding_lt fd q b
    simp only [List.length_cons] at hb
    have e1 : (b + ((MapQueryElementToCopyCommand_ fd q b).size +
        (MapQueryElementToCopyCommand_ fd q b).padding)) % 2 ^ 64 =
        b + ((MapQueryElementToCopyCommand_ fd q b).size +
          (MapQueryElementToCopyCommand_ fd q b).padding) := Nat.mod_eq_of_lt (by omega)
    have e2 : (b + (MapQueryElementToCopyCommand_ fd q b).padding) % 2 ^ 64 =
        b + (MapQueryElementToCopyCommand_ fd q b).padding := Nat.mod_eq_of_lt (by omega)
    rw [e1, e2]
    obtain ⟨i1, i2⟩ := ih (b + ((MapQueryElementToCopyCommand_ fd q b).size +
      (MapQueryElementToCopyCommand_ fd q b).padding)) (by omega)
    refine ⟨by simp only; omega, ?_⟩
    intro x hx
    simp only [List.mem_cons] at hx
    rcases hx with hx | hx
    · subst hx
      simp only
      omega
    · have := i2 x hx
      simp only
      omega

/-- The loop of `GatherToBlob` over the commands that the constructor loop produced from
blob size `b` on, run with the destination pointer at index `b`: it succeeds on a record
long enough for every command and a destination that reaches the final blob size, it leaves
every byte outside the reported fields as it was, and it fills each reported field with the
record bytes at the command's source offset. -/
theorem gatherLoop_ctorLoop (fd : PmNsmFrameData) (src : List Nat)
    (qs : List PM_QUERY_ELEMENT) (b : Nat) (dst : List Nat)
    (hb : b + qs.length * 2 ^ 17 ≤ 2 ^ 64)
    (hsrc : ∀ cmd ∈ (PM_FRAME_EVENT_QUERY.ctorLoop fd qs ⟨[], b⟩).1.copyCommands_,
      cmd.offset + cmd.size ≤ src.length)
    (hdst : (PM_FRAME_EVENT_QUERY.ctorLoop fd qs ⟨[], b⟩).1.blobSize_ ≤ dst.length) :
    ∃ blob, gatherLoop src (PM_FRAME_EVENT_QUERY.ctorLoop fd qs ⟨[], b⟩).1.copyCommands_
        dst b = some blob ∧ blob.length = dst.length ∧
      (∀ j, (∀ q ∈ (PM_FRAME_EVENT_QUERY.ctorLoop fd qs ⟨[], b⟩).2,
          j < q.dataOffset ∨ q.dataOffset + q.dataSize ≤ j) → blob[j]? = dst[j]?) ∧
      ∀ (i : Nat) (q : PM_QUERY_ELEMENT) (cmd : CopyCommand_),
        (PM_FRAME_EVENT_QUERY.ctorLoop fd qs ⟨[], b⟩).2[i]? = some q →
        (PM_FRAME_EVENT_QUERY.ctorLoop fd qs ⟨[], b⟩).1.copyCommands_[i]? = some cmd →
        ∀ t, t < q.dataSize → blob[q.dataOffset + t]? = src[cmd.offset + t]? := by
  induction qs generalizing b dst with
  | nil =>
    exact ⟨dst, by simp [PM_FRAME_EVENT_QUERY.ctorLoop, gatherLoop], rfl, fun _ _ => rfl,
      by simp [PM_FRAME_EVENT_QUERY.ctorLoop]⟩
  | cons q qs ih =>
    have h1 := MapQueryElementToCopyCommand_size_lt fd q b
    have h2 := MapQueryElementToCopyCommand_padding_lt fd q b
    simp only [List.length_cons] at hb
    have e1 : (b + ((MapQueryElementToCopyCommand_ fd q b).size +
        (MapQueryElementToCopyCommand_ fd q b).padding)) % 2 ^ 64 =
        b + ((MapQueryElementToCopyCommand_ fd q b).size +
          (MapQueryElementToCopyCommand_ fd q b).padding) := Nat.mod_eq_of_lt (by omega)
    have e2 : (b + (MapQueryElementToCopyCommand_ fd q b).padding) % 2 ^ 64 =
        b + (MapQueryElementToCopyCommand_ fd q b).padding := Nat.mod_eq_of_lt (by omega)
    rw [PM_FRAME_EVENT_QUERY.ctorLoop_cons, e1, e2] at hsrc hdst ⊢
    simp only at hsrc hdst ⊢
    obtain ⟨r1, r2⟩ := PM_FRAME_EVENT_QUERY.ctorLoop_ranges fd qs
      (b + ((MapQueryElementToCopyCommand_ fd q b).size +
        (MapQueryElementToCopyCommand_ fd q b).padding)) (by omega)
    obtain ⟨dst1, c1, c2, c3, c4⟩ := copy_n_spec src (MapQueryElementToCopyCommand_ fd q b).offset
      (MapQueryElementToCopyCommand_ fd q b).size dst
      (b + (MapQueryElementToCopyCommand_ fd q b).padding)
      (hsrc _ (List.mem_cons_self _ _)) (by omega)
    obtain ⟨blob, g1, g2, g3, g4⟩ := ih
      (b + ((MapQueryElementToCopyCommand_ fd q b).size +
        (MapQueryElementToCopyCommand_ fd q b).padding)) dst1 (by omega)
      (fun cmd hc => hsrc cmd (List.mem_cons_of_mem _ hc)) (by omega)
    refine ⟨blob, ?_, by rw [g2, c2], ?_, ?_⟩
    · simp only [gatherLoop, c1]
      exact g1
    · intro j hj
      have hj0 := hj _ (List.mem_cons_self _ _)
      simp only at hj0
      rw [g3 j (fun x hx => hj x (List.mem_cons_of_mem _ hx)), c3 j (by omega)]
    · intro i x cmd hx hc t ht
      cases i with
      | zero =>
        simp only [List.getElem?_cons_zero, Option.some.injEq] at hx hc
        subst hx hc
        simp only at ht ⊢
        rw [g3 _ (fun y hy => by have := r2 y hy; omega), c4 t ht]
      | succ i =>
        simp only [List.getElem?_cons_succ] at hx hc
        exact g4 i x cmd hx hc t ht

/-! ## Commands follow the elements -/

theorem PM_FRAME_EVENT_QUERY.ctorLoop_command (fd : PmNsmFrameData)
    (qs : List PM_QUERY_ELEMENT) (b i : Nat) (q : PM_QUERY_ELEMENT) (hq : qs[i]? = some q) :
    ∃ pos, (PM_FRAME_EVENT_QUERY.ctorLoop fd qs ⟨[], b⟩).1.copyCommands_[i]? =
      some (MapQueryElementToCopyCommand_ fd q pos) := by
  induction qs generalizing b i with
  | nil => simp at hq
  | cons x xs ih =>
    rw [PM_FRAME_EVENT_QUERY.ctorLoop_cons]
    cases i with
    | zero =>
      simp only [List.getElem?_cons_zero, Option.some.injEq] at hq
      subst hq
      exact ⟨b, by simp⟩
    | succ i =>
      simp only [List.getElem?_cons_succ] at hq ⊢
      exact ih _ i hq

/-- C5: for every query element whose metric is in the layout table, with member `nsm`, the
copy command compiled for it has the member's size as `GetNsmMemberSize_` returns it (a
`uint16_t`) and source offset base + size * arrayIndex, computed modulo `2 ^ 32`, the base
being the member's offset as `GetNsmMemberOffset_` returns it; for `GPU_FAN_SPEED` the
member is `fan_speed_rpm[0]`, element 0 of the array. -/
theorem PM_FRAME_EVENT_QUERY.copyCommand_source (fd : PmNsmFrameData)
    (qs : List PM_QUERY_ELEMENT) (i : Nat) (q : PM_QUERY_ELEMENT) (nsm : NsmMember)
    (hq : qs[i]? = some q) (hm : METRIC_OFFSET_SIZE_LOOKUP_LIST fd q.metric = some nsm) :
    ∃ cmd, (PM_FRAME_EVENT_QUERY.ctor fd qs).1.copyCommands_[i]? = some cmd ∧
      GetNsmMemberSize_ fd q.metric = nsm.size % 2 ^ 16 ∧
      GetNsmMemberOffset_ fd q.metric = nsm.offset % 2 ^ 32 ∧
      cmd.size = GetNsmMemberSize_ fd q.metric ∧
      cmd.offset =
        (GetNsmMemberOffset_ fd q.metric + GetNsmMemberSize_ fd q.metric * q.arrayIndex) %
          2 ^ 32 ∧
      (q.metric = PM_METRIC.PM_METRIC_GPU_FAN_SPEED → nsm = fd.fan_speed_rpm_0) := by
  obtain ⟨pos, hpos⟩ := PM_FRAME_EVENT_QUERY.ctorLoop_command fd qs 0 i q hq
  refine ⟨_, hpos, ?_, ?_, rfl, ?_, ?_⟩
  · simp only [GetNsmMemberSize_, hm]
  · simp only [GetNsmMemberOffset_, hm]
  · simp only [MapQueryElementToCopyCommand_]
    omega
  · intro hf
    rw [hf] at hm
    simpa [METRIC_OFFSET_SIZE_LOOKUP_LIST] using hm.symm

theorem PM_FRAME_EVENT_QUERY.copyCommand_source_witness :
    ∃ cmd, (PM_FRAME_EVENT_QUERY.ctor exampleLayout
        [element .PM_METRIC_PRESENT_MODE 0, element .PM_METRIC_GPU_FAN_SPEED 2]).1.copyCommands_[1]?
          = some cmd ∧
      GetNsmMemberSize_ exampleLayout .PM_METRIC_GPU_FAN_SPEED = 8 % 2 ^ 16 ∧
      GetNsmMemberOffset_ exampleLayout .PM_METRIC_GPU_FAN_SPEED = 56 % 2 ^ 32 ∧
      cmd.size = GetNsmMemberSize_ exampleLayout .PM_METRIC_GPU_FAN_SPEED ∧
      cmd.offset = (GetNsmMemberOffset_ exampleLayout .PM_METRIC_GPU_FAN_SPEED +
        GetNsmMemberSize_ exampleLayout .PM_METRIC_GPU_FAN_SPEED * 2) % 2 ^ 32 ∧
      (PM_METRIC.PM_METRIC_GPU_FAN_SPEED = PM_METRIC.PM_METRIC_GPU_FAN_SPEED →
        (⟨56, 8⟩ : NsmMember) = exampleLayout.fan_speed_rpm_0) :=
  PM_FRAME_EVENT_QUERY.copyCommand_source exampleLayout
    [element .PM_METRIC_PRESENT_MODE 0, element .PM_METRIC_GPU_FAN_SPEED 2] 1
    (element .PM_METRIC_GPU_FAN_SPEED 2) ⟨56, 8⟩ rfl rfl

/-! ## Alignment of the reported offsets -/

theorem PM_FRAME_EVENT_QUERY.ctorLoop_aligned (fd : PmNsmFrameData)
    (qs : List PM_QUERY_ELEMENT) (b : Nat) (hb : b + qs.length * 2 ^ 17 ≤ 2 ^ 64)
    (q : PM_QUERY_ELEMENT) (hq : q ∈ (PM_FRAME_EVENT_QUERY.ctorLoop fd qs ⟨[], b⟩).2)
    (hs : 0 < q.dataSize) (hs' : q.dataSize ≤ 256) : q.dataOffset % q.dataSize = 0 := by
  induction qs generalizing b with
  | nil => simp [PM_FRAME_EVENT_QUERY.ctorLoop] at hq
  | cons x xs ih =>
    have h1 := MapQueryElementToCopyCommand_size_lt fd x b
    have h2 := MapQueryElementToCopyCommand_padding_lt fd x b
    simp only [List.length_cons] at hb
    rw [PM_FRAME_EVENT_QUERY.ctorLoop_cons] at hq
    simp only [List.mem_cons] at hq
    rcases hq with hq | hq
    · subst hq
      simp only at hs hs' ⊢
      have hp := util_GetPadding_lt b (GetNsmMemberSize_ fd x.metric) hs
      have ha := util_GetPadding_aligned b (GetNsmMemberSize_ fd x.metric) hs
      simp only [MapQueryElementToCopyCommand_] at hs hs' ⊢
      rw [Nat.mod_eq_of_lt (show util.GetPadding b (GetNsmMemberSize_ fd x.metric) < 2 ^ 8 by
        omega), Nat.mod_eq_of_lt (show b + util.GetPadding b (GetNsmMemberSize_ fd x.metric) <
          2 ^ 64 by omega)]
      exact ha
    · refine ih _ ?_ hq
      have : (b + ((MapQueryElementToCopyCommand_ fd x b).size +
          (MapQueryElementToCopyCommand_ fd x b).padding)) % 2 ^ 64 ≤
          b + ((MapQueryElementToCopyCommand_ fd x b).size +
            (MapQueryElementToCopyCommand_ fd x b).padding) := Nat.mod_le _ _
      omega

/-- C6, the claim as stated fails: with a 260-byte member in the layout table, the element
that follows a 4-byte field is reported at `dataOffset` 4 with `dataSize` 260, because the
padding 256 does not fit the 8-bit `padding` field. -/
theorem PM_FRAME_EVENT_QUERY.dataOffset_misaligned_for_wide_member :
    ¬ ∀ q ∈ (PM_FRAME_EVENT_QUERY.ctor wideLayout
        [element .PM_METRIC_PRESENT_MODE 0, element .PM_METRIC_PRESENT_QPC 0]).2,
      0 < q.dataSize → q.dataOffset % q.dataSize = 0 := by
  decide

/-- C6, amended: for every list of at most `2 ^ 47` query elements and every element in it
whose reported element size `s` satisfies `0 < s ≤ 256`, the `dataOffset` written back by
the constructor is a multiple of `s`. -/
theorem PM_FRAME_EVENT_QUERY.dataOffset_aligned (fd : PmNsmFrameData)
    (qs : List PM_QUERY_ELEMENT) (hlen : qs.length ≤ 2 ^ 47) (q : PM_QUERY_ELEMENT)
    (hq : q ∈ (PM_FRAME_EVENT_QUERY.ctor fd qs).2) (hs : 0 < q.dataSize)
    (hs' : q.dataSize ≤ 256) : q.dataOffset % q.dataSize = 0 :=
  PM_FRAME_EVENT_QUERY.ctorLoop_aligned fd qs 0 (by omega) q hq hs hs'

theorem PM_FRAME_EVENT_QUERY.dataOffset_aligned_witness :
    [element .PM_METRIC_PRESENT_MODE 0, element .PM_METRIC_GPU_FAN_SPEED 2].length ≤ 2 ^ 47 ∧
      (⟨.PM_METRIC_GPU_FAN_SPEED, 0, 0, 2, 8, 8⟩ : PM_QUERY_ELEMENT) ∈
        (PM_FRAME_EVENT_QUERY.ctor exampleLayout
          [element .PM_METRIC_PRESENT_MODE 0, element .PM_METRIC_GPU_FAN_SPEED 2]).2 ∧
      (⟨.PM_METRIC_GPU_FAN_SPEED, 0, 0, 2, 8, 8⟩ : PM_QUERY_ELEMENT).dataOffset %
        (⟨.PM_METRIC_GPU_FAN_SPEED, 0, 0, 2, 8, 8⟩ : PM_QUERY_ELEMENT).dataSize = 0 :=
  ⟨by decide, by decide, PM_FRAME_EVENT_QUERY.dataOffset_aligned exampleLayout
    [element .PM_METRIC_PRESENT_MODE 0, element .PM_METRIC_GPU_FAN_SPEED 2] (by decide)
    ⟨.PM_METRIC_GPU_FAN_SPEED, 0, 0, 2, 8, 8⟩ (by decide) (by decide) (by decide)⟩

/-! ## Execution -/

/-- C7: for every compiled query (of at most `2 ^ 47` elements), every record long enough
for all commands and every destination of `GetBlobSize()` bytes, `GatherToBlob` succeeds and
afterwards, for every element `i`, the `dataSize` bytes of the blob from `dataOffset` on (the
values written back on element `i`) lie inside the blob and equal the bytes of the record
from command `i`'s source offset on. -/
theorem PM_FRAME_EVENT_QUERY.GatherToBlob_fields (fd : PmNsmFrameData)
    (qs : List PM_QUERY_ELEMENT) (src dst : List Nat) (hlen : qs.length ≤ 2 ^ 47)
    (hsrc : ∀ cmd ∈ (PM_FRAME_EVENT_QUERY.ctor fd qs).1.copyCommands_,
      cmd.offset + cmd.size ≤ src.length)
    (hdst : dst.length = (PM_FRAME_EVENT_QUERY.ctor fd qs).1.GetBlobSize) :
    ∃ blob, (PM_FRAME_EVENT_QUERY.ctor fd qs).1.GatherToBlob src dst = some blob ∧
      blob.length = dst.length ∧
      ∀ (i : Nat) (q : PM_QUERY_ELEMENT) (cmd : CopyCommand_),
        (PM_FRAME_EVENT_QUERY.ctor fd qs).2[i]? = some q →
        (PM_FRAME_EVENT_QUERY.ctor fd qs).1.copyCommands_[i]? = some cmd →
        ∀ t, t < q.dataSize →
          q.dataOffset + t < blob.length ∧ blob[q.dataOffset + t]? = src[cmd.offset + t]? := by
  obtain ⟨blob, g1, g2, _, g4⟩ := gatherLoop_ctorLoop fd src qs 0 dst (by omega) hsrc
    (Nat.le_of_eq hdst.symm)
  refine ⟨blob, g1, g2, ?_⟩
  intro i q cmd hq hc t ht
  refine ⟨?_, g4 i q cmd hq hc t ht⟩
  have hr := (PM_FRAME_EVENT_QUERY.ctorLoop_ranges fd qs 0 (by omega)).2 q
    (List.getElem?_mem hq)
  rw [g2, hdst]
  simp only [PM_FRAME_EVENT_QUERY.GetBlobSize, PM_FRAME_EVENT_QUERY.ctor]
  omega

theorem PM_FRAME_EVENT_QUERY.GatherToBlob_fields_witness :
    ∃ blob, (PM_FRAME_EVENT_QUERY.ctor exampleLayout
        [element .PM_METRIC_PRESENT_MODE 0, element .PM_METRIC_GPU_FAN_SPEED 2]).1.GatherToBlob
          (List.range 80) (List.replicate 16 255) = some blob ∧
      blob.length = (List.replicate 16 255).length ∧
      ∀ (i : Nat) (q : PM_QUERY_ELEMENT) (cmd : CopyCommand_),
        (PM_FRAME_EVENT_QUERY.ctor exampleLayout
          [element .PM_METRIC_PRESENT_MODE 0, element .PM_METRIC_GPU_FAN_SPEED 2]).2[i]? =
            some q →
        (PM_FRAME_EVENT_QUERY.ctor exampleLayout
          [element .PM_METRIC_PRESENT_MODE 0,
            element .PM_METRIC_GPU_FAN_SPEED 2]).1.copyCommands_[i]? = some cmd →
        ∀ t, t < q.dataSize →
          q.dataOffset + t < blob.length ∧
            blob[q.dataOffset + t]? = (List.range 80)[cmd.offset + t]? :=
  PM_FRAME_EVENT_QUERY.GatherToBlob_fields exampleLayout
    [element .PM_METRIC_PRESENT_MODE 0, element .PM_METRIC_GPU_FAN_SPEED 2]
    (List.range 80) (List.replicate 16 255) (by decide) (by decide) (by decide)

/-- C8: for every compiled query (of at most `2 ^ 47` elements), any two records long enough
for all commands and the same initial destination of `GetBlobSize()` bytes, both executions
succeed, and at every index outside all field ranges `[dataOffset, dataOffset + dataSize)`
the two blobs are equal and hold what the destination held before. -/
theorem PM_FRAME_EVENT_QUERY.GatherToBlob_repeatable (fd : PmNsmFrameData)
    (qs : List PM_QUERY_ELEMENT) (src1 src2 dst : List Nat) (hlen : qs.length ≤ 2 ^ 47)
    (hsrc1 : ∀ cmd ∈ (PM_FRAME_EVENT_QUERY.ctor fd qs).1.copyCommands_,
      cmd.offset + cmd.size ≤ src1.length)
    (hsrc2 : ∀ cmd ∈ (PM_FRAME_EVENT_QUERY.ctor fd qs).1.copyCommands_,
      cmd.offset + cmd.size ≤ src2.length)
    (hdst : dst.length = (PM_FRAME_EVENT_QUERY.ctor fd qs).1.GetBlobSize) :
    ∃ blob1 blob2,
      (PM_FRAME_EVENT_QUERY.ctor fd qs).1.GatherToBlob src1 dst = some blob1 ∧
      (PM_FRAME_EVENT_QUERY.ctor fd qs).1.GatherToBlob src2 dst = some blob2 ∧
      ∀ j, (∀ q ∈ (PM_FRAME_EVENT_QUERY.ctor fd qs).2,
          j < q.dataOffset ∨ q.dataOffset + q.dataSize ≤ j) →
        blob1[j]? = blob2[j]? ∧ blob1[j]? = dst[j]? := by
  obtain ⟨blob1, g1, _, g3, _⟩ := gatherLoop_ctorLoop fd src1 qs 0 dst (by omega) hsrc1
    (Nat.le_of_eq hdst.symm)
  obtain ⟨blob2, k1, _, k3, _⟩ := gatherLoop_ctorLoop fd src2 qs 0 dst (by omega) hsrc2
    (Nat.le_of_eq hdst.symm)
  refine ⟨blob1, blob2, g1, k1, ?_⟩
  intro j hj
  exact ⟨(g3 j hj).trans (k3 j hj).symm, g3 j hj⟩

theorem PM_FRAME_EVENT_QUERY.GatherToBlob_repeatable_witness :
    ∃ blob1 blob2,
      (PM_FRAME_EVENT_QUERY.ctor exampleLayout
        [element .PM_METRIC_PRESENT_MODE 0, element .PM_METRIC_GPU_FAN_SPEED 2]).1.GatherToBlob
          (List.range 80) (List.replicate 16 255) = some blob1 ∧
      (PM_FRAME_EVENT_QUERY.ctor exampleLayout
        [element .PM_METRIC_PRESENT_MODE 0, element .PM_METRIC_GPU_FAN_SPEED 2]).1.GatherToBlob
          (List.replicate 80 7) (List.replicate 16 255) = some blob2 ∧
      ∀ j, (∀ q ∈ (PM_FRAME_EVENT_QUERY.ctor exampleLayout
          [element .PM_METRIC_PRESENT_MODE 0, element .PM_METRIC_GPU_FAN_SPEED 2]).2,
          j < q.dataOffset ∨ q.dataOffset + q.dataSize ≤ j) →
        blob1[j]? = blob2[j]? ∧ blob1[j]? = (List.replicate 16 255)[j]? :=
  PM_FRAME_EVENT_QUERY.GatherToBlob_repeatable exampleLayout
    [element .PM_METRIC_PRESENT_MODE 0, element .PM_METRIC_GPU_FAN_SPEED 2]
    (List.range 80) (List.replicate 80 7) (List.replicate 16 255) (by decide) (by decide)
    (by decide) (by decide)

/-! ## Determinism and order -/

theorem MapQueryElementToCopyCommand_congr (fd : PmNsmFrameData) (q q' : PM_QUERY_ELEMENT)
    (pos : Nat) (hm : q.metric = q'.metric) (hi : q.arrayIndex = q'.arrayIndex) :
    MapQueryElementToCopyCommand_ fd q pos = MapQueryElementToCopyCommand_ fd q' pos := by
  simp only [MapQueryElementToCopyCommand_, hm, hi]

theorem PM_FRAME_EVENT_QUERY.ctorLoop_congr (fd : PmNsmFrameData)
    (qs qs' : List PM_QUERY_ELEMENT) (b : Nat)
    (h : qs.map (fun q => (q.metric, q.arrayIndex)) =
      qs'.map (fun q => (q.metric, q.arrayIndex))) :
    (PM_FRAME_EVENT_QUERY.ctorLoop fd qs ⟨[], b⟩).1 =
        (PM_FRAME_EVENT_QUERY.ctorLoop fd qs' ⟨[], b⟩).1 ∧
      (PM_FRAME_EVENT_QUERY.ctorLoop fd qs ⟨[], b⟩).2.map (fun q => (q.dataOffset, q.dataSize)) =
        (PM_FRAME_EVENT_QUERY.ctorLoop fd qs' ⟨[], b⟩).2.map
          (fun q => (q.dataOffset, q.dataSize)) := by
  induction qs generalizing qs' b with
  | nil =>
    cases qs' with
    | nil => exact ⟨rfl, rfl⟩
    | cons y ys => simp at h
  | cons x xs ih =>
    cases qs' with
    | nil => simp at h
    | cons y ys =>
      simp only [List.map_cons, List.cons.injEq, Prod.mk.injEq] at h
      obtain ⟨⟨hm, hi⟩, ht⟩ := h
      have hc := MapQueryElementToCopyCommand_congr fd x y b hm hi
      rw [PM_FRAME_EVENT_QUERY.ctorLoop_cons, PM_FRAME_EVENT_QUERY.ctorLoop_cons, hc]
      obtain ⟨i1, i2⟩ := ih ys ((b + ((MapQueryElementToCopyCommand_ fd y b).size +
        (MapQueryElementToCopyCommand_ fd y b).padding)) % 2 ^ 64) ht
      exact ⟨by rw [i1], by simp only [List.map_cons, i2]⟩

theorem PM_FRAME_EVENT_QUERY.ctorLoop_commands (fd : PmNsmFrameData)
    (qs : List PM_QUERY_ELEMENT) (b : Nat) :
    (PM_FRAME_EVENT_QUERY.ctorLoop fd qs ⟨[], b⟩).1.copyCommands_.map
        (fun c => (c.offset, c.size)) =
      qs.map (fun q => ((GetNsmMemberOffset_ fd q.metric +
        GetNsmMemberSize_ fd q.metric * q.arrayIndex % 2 ^ 32) % 2 ^ 32,
        GetNsmMemberSize_ fd q.metric)) := by
  induction qs generalizing b with
  | nil => rfl
  | cons x xs ih =>
    rw [PM_FRAME_EVENT_QUERY.ctorLoop_cons]
    simp only [List.map_cons, ih]
    rfl

/-- Compiling the elements as a compilation left them gives the same result again. -/
theorem PM_FRAME_EVENT_QUERY.ctorLoop_idem (fd : PmNsmFrameData)
    (qs : List PM_QUERY_ELEMENT) (b : Nat) :
    PM_FRAME_EVENT_QUERY.ctorLoop fd (PM_FRAME_EVENT_QUERY.ctorLoop fd qs ⟨[], b⟩).2 ⟨[], b⟩ =
      PM_FRAME_EVENT_QUERY.ctorLoop fd qs ⟨[], b⟩ := by
  induction qs generalizing b with
  | nil => rfl
  | cons x xs ih =>
    rw [PM_FRAME_EVENT_QUERY.ctorLoop_cons]
    simp only
    rw [PM_FRAME_EVENT_QUERY.ctorLoop_cons]
    have hc : ∀ (o s : Nat), MapQueryElementToCopyCommand_ fd
        { x with dataSize := s, dataOffset := o } b = MapQueryElementToCopyCommand_ fd x b :=
      fun o s => MapQueryElementToCopyCommand_congr fd _ x b rfl rfl
    simp only [hc, ih]

/-- C9: compilation is deterministic and order-preserving.  Two element lists with the same
(metric, arrayIndex) sequence, in particular a list and the same list as a first compilation
left it, compile to equal command sequences, equal blob sizes and equal per-element
(dataOffset, dataSize); and the command list has one command per element, in element order,
each with the source offset and size of its element, repeated elements included. -/
theorem PM_FRAME_EVENT_QUERY.compile_deterministic (fd : PmNsmFrameData)
    (qs qs' : List PM_QUERY_ELEMENT)
    (h : qs.map (fun q => (q.metric, q.arrayIndex)) =
      qs'.map (fun q => (q.metric, q.arrayIndex))) :
    (PM_FRAME_EVENT_QUERY.ctor fd qs).1.copyCommands_ =
        (PM_FRAME_EVENT_QUERY.ctor fd qs').1.copyCommands_ ∧
      (PM_FRAME_EVENT_QUERY.ctor fd qs).1.GetBlobSize =
        (PM_FRAME_EVENT_QUERY.ctor fd qs').1.GetBlobSize ∧
      (PM_FRAME_EVENT_QUERY.ctor fd qs).2.map (fun q => (q.dataOffset, q.dataSize)) =
        (PM_FRAME_EVENT_QUERY.ctor fd qs').2.map (fun q => (q.dataOffset, q.dataSize)) ∧
      PM_FRAME_EVENT_QUERY.ctor fd (PM_FRAME_EVENT_QUERY.ctor fd qs).2 =
        PM_FRAME_EVENT_QUERY.ctor fd qs ∧
      (PM_FRAME_EVENT_QUERY.ctor fd qs).1.copyCommands_.length = qs.length ∧
      (PM_FRAME_EVENT_QUERY.ctor fd qs).1.copyCommands_.map (fun c => (c.offset, c.size)) =
        qs.map (fun q => ((GetNsmMemberOffset_ fd q.metric +
          GetNsmMemberSize_ fd q.metric * q.arrayIndex % 2 ^ 32) % 2 ^ 32,
          GetNsmMemberSize_ fd q.metric)) := by
  obtain ⟨h1, h2⟩ := PM_FRAME_EVENT_QUERY.ctorLoop_congr fd qs qs' 0 h
  have hc := PM_FRAME_EVENT_QUERY.ctorLoop_commands fd qs 0
  refine ⟨congrArg _ h1, congrArg _ h1, h2, ?_, ?_, hc⟩
  · exact PM_FRAME_EVENT_QUERY.ctorLoop_idem fd qs 0
  · have := congrArg List.length hc
    simpa using this

theorem PM_FRAME_EVENT_QUERY.compile_deterministic_witness :
    repeatedQuery.map (fun q => (q.metric, q.arrayIndex)) =
      repeatedQueryStale.map (fun q => (q.metric, q.arrayIndex)) ∧
    (PM_FRAME_EVENT_QUERY.ctor exampleLayout repeatedQuery).1.copyCommands_ =
      (PM_FRAME_EVENT_QUERY.ctor exampleLayout repeatedQueryStale).1.copyCommands_ ∧
    (PM_FRAME_EVENT_QUERY.ctor exampleLayout repeatedQuery).1.copyCommands_ =
      [⟨8, 0, 4⟩, ⟨72, 4, 8⟩, ⟨8, 0, 4⟩] :=
  ⟨by decide,
    (PM_FRAME_EVENT_QUERY.compile_deterministic exampleLayout repeatedQuery repeatedQueryStale
      (by decide)).1,
    by decide⟩

/-! ## The end-to-end example -/

/-- C10: with a record layout that has `PRESENT_MODE` at offset 8, size 4, and `GPU_POWER` at
offset 40, size 4, compiling `[PRESENT_MODE index 0, GPU_POWER index 0]` gives blob size 8
and the commands `{8, 0, 4}`, `{40, 0, 4}`; executing it on a record of at least 44 bytes
into a destination of 8 bytes yields the record's bytes 8..11 followed by its bytes
40..43. -/
theorem PM_FRAME_EVENT_QUERY.end_to_end_example (fd : PmNsmFrameData)
    (hm : fd.PresentMode = ⟨8, 4⟩) (hp : fd.gpu_power_w = ⟨40, 4⟩)
    (q1 q2 : PM_QUERY_ELEMENT)
    (h1 : q1.metric = .PM_METRIC_PRESENT_MODE) (i1 : q1.arrayIndex = 0)
    (h2 : q2.metric = .PM_METRIC_GPU_POWER) (i2 : q2.arrayIndex = 0)
    (src dst : List Nat) (hsrc : 44 ≤ src.length) (hdst : dst.length = 8) :
    (PM_FRAME_EVENT_QUERY.ctor fd [q1, q2]).1.GetBlobSize = 8 ∧
      (PM_FRAME_EVENT_QUERY.ctor fd [q1, q2]).1.copyCommands_ = [⟨8, 0, 4⟩, ⟨40, 0, 4⟩] ∧
      (PM_FRAME_EVENT_QUERY.ctor fd [q1, q2]).2.map (fun q => (q.dataOffset, q.dataSize)) =
        [(0, 4), (4, 4)] ∧
      (PM_FRAME_EVENT_QUERY.ctor fd [q1, q2]).1.GatherToBlob src dst =
        some ((src.drop 8).take 4 ++ (src.drop 40).take 4) := by
  have hq : PM_FRAME_EVENT_QUERY.ctor fd [q1, q2] =
      (⟨[⟨8, 0, 4⟩, ⟨40, 0, 4⟩], 8⟩,
        [{ q1 with dataSize := 4, dataOffset := 0 }, { q2 with dataSize := 4, dataOffset := 4 }])
      := by
    simp [PM_FRAME_EVENT_QUERY.ctor, PM_FRAME_EVENT_QUERY.ctorLoop,
      MapQueryElementToCopyCommand_, GetNsmMemberSize_, GetNsmMemberOffset_,
      METRIC_OFFSET_SIZE_LOOKUP_LIST, util.GetPadding, h1, h2, i1, i2, hm, hp]
  obtain ⟨blob, g1, g2, _, g3⟩ := gatherLoop_ctorLoop fd src [q1, q2] 0 dst
    (by simp only [List.length_cons, List.length_nil]; omega)
    (by
      intro cmd hc
      rw [show PM_FRAME_EVENT_QUERY.ctorLoop fd [q1, q2] ⟨[], 0⟩ =
        PM_FRAME_EVENT_QUERY.ctor fd [q1, q2] from rfl, hq] at hc
      simp only [List.mem_cons, List.mem_singleton, List.not_mem_nil, or_false] at hc
      rcases hc with hc | hc <;> subst hc <;> simp only <;> omega)
    (by
      rw [show PM_FRAME_EVENT_QUERY.ctorLoop fd [q1, q2] ⟨[], 0⟩ =
        PM_FRAME_EVENT_QUERY.ctor fd [q1, q2] from rfl, hq]
      simp only
      omega)
  rw [show PM_FRAME_EVENT_QUERY.ctorLoop fd [q1, q2] ⟨[], 0⟩ =
    PM_FRAME_EVENT_QUERY.ctor fd [q1, q2] from rfl, hq] at g1 g3
  rw [hq]
  refine ⟨rfl, rfl, rfl, ?_⟩
  show gatherLoop src _ dst 0 = _
  rw [g1]
  congr 1
  apply List.ext_getElem?
  intro j
  have f0 := g3 0 { q1 with dataSize := 4, dataOffset := 0 } ⟨8, 0, 4⟩ rfl rfl
  have f1 := g3 1 { q2 with dataSize := 4, dataOffset := 4 } ⟨40, 0, 4⟩ rfl rfl
  simp only at f0 f1
  by_cases hj4 : j < 4
  · have := f0 j hj4
    simp only [Nat.zero_add] at this
    rw [this, List.getElem?_append_left (by simp; omega), List.getElem?_take_of_lt hj4,
      List.getElem?_drop]
  · by_cases hj8 : j < 8
    · have := f1 (j - 4) (by omega)
      rw [show 4 + (j - 4) = j by omega] at this
      rw [this, List.getElem?_append_right (by simp; omega), List.getElem?_take_of_lt
        (by simp; omega), List.getElem?_drop]
      congr 1
      simp
      omega
    · rw [List.getElem?_eq_none (by omega), List.getElem?_eq_none (by simp; omega)]

theorem PM_FRAME_EVENT_QUERY.end_to_end_example_witness :
    44 ≤ exampleRecord.length ∧ (List.replicate 8 255).length = 8 ∧
      (PM_FRAME_EVENT_QUERY.ctor exampleLayout
        [element .PM_METRIC_PRESENT_MODE 0, element .PM_METRIC_GPU_POWER 0]).1.GatherToBlob
          exampleRecord (List.replicate 8 255) = some [2, 0, 0, 0, 0, 128, 22, 67] :=
  ⟨by decide, by decide,
    (PM_FRAME_EVENT_QUERY.end_to_end_example exampleLayout rfl rfl
      (element .PM_METRIC_PRESENT_MODE 0) (element .PM_METRIC_GPU_POWER 0) rfl rfl rfl rfl
      exampleRecord (List.replicate 8 255) (by decide) (by decide)).2.2.2.trans (by decide)⟩

end mid

namespace mid

/-! ## Metrics outside the layout table -/

/-- The command and the written-back element at one index of the loop's results. -/
theorem PM_FRAME_EVENT_QUERY.ctorLoop_at (fd : PmNsmFrameData)
    (qs : List PM_QUERY_ELEMENT) (b i : Nat) (q : PM_QUERY_ELEMENT) (hq : qs[i]? = some q) :
    ∃ pos, (PM_FRAME_EVENT_QUERY.ctorLoop fd qs ⟨[], b⟩).1.copyCommands_[i]? =
        some (MapQueryElementToCopyCommand_ fd q pos) ∧
      (PM_FRAME_EVENT_QUERY.ctorLoop fd qs ⟨[], b⟩).2[i]? =
        some { q with
          dataSize := (MapQueryElementToCopyCommand_ fd q pos).size
          dataOffset := (pos + (MapQueryElementToCopyCommand_ fd q pos).padding) % 2 ^ 64 } := by
  induction qs generalizing b i with
  | nil => simp at hq
  | cons x xs ih =>
    rw [PM_FRAME_EVENT_QUERY.ctorLoop_cons]
    cases i with
    | zero =>
      simp only [List.getElem?_cons_zero, Option.some.injEq] at hq
      subst hq
      exact ⟨b, by simp⟩
    | succ i =>
      simp only [List.getElem?_cons_succ] at hq ⊢
      exact ih _ i hq

theorem MapQueryElementToCopyCommand_checked_pos (fd : PmNsmFrameData)
    (q : PM_QUERY_ELEMENT) (pos : Nat) (hs : 0 < GetNsmMemberSize_ fd q.metric) :
    MapQueryElementToCopyCommand_checked fd q pos =
      some (MapQueryElementToCopyCommand_ fd q pos) := by
  have h0 : GetNsmMemberSize_ fd q.metric ≠ 0 := by omega
  simp only [MapQueryElementToCopyCommand_checked, util.GetPaddingChecked, if_neg h0,
    MapQueryElementToCopyCommand_]

theorem MapQueryElementToCopyCommand_checked_zero (fd : PmNsmFrameData)
    (q : PM_QUERY_ELEMENT) (pos : Nat) (hs : GetNsmMemberSize_ fd q.metric = 0) :
    MapQueryElementToCopyCommand_checked fd q pos = none := by
  simp only [MapQueryElementToCopyCommand_checked, util.GetPaddingChecked, hs, if_true]

/-- On lists whose elements all have a size above zero the checked loop succeeds and
gives what the loop gives. -/
theorem PM_FRAME_EVENT_QUERY.ctorLoop_checked_pos (fd : PmNsmFrameData)
    (qs : List PM_QUERY_ELEMENT) (self : PM_FRAME_EVENT_QUERY)
    (hs : ∀ q ∈ qs, 0 < GetNsmMemberSize_ fd q.metric) :
    PM_FRAME_EVENT_QUERY.ctorLoop_checked fd qs self =
      some (PM_FRAME_EVENT_QUERY.ctorLoop fd qs self) := by
  induction qs generalizing self with
  | nil => rfl
  | cons q qs ih =>
    have h1 := MapQueryElementToCopyCommand_checked_pos fd q self.blobSize_
      (hs q (List.mem_cons_self _ _))
    simp only [PM_FRAME_EVENT_QUERY.ctorLoop_checked, h1,
      ih _ (fun x hx => hs x (List.mem_cons_of_mem _ hx)), PM_FRAME_EVENT_QUERY.ctorLoop]

/-- The checked loop fails on every list that holds an element of size zero. -/
theorem PM_FRAME_EVENT_QUERY.ctorLoop_checked_zero (fd : PmNsmFrameData)
    (qs : List PM_QUERY_ELEMENT) (self : PM_FRAME_EVENT_QUERY) (q : PM_QUERY_ELEMENT)
    (hq : q ∈ qs) (hs : GetNsmMemberSize_ fd q.metric = 0) :
    PM_FRAME_EVENT_QUERY.ctorLoop_checked fd qs self = none := by
  induction qs generalizing self with
  | nil => simp at hq
  | cons x xs ih =>
    simp only [PM_FRAME_EVENT_QUERY.ctorLoop_checked]
    cases hx : MapQueryElementToCopyCommand_checked fd x self.blobSize_ with
    | none => rfl
    | some cmd =>
      simp only [List.mem_cons] at hq
      rcases hq with hq | hq
      · subst hq
        rw [MapQueryElementToCopyCommand_checked_zero fd q _ hs] at hx
        exact absurd hx (by simp)
      · simp only [ih _ hq]

/-- C11: for every element list and every position in it whose metric is not in the layout
table, `GetNsmMemberSize_` and `GetNsmMemberOffset_` return 0, and the constructor then
calls `util::GetPadding` with alignment 0 for that element, at whatever blob position it
has reached: the call divides by zero and the compilation of the list fails.  The lists
that compile are those whose elements all have a size above zero, and for them the result
is that of the constructor loop. -/
theorem PM_FRAME_EVENT_QUERY.unknown_metric_fails (fd : PmNsmFrameData)
    (qs : List PM_QUERY_ELEMENT) (i : Nat) (q : PM_QUERY_ELEMENT) (hq : qs[i]? = some q)
    (hm : METRIC_OFFSET_SIZE_LOOKUP_LIST fd q.metric = none) :
    GetNsmMemberSize_ fd q.metric = 0 ∧ GetNsmMemberOffset_ fd q.metric = 0 ∧
      (∀ pos, util.GetPaddingChecked pos (GetNsmMemberSize_ fd q.metric) = none) ∧
      (∀ pos, MapQueryElementToCopyCommand_checked fd q pos = none) ∧
      PM_FRAME_EVENT_QUERY.ctor_checked fd qs = none ∧
      ∀ qs' : List PM_QUERY_ELEMENT,
        (PM_FRAME_EVENT_QUERY.ctor_checked fd qs' = some (PM_FRAME_EVENT_QUERY.ctor fd qs') ↔
          ∀ x ∈ qs', 0 < GetNsmMemberSize_ fd x.metric) := by
  have hs : GetNsmMemberSize_ fd q.metric = 0 := by simp only [GetNsmMemberSize_, hm]
  have ho : GetNsmMemberOffset_ fd q.metric = 0 := by simp only [GetNsmMemberOffset_, hm]
  refine ⟨hs, ho, ?_, fun pos => MapQueryElementToCopyCommand_checked_zero fd q pos hs,
    PM_FRAME_EVENT_QUERY.ctorLoop_checked_zero fd qs _ q (List.getElem?_mem hq) hs, ?_⟩
  · intro pos
    simp only [util.GetPaddingChecked, hs, if_true]
  · intro qs'
    constructor
    · intro h x hx
      by_contra h0
      have := PM_FRAME_EVENT_QUERY.ctorLoop_checked_zero fd qs' ⟨[], 0⟩ x hx (by omega)
      rw [PM_FRAME_EVENT_QUERY.ctor_checked, this] at h
      exact absurd h (by simp)
    · intro h
      exact PM_FRAME_EVENT_QUERY.ctorLoop_checked_pos fd qs' _ h

theorem PM_FRAME_EVENT_QUERY.unknown_metric_fails_witness :
    GetNsmMemberSize_ exampleLayout (element (.other 99) 3).metric = 0 ∧
      PM_FRAME_EVENT_QUERY.ctor_checked exampleLayout
        [element .PM_METRIC_PRESENT_MODE 0, element (.other 99) 3,
          element .PM_METRIC_GPU_POWER 0] = none ∧
      PM_FRAME_EVENT_QUERY.ctor_checked exampleLayout [element (.other 99) 0] = none ∧
      PM_FRAME_EVENT_QUERY.ctor_checked exampleLayout
          [element .PM_METRIC_PRESENT_MODE 0, element .PM_METRIC_GPU_POWER 0] =
        some (PM_FRAME_EVENT_QUERY.ctor exampleLayout
          [element .PM_METRIC_PRESENT_MODE 0, element .PM_METRIC_GPU_POWER 0]) :=
  ⟨(PM_FRAME_EVENT_QUERY.unknown_metric_fails exampleLayout
      [element .PM_METRIC_PRESENT_MODE 0, element (.other 99) 3,
        element .PM_METRIC_GPU_POWER 0] 1 (element (.other 99) 3) (by decide) (by decide)).1,
    (PM_FRAME_EVENT_QUERY.unknown_metric_fails exampleLayout
      [element .PM_METRIC_PRESENT_MODE 0, element (.other 99) 3,
        element .PM_METRIC_GPU_POWER 0] 1 (element (.other 99) 3) (by decide)
      (by decide)).2.2.2.2.1,
    by decide, by decide⟩

/-! ## The blob size -/

/-- Without wrap-around, the blob size after the loop is the blob size before it plus the
sizes and paddings of the commands. -/
theorem PM_FRAME_EVENT_QUERY.ctorLoop_blobSize (fd : PmNsmFrameData)
    (qs : List PM_QUERY_ELEMENT) (b : Nat) (hb : b + qs.length * 2 ^ 17 ≤ 2 ^ 64) :
    (PM_FRAME_EVENT_QUERY.ctorLoop fd qs ⟨[], b⟩).1.blobSize_ =
      b + ((PM_FRAME_EVENT_QUERY.ctorLoop fd qs ⟨[], b⟩).1.copyCommands_.map
        (fun cmd => cmd.size + cmd.padding)).sum := by
  induction qs generalizing b with
  | nil => simp [PM_FRAME_EVENT_QUERY.ctorLoop]
  | cons q qs ih =>
    rw [PM_FRAME_EVENT_QUERY.ctorLoop_cons]
    have h1 := MapQueryElementToCopyCommand_size_lt fd q b
    have h2 := MapQueryElementToCopyCommand_padding_lt fd q b
    simp only [List.length_cons] at hb
    have e1 : (b + ((MapQueryElementToCopyCommand_ fd q b).size +
        (MapQueryElementToCopyCommand_ fd q b).padding)) % 2 ^ 64 =
        b + ((MapQueryElementToCopyCommand_ fd q b).size +
          (MapQueryElementToCopyCommand_ fd q b).padding) := Nat.mod_eq_of_lt (by omega)
    rw [e1]
    simp only [List.map_cons, List.sum_cons]
    rw [ih _ (by omega)]
    omega

/-- C12: for every element list (of at most `2 ^ 47` elements, so that the `size_t` blob
size does not wrap), `GetBlobSize()` is the sum of size + padding over the compiled
commands, every written-back element has dataOffset + dataSize at most `GetBlobSize()`, and
for every record long enough for all commands `GatherToBlob` succeeds on every destination
of at least `GetBlobSize()` bytes (so on one of exactly that many) and leaves every
destination byte from index `GetBlobSize()` on as it was. -/
theorem PM_FRAME_EVENT_QUERY.GetBlobSize_bounds (fd : PmNsmFrameData)
    (qs : List PM_QUERY_ELEMENT) (hlen : qs.length ≤ 2 ^ 47) :
    (PM_FRAME_EVENT_QUERY.ctor fd qs).1.GetBlobSize =
        ((PM_FRAME_EVENT_QUERY.ctor fd qs).1.copyCommands_.map
          (fun cmd => cmd.size + cmd.padding)).sum ∧
      (∀ q ∈ (PM_FRAME_EVENT_QUERY.ctor fd qs).2,
        q.dataOffset + q.dataSize ≤ (PM_FRAME_EVENT_QUERY.ctor fd qs).1.GetBlobSize) ∧
      ∀ src dst : List Nat,
        (∀ cmd ∈ (PM_FRAME_EVENT_QUERY.ctor fd qs).1.copyCommands_,
          cmd.offset + cmd.size ≤ src.length) →
        (PM_FRAME_EVENT_QUERY.ctor fd qs).1.GetBlobSize ≤ dst.length →
        ∃ blob, (PM_FRAME_EVENT_QUERY.ctor fd qs).1.GatherToBlob src dst = some blob ∧
          blob.length = dst.length ∧
          ∀ j, (PM_FRAME_EVENT_QUERY.ctor fd qs).1.GetBlobSize ≤ j → blob[j]? = dst[j]? := by
  have hb : 0 + qs.length * 2 ^ 17 ≤ 2 ^ 64 := by omega
  have hr := PM_FRAME_EVENT_QUERY.ctorLoop_ranges fd qs 0 hb
  refine ⟨?_, fun q hq => (hr.2 q hq).2, ?_⟩
  · have := PM_FRAME_EVENT_QUERY.ctorLoop_blobSize fd qs 0 hb
    simpa only [Nat.zero_add] using this
  · intro src dst hsrc hdst
    obtain ⟨blob, g1, g2, g3, _⟩ := gatherLoop_ctorLoop fd src qs 0 dst hb hsrc hdst
    refine ⟨blob, g1, g2, ?_⟩
    intro j hj
    apply g3
    intro q hq
    have := (hr.2 q hq).2
    simp only [PM_FRAME_EVENT_QUERY.GetBlobSize, PM_FRAME_EVENT_QUERY.ctor] at hj
    right
    omega

theorem PM_FRAME_EVENT_QUERY.GetBlobSize_bounds_witness :
    (PM_FRAME_EVENT_QUERY.ctor exampleLayout repeatedQuery).1.GetBlobSize =
        ((PM_FRAME_EVENT_QUERY.ctor exampleLayout repeatedQuery).1.copyCommands_.map
          (fun cmd => cmd.size + cmd.padding)).sum ∧
      (∀ q ∈ (PM_FRAME_EVENT_QUERY.ctor exampleLayout repeatedQuery).2,
        q.dataOffset + q.dataSize ≤
          (PM_FRAME_EVENT_QUERY.ctor exampleLayout repeatedQuery).1.GetBlobSize) ∧
      ∀ src dst : List Nat,
        (∀ cmd ∈ (PM_FRAME_EVENT_QUERY.ctor exampleLayout repeatedQuery).1.copyCommands_,
          cmd.offset + cmd.size ≤ src.length) →
        (PM_FRAME_EVENT_QUERY.ctor exampleLayout repeatedQuery).1.GetBlobSize ≤ dst.length →
        ∃ blob, (PM_FRAME_EVENT_QUERY.ctor exampleLayout repeatedQuery).1.GatherToBlob src
            dst = some blob ∧
          blob.length = dst.length ∧
          ∀ j, (PM_FRAME_EVENT_QUERY.ctor exampleLayout repeatedQuery).1.GetBlobSize ≤ j →
            blob[j]? = dst[j]? :=
  PM_FRAME_EVENT_QUERY.GetBlobSize_bounds exampleLayout repeatedQuery (by decide)

end mid

namespace ipc.experimental

/-! ## `MakeUnique` and `AllocatorDeleter` -/

theorem ShmAllocator.allocate_outstanding (a : ShmAllocator) (elemSize count : Nat)
    (s s1 : Shm) (ptr : Nat) (h : a.allocate elemSize count s = some (ptr, s1)) :
    ptr = s.next ∧ s1.outstanding = ⟨a.mngr, ptr, elemSize * count⟩ :: s.outstanding := by
  simp only [ShmAllocator.allocate] at h
  split at h
  · simp only [Option.some.injEq, Prod.mk.injEq] at h
    obtain ⟨h1, h2⟩ := h
    subst h1 h2
    exact ⟨rfl, rfl⟩
  · exact absurd h (by simp)

theorem ShmAllocator.deallocate_head (a : ShmAllocator) (ptr count bytes : Nat)
    (rest : List Block) (s : Shm) (h : s.outstanding = ⟨a.mngr, ptr, bytes⟩ :: rest) :
    (a.deallocate ptr count s).outstanding = rest := by
  simp [ShmAllocator.deallocate, h]

theorem ShmAllocator.deallocate_events (a : ShmAllocator) (ptr count : Nat) (s : Shm) :
    (a.deallocate ptr count s).events = s.events ++ [Event.deallocate a.mngr ptr count] := by
  unfold ShmAllocator.deallocate
  split <;> rfl

theorem Leaf2_failsClean (n : Nat) : (Leaf2 n).FailsClean := by
  intro x a p s s1 h
  simp only [Leaf2] at h
  split at h
  · simp only [Except.error.injEq] at h
    rw [h]
  · exact absurd h (by simp)

theorem Leaf2_dtorExtends (n : Nat) : (Leaf2 n).DtorExtends := by
  intro p s
  simp only [Leaf2]
  split
  · exact ⟨_, ShmAllocator.deallocate_events _ _ _ _⟩
  · exact ⟨[], by simp⟩

theorem Leaf2_balanced (n : Nat) : (Leaf2 n).Balanced := by
  intro x a p s s1 evs h
  simp only [Leaf2] at h
  split at h
  · exact absurd h (by simp)
  · rename_i q s2 hq
    simp only [Except.ok.injEq] at h
    subst h
    obtain ⟨_, ho⟩ := ShmAllocator.allocate_outstanding _ _ _ _ _ _ hq
    simp only [Leaf2, List.lookup, beq_self_eq_true]
    exact ShmAllocator.deallocate_head _ _ _ _ _ _ ho

/-- C13, the claim as stated fails: `MakeUnique<Leaf2>` in a segment with 32 free bytes
allocates the 32 bytes of the object, the constructor then fails to get the buffer of its
string, and the exception leaves `MakeUnique` with the object's storage still outstanding,
although nothing was outstanding before the call. -/
theorem MakeUnique_leaks_on_failed_construction :
    MakeUnique (Leaf2 32) ⟨7⟩ 5 (sampleShm 32) = Except.error sampleFailedShm ∧
      sampleFailedShm.outstanding = [⟨7, 4096, 32⟩] ∧ (sampleShm 32).outstanding = [] ∧
      sampleFailedShm.outstanding ≠ (sampleShm 32).outstanding :=
  ⟨rfl, rfl, rfl, by decide⟩

/-- C13, amended: `MakeUnique` returns nothing to the allocator.  When it exits with a
failure, either `allocate` failed and the outstanding allocations are those before the
call, or the element was allocated and construction failed, and then (for a constructor
that on failure leaves the outstanding allocations as it found them) the outstanding
allocations are those before the call plus the element allocated for the object. -/
theorem MakeUnique_failure_keeps_storage {Args : Type} (T : ObjectType Args)
    (hT : T.FailsClean) (a : ShmAllocator) (args : Args) (s s2 : Shm)
    (h : MakeUnique T a args s = Except.error s2) :
    (a.rebind.allocate T.size 1 s = none ∧ s2.outstanding = s.outstanding) ∨
      ∃ ptr s1, a.rebind.allocate T.size 1 s = some (ptr, s1) ∧
        s2.outstanding = ⟨a.mngr, ptr, T.size * 1⟩ :: s.outstanding := by
  simp only [MakeUnique] at h
  split at h
  · rename_i hn
    simp only [Except.error.injEq] at h
    exact Or.inl ⟨hn, by rw [h]⟩
  · rename_i ptr s1 ha
    right
    refine ⟨ptr, s1, ha, ?_⟩
    split at h
    · rename_i s2' hc
      simp only [Except.error.injEq] at h
      subst h
      have := hT _ _ _ _ _ hc
      rw [this]
      exact (ShmAllocator.allocate_outstanding _ _ _ _ _ _ ha).2
    · exact absurd h (by simp)

theorem MakeUnique_failure_keeps_storage_witness :
    ((ShmAllocator.rebind ⟨7⟩).allocate (Leaf2 32).size 1 (sampleShm 32) = none ∧
        sampleFailedShm.outstanding = (sampleShm 32).outstanding) ∨
      ∃ ptr s1, (ShmAllocator.rebind ⟨7⟩).allocate (Leaf2 32).size 1 (sampleShm 32) =
          some (ptr, s1) ∧
        sampleFailedShm.outstanding =
          ⟨7, ptr, (Leaf2 32).size * 1⟩ :: (sampleShm 32).outstanding :=
  MakeUnique_failure_keeps_storage (Leaf2 32) (Leaf2_failsClean 32) ⟨7⟩ 5 (sampleShm 32)
    sampleFailedShm rfl

/-- C14: `AllocatorDeleter::operator()` first records the destruction of the object at
`ptr`, then the destructor runs, and the last call is the deallocation of one element at
`ptr` through the deleter's own allocator.  A handle made by `MakeUnique` holds the pointer
that `allocate` returned and a deleter over the allocator that `MakeUnique` allocated
through, on the segment manager of the allocator passed in; for a type whose destructor
gives back what its constructor acquired, running the deleter on that handle leaves the
outstanding allocations that were there before `MakeUnique`. -/
theorem AllocatorDeleter.destroys_then_deallocates {Args : Type} (T : ObjectType Args)
    (hd : T.DtorExtends) (hb : T.Balanced) (a : ShmAllocator) (args : Args) (s s2 : Shm)
    (u : UptrT) (h : MakeUnique T a args s = Except.ok (u, s2)) :
    (∀ (d : AllocatorDeleter) (ptr : Nat) (s0 : Shm), ∃ evs,
        (d.call T ptr s0).events =
          s0.events ++ [Event.destroy ptr] ++ evs ++ [Event.deallocate d.allocator.mngr ptr 1]) ∧
      u.deleter.allocator = a.rebind ∧ u.deleter.allocator.mngr = a.mngr ∧
      (∃ s1, a.rebind.allocate T.size 1 s = some (u.ptr, s1)) ∧
      (u.deleter.call T u.ptr s2).outstanding = s.outstanding := by
  refine ⟨?_, ?_⟩
  · intro d ptr s0
    obtain ⟨evs, he⟩ := hd ptr { s0 with events := s0.events ++ [Event.destroy ptr] }
    refine ⟨evs, ?_⟩
    simp only [AllocatorDeleter.call, ShmAllocator.deallocate_events, destroy, he]
  · simp only [MakeUnique] at h
    split at h
    · exact absurd h (by simp)
    · rename_i ptr s1 ha
      split at h
      · exact absurd h (by simp)
      · rename_i s2' hc
        simp only [Except.ok.injEq, Prod.mk.injEq] at h
        obtain ⟨hu, hs⟩ := h
        subst hu hs
        refine ⟨rfl, rfl, ⟨s1, ha⟩, ?_⟩
        have hbal := hb _ _ _ _ _ (s2'.events ++ [Event.destroy ptr]) hc
        have ho := (ShmAllocator.allocate_outstanding _ _ _ _ _ _ ha).2
        simp only [AllocatorDeleter.call, destroy]
        exact ShmAllocator.deallocate_head _ _ _ _ _ _ (hbal.trans ho)

theorem AllocatorDeleter.destroys_then_deallocates_witness :
    MakeUnique (Leaf2 32) ⟨7⟩ 5 (sampleShm 200) =
        Except.ok (⟨4096, ⟨⟨7⟩⟩⟩, sampleLeaf2Shm) ∧
      (AllocatorDeleter.call (Leaf2 32) ⟨⟨7⟩⟩ 4096 sampleLeaf2Shm).outstanding =
        (sampleShm 200).outstanding :=
  ⟨rfl, (AllocatorDeleter.destroys_then_deallocates (Leaf2 32) (Leaf2_dtorExtends 32)
    (Leaf2_balanced 32) ⟨7⟩ 5 (sampleShm 200) sampleLeaf2Shm ⟨4096, ⟨⟨7⟩⟩⟩ rfl).2.2.2.2⟩

end ipc.experimental

namespace ipc.intro

/-! ## Padding -/

theorem GetPadding_zero (a : Nat) : GetPadding a 0 = 0 := by
  simp [GetPadding]

theorem GetPadding_lt (a i : Nat) (ha : 0 < a) : GetPadding a i < a :=
  Nat.mod_lt _ ha

theorem GetPadding_of_rem_pos (a i : Nat) (ha : 0 < a) (hr : 0 < i % a) :
    GetPadding a i = a - i % a := by
  have h1 : i % a < a := Nat.mod_lt _ ha
  exact Nat.mod_eq_of_lt (by omega)

theorem add_mod_of_small (a i p : Nat) (hp : i % a + p < a) : (i + p) % a = i % a + p := by
  have h2 := Nat.div_add_mod i a
  have e : i + p = i % a + p + a * (i / a) := by omega
  rw [e, Nat.add_mul_mod_self_left]
  exact Nat.mod_eq_of_lt hp

/-- C20: for every byte index `i` and every alignment `a` of an element type (`alignof` is
never 0), `GetPadding<T>(i)` brings `i` to a multiple of `a`, no smaller number of bytes
does, it is below `a`, and it is 0 when `i` is already a multiple of `a`. -/
theorem GetPadding_least (a i : Nat) (ha : 0 < a) :
    (i + GetPadding a i) % a = 0 ∧ (∀ p, (i + p) % a = 0 → GetPadding a i ≤ p) ∧
      GetPadding a i < a ∧ (i % a = 0 → GetPadding a i = 0) := by
  have h1 : i % a < a := Nat.mod_lt _ ha
  by_cases h0 : i % a = 0
  · have e : GetPadding a i = 0 := by
      simp only [GetPadding, h0, Nat.sub_zero, Nat.mod_self]
    rw [e]
    exact ⟨by simpa using h0, fun p _ => Nat.zero_le p, ha, fun _ => rfl⟩
  · have e := GetPadding_of_rem_pos a i ha (Nat.pos_of_ne_zero h0)
    rw [e]
    refine ⟨?_, ?_, by omega, fun h => absurd h h0⟩
    · have h2 := Nat.div_add_mod i a
      have h4 : i + (a - i % a) = a * (i / a + 1) := by
        rw [Nat.mul_add, Nat.mul_one]
        omega
      rw [h4, Nat.mul_mod_right]
    · intro p hp
      by_contra hlt
      have := add_mod_of_small a i p (by omega)
      omega

theorem GetPadding_least_witness :
    0 < 8 ∧ (13 + GetPadding 8 13) % 8 = 0 ∧ (∀ p, (13 + p) % 8 = 0 → GetPadding 8 13 ≤ p) ∧
      GetPadding 8 13 < 8 ∧ (13 % 8 = 0 → GetPadding 8 13 = 0) :=
  ⟨by decide, GetPadding_least 8 13 (by decide)⟩

/-! ## The sizing pass stores nothing -/

theorem allocate_probe_fst (T : TypeLayout) (count : Nat) (h : Heap) :
    (Allocator.ProbeAllocator.allocate T count h).1 = 0 := rfl

theorem allocate_probe_mem (T : TypeLayout) (count : Nat) (h : Heap) :
    (Allocator.ProbeAllocator.allocate T count h).2.mem = h.mem := rfl

theorem IntrospectionString.ApiClone_probe_string (L : ApiLayout)
    (self : IntrospectionString) (h : Heap) :
    (self.ApiClone L .ProbeAllocator h).1 = 0 ∧
      (self.ApiClone L .ProbeAllocator h).2.mem = h.mem :=
  ⟨rfl, rfl⟩

theorem cloneNonApiClonable_probe (L : ApiLayout) (stat : Int) (h : Heap) :
    (cloneNonApiClonable L .ProbeAllocator stat h).1 = 0 ∧
      (cloneNonApiClonable L .ProbeAllocator stat h).2.mem = h.mem :=
  ⟨rfl, rfl⟩

theorem IntrospectionObjArray.cloneElements_probe {T : Type} (L : ApiLayout)
    (cloneElement : T → Heap → Nat × Heap) (xs : List T)
    (hc : ∀ x ∈ xs, ∀ h, (cloneElement x h).2.mem = h.mem) (i : Nat) (h : Heap) :
    (IntrospectionObjArray.cloneElements L cloneElement 0 xs i h).mem = h.mem := by
  induction xs generalizing i h with
  | nil => rfl
  | cons x xs ih =>
    simp only [IntrospectionObjArray.cloneElements, ne_eq, not_true_eq_false, if_false]
    rw [ih (fun y hy => hc y (List.mem_cons_of_mem _ hy))]
    exact hc x (List.mem_cons_self _ _) h

theorem IntrospectionObjArray.ApiClone_probe_objArray {T : Type} (L : ApiLayout)
    (cloneElement : T → Heap → Nat × Heap) (self : IntrospectionObjArray T)
    (hc : ∀ x ∈ self.buffer_, ∀ h, (cloneElement x h).2.mem = h.mem) (h : Heap) :
    (self.ApiClone L cloneElement .ProbeAllocator h).1 = 0 ∧
      (self.ApiClone L cloneElement .ProbeAllocator h).2.mem = h.mem := by
  refine ⟨rfl, ?_⟩
  simp only [IntrospectionObjArray.ApiClone, allocate_probe_fst, ne_eq, not_true_eq_false,
    if_false]
  rw [IntrospectionObjArray.cloneElements_probe L cloneElement _ hc]
  rfl

theorem IntrospectionEnumKey.ApiClone_probe_enumKey (L : ApiLayout)
    (self : IntrospectionEnumKey) (h : Heap) :
    (self.ApiClone L .ProbeAllocator h).1 = 0 ∧
      (self.ApiClone L .ProbeAllocator h).2.mem = h.mem := by
  refine ⟨rfl, ?_⟩
  simp only [IntrospectionEnumKey.ApiClone, allocate_probe_fst, ne_eq, not_true_eq_false,
    if_false]
  rw [(self.description_.ApiClone_probe_string L _).2,
    (self.shortName_.ApiClone_probe_string L _).2, (self.name_.ApiClone_probe_string L _).2,
    (self.symbol_.ApiClone_probe_string L _).2]
  rfl

theorem IntrospectionEnum.ApiClone_probe_enum (L : ApiLayout)
    (self : IntrospectionEnum) (h : Heap) :
    (self.ApiClone L .ProbeAllocator h).1 = 0 ∧
      (self.ApiClone L .ProbeAllocator h).2.mem = h.mem := by
  refine ⟨rfl, ?_⟩
  simp only [IntrospectionEnum.ApiClone, allocate_probe_fst, ne_eq, not_true_eq_false,
    if_false]
  rw [(self.keys_.ApiClone_probe_objArray L _
    (fun x _ h => (x.ApiClone_probe_enumKey L h).2) _).2]
  rfl

theorem IntrospectionDevice.ApiClone_probe_device (L : ApiLayout)
    (self : IntrospectionDevice) (h : Heap) :
    (self.ApiClone L .ProbeAllocator h).1 = 0 ∧
      (self.ApiClone L .ProbeAllocator h).2.mem = h.mem :=
  ⟨rfl, rfl⟩

theorem IntrospectionDeviceMetricInfo.ApiClone_probe_deviceMetricInfo (L : ApiLayout)
    (self : IntrospectionDeviceMetricInfo) (h : Heap) :
    (self.ApiClone L .ProbeAllocator h).1 = 0 ∧
      (self.ApiClone L .ProbeAllocator h).2.mem = h.mem :=
  ⟨rfl, rfl⟩

theorem IntrospectionDataTypeInfo.ApiClone_probe_dataTypeInfo (L : ApiLayout)
    (self : IntrospectionDataTypeInfo) (h : Heap) :
    (self.ApiClone L .ProbeAllocator h).1 = 0 ∧
      (self.ApiClone L .ProbeAllocator h).2.mem = h.mem :=
  ⟨rfl, rfl⟩

theorem IntrospectionMetric.ApiClone_probe_metric (L : ApiLayout)
    (self : IntrospectionMetric) (h : Heap) :
    (self.ApiClone L .ProbeAllocator h).1 = 0 ∧
      (self.ApiClone L .ProbeAllocator h).2.mem = h.mem := by
  refine ⟨rfl, ?_⟩
  simp only [IntrospectionMetric.ApiClone, allocate_probe_fst, ne_eq, not_true_eq_false,
    if_false]
  rw [(self.deviceMetricInfo_.ApiClone_probe_objArray L _
    (fun x _ h => (x.ApiClone_probe_deviceMetricInfo L h).2) _).2,
    (self.stats_.ApiClone_probe_objArray L _
    (fun x _ h => (cloneNonApiClonable_probe L x h).2) _).2]
  rfl

theorem IntrospectionRoot.ApiClone_probe_root (L : ApiLayout)
    (self : IntrospectionRoot) (h : Heap) :
    (self.ApiClone L .ProbeAllocator h).1 = 0 ∧
      (self.ApiClone L .ProbeAllocator h).2.mem = h.mem := by
  refine ⟨rfl, ?_⟩
  simp only [IntrospectionRoot.ApiClone, allocate_probe_fst, ne_eq, not_true_eq_false,
    if_false]
  rw [(self.devices_.ApiClone_probe_objArray L _
    (fun x _ h => (x.ApiClone_probe_device L h).2) _).2,
    (self.enums_.ApiClone_probe_objArray L _
    (fun x _ h => (x.ApiClone_probe_enum L h).2) _).2,
    (self.metrics_.ApiClone_probe_objArray L _
    (fun x _ h => (x.ApiClone_probe_metric L h).2) _).2]
  rfl

/-- C15: with the `ProbeAllocator`, whose `allocate` returns null, the clone of every node
kind returns the null pointer and leaves every byte of memory as it was, from every heap:
the root, each object array with its elements and pointer slots, metrics, enums, enum keys,
devices, per-device infos, data type infos, stats and strings. -/
theorem ApiClone_probe_silent (L : ApiLayout) :
    (∀ x : IntrospectionRoot, Silent (x.ApiClone L .ProbeAllocator)) ∧
      (∀ x : IntrospectionObjArray IntrospectionMetric,
        Silent (x.ApiClone L (IntrospectionMetric.ApiClone L .ProbeAllocator) .ProbeAllocator)) ∧
      (∀ x : IntrospectionObjArray IntrospectionEnum,
        Silent (x.ApiClone L (IntrospectionEnum.ApiClone L .ProbeAllocator) .ProbeAllocator)) ∧
      (∀ x : IntrospectionObjArray IntrospectionDevice,
        Silent (x.ApiClone L (IntrospectionDevice.ApiClone L .ProbeAllocator) .ProbeAllocator)) ∧
      (∀ x : IntrospectionObjArray IntrospectionEnumKey,
        Silent (x.ApiClone L (IntrospectionEnumKey.ApiClone L .ProbeAllocator)
          .ProbeAllocator)) ∧
      (∀ x : IntrospectionObjArray IntrospectionDeviceMetricInfo,
        Silent (x.ApiClone L (IntrospectionDeviceMetricInfo.ApiClone L .ProbeAllocator)
          .ProbeAllocator)) ∧
      (∀ x : IntrospectionObjArray Int,
        Silent (x.ApiClone L (cloneNonApiClonable L .ProbeAllocator) .ProbeAllocator)) ∧
      (∀ x : IntrospectionMetric, Silent (x.ApiClone L .ProbeAllocator)) ∧
      (∀ x : IntrospectionEnum, Silent (x.ApiClone L .ProbeAllocator)) ∧
      (∀ x : IntrospectionEnumKey, Silent (x.ApiClone L .ProbeAllocator)) ∧
      (∀ x : IntrospectionDevice, Silent (x.ApiClone L .ProbeAllocator)) ∧
      (∀ x : IntrospectionDeviceMetricInfo, Silent (x.ApiClone L .ProbeAllocator)) ∧
      (∀ x : IntrospectionDataTypeInfo, Silent (x.ApiClone L .ProbeAllocator)) ∧
      (∀ stat : Int, Silent (cloneNonApiClonable L .ProbeAllocator stat)) ∧
      ∀ x : IntrospectionString, Silent (x.ApiClone L .ProbeAllocator) :=
  ⟨fun x h => x.ApiClone_probe_root L h,
    fun x h => x.ApiClone_probe_objArray L _ (fun e _ h => (e.ApiClone_probe_metric L h).2) h,
    fun x h => x.ApiClone_probe_objArray L _ (fun e _ h => (e.ApiClone_probe_enum L h).2) h,
    fun x h => x.ApiClone_probe_objArray L _ (fun e _ h => (e.ApiClone_probe_device L h).2) h,
    fun x h => x.ApiClone_probe_objArray L _ (fun e _ h => (e.ApiClone_probe_enumKey L h).2) h,
    fun x h => x.ApiClone_probe_objArray L _
      (fun e _ h => (e.ApiClone_probe_deviceMetricInfo L h).2) h,
    fun x h => x.ApiClone_probe_objArray L _
      (fun e _ h => (cloneNonApiClonable_probe L e h).2) h,
    fun x h => x.ApiClone_probe_metric L h,
    fun x h => x.ApiClone_probe_enum L h,
    fun x h => x.ApiClone_probe_enumKey L h,
    fun x h => x.ApiClone_probe_device L h,
    fun x h => x.ApiClone_probe_deviceMetricInfo L h,
    fun x h => x.ApiClone_probe_dataTypeInfo L h,
    fun x h => cloneNonApiClonable_probe L x h,
    fun x h => x.ApiClone_probe_string L h⟩

/-! ## The root of a placed clone -/

theorem allocate_block_first (pBytes : Nat) (T : TypeLayout) (m : Mem)
    (hp : pBytes < 2 ^ 64) :
    ((Allocator.BlockAllocator pBytes).allocate T 1 (Heap.fresh m)).1 = pBytes := by
  simp only [Allocator.allocate, Heap.fresh, GetPadding_zero, Nat.add_zero, Nat.zero_mod]
  exact Nat.mod_eq_of_lt hp

/-- C18: for every metadata tree whose clone fits in the address space behind the buffer
address `pBytes`, with probed total `N`: the root pointer returned by
`IntrospectionRoot::ApiClone` through a fresh `BlockAllocator` is `pBytes` itself, every range
handed out during the clone lies in the `N` bytes from the root pointer on, and no memory
outside those `N` bytes is changed. -/
theorem IntrospectionRoot.root_pointer_is_buffer_start (L : ApiLayout)
    (T : IntrospectionRoot) (pBytes : Nat) (m : Mem)
    (hfit : pBytes + T.cloneExtent L < 2 ^ 64) :
    (T.ApiClone L (.BlockAllocator pBytes) (Heap.fresh m)).1 = pBytes ∧
      (∀ c ∈ (T.ApiClone L (.BlockAllocator pBytes) (Heap.fresh m)).2.calls,
        (T.ApiClone L (.BlockAllocator pBytes) (Heap.fresh m)).1 ≤ c.result ∧
          c.result + c.elemSize * c.count ≤
            (T.ApiClone L (.BlockAllocator pBytes) (Heap.fresh m)).1 +
              (T.ApiClone L .ProbeAllocator (Heap.fresh m)).2.GetTotalSize) ∧
      ∀ a, a < (T.ApiClone L (.BlockAllocator pBytes) (Heap.fresh m)).1 ∨
          (T.ApiClone L (.BlockAllocator pBytes) (Heap.fresh m)).1 +
            (T.ApiClone L .ProbeAllocator (Heap.fresh m)).2.GetTotalSize ≤ a →
        (T.ApiClone L (.BlockAllocator pBytes) (Heap.fresh m)).2.mem a = m a := by
  have hroot : (T.ApiClone L (.BlockAllocator pBytes) (Heap.fresh m)).1 = pBytes :=
    allocate_block_first pBytes L.PM_INTROSPECTION_ROOT m (by omega)
  rw [hroot]
  rw [IntrospectionRoot.cloneExtent_eq] at hfit
  have q := T.ApiClone_placedIf_root L pBytes (Heap.fresh m) hfit
  rw [T.probe_total_eq_exactEnd L pBytes m hfit]
  obtain ⟨new, hc, hr, _⟩ := q.calls
  have hc' : (T.ApiClone L (.BlockAllocator pBytes) (Heap.fresh m)).2.calls = new := by
    rw [hc]; rfl
  rw [hc']
  refine ⟨rfl, ?_, ?_⟩
  · intro c hcm
    have := hr c hcm
    simp only [AllocCall.stop, Heap.fresh] at this
    omega
  · intro a ha
    exact q.frame a (by simpa [Heap.fresh] using ha)

theorem IntrospectionRoot.root_pointer_is_buffer_start_witness :
    4096 + sampleRoot.cloneExtent x64Layout < 2 ^ 64 ∧
      (sampleRoot.ApiClone x64Layout (.BlockAllocator 4096) (Heap.fresh (fun _ => none))).1 =
        4096 :=
  ⟨by decide, (IntrospectionRoot.root_pointer_is_buffer_start x64Layout sampleRoot 4096
    (fun _ => none) (by decide)).1⟩

/-! ## Population of the per-device metric infos -/

theorem IntrospectionMetric.AddStats_eq (self : IntrospectionMetric) (stats : List Int) :
    self.AddStats stats = { self with stats_ := ⟨self.stats_.buffer_ ++ stats⟩ } := by
  induction stats generalizing self with
  | nil => simp [IntrospectionMetric.AddStats]
  | cons s ss ih =>
    have := ih { self with stats_ := self.stats_.PushBack s }
    simp only [IntrospectionMetric.AddStats, List.foldl_cons] at this ⊢
    rw [this]
    simp [IntrospectionObjArray.PushBack]

theorem IntrospectionMetric.ctor_eq (id_in type_in unit_in : Int)
    (typeInfo_in : IntrospectionDataTypeInfo) (stats_in : List Int) :
    IntrospectionMetric.ctor id_in type_in unit_in typeInfo_in stats_in =
      ⟨id_in, type_in, unit_in, typeInfo_in, ⟨stats_in⟩, ⟨[]⟩⟩ := by
  rw [IntrospectionMetric.ctor, IntrospectionMetric.AddStats_eq]
  rfl

/-- The metrics that `PopulateMetrics` adds, in list order, behind the metrics the root
already has. -/
theorem PopulateMetrics_metrics (E : ApiEnums) (METRIC_LIST : List MetricEntry)
    (root : IntrospectionRoot) :
    (PopulateMetrics E METRIC_LIST root).metrics_.buffer_ =
      root.metrics_.buffer_ ++ METRIC_LIST.map (fun e =>
        PopulateDeviceMetricInfo E (IntrospectionMetric.ctor e.metric e.metric_type e.unit
          ⟨e.data_type, e.enum_id⟩ e.stats) e.device_type) := by
  induction METRIC_LIST generalizing root with
  | nil => simp [PopulateMetrics]
  | cons e es ih =>
    have := ih (X_REG_METRIC E root e)
    simp only [PopulateMetrics, List.foldl_cons] at this ⊢
    rw [this]
    simp [X_REG_METRIC, IntrospectionRoot.AddMetric, IntrospectionObjArray.PushBack]

theorem PopulateMetrics_at (E : ApiEnums) (METRIC_LIST : List MetricEntry)
    (root : IntrospectionRoot) (i : Nat) (e : MetricEntry) (he : METRIC_LIST[i]? = some e) :
    (PopulateMetrics E METRIC_LIST root).metrics_.buffer_[root.metrics_.buffer_.length + i]? =
      some (PopulateDeviceMetricInfo E ⟨e.metric, e.metric_type, e.unit,
        ⟨e.data_type, e.enum_id⟩, ⟨e.stats⟩, ⟨[]⟩⟩ e.device_type) := by
  rw [PopulateMetrics_metrics, List.getElem?_append_right (Nat.le_add_right _ _),
    Nat.add_sub_cancel_left, List.getElem?_map, he]
  simp only [Option.map_some', IntrospectionMetric.ctor_eq]

/-- C16: for every entry of the metric list whose device type is `INDEPENDENT`, whatever its
metric id, the metric that `PopulateMetrics` adds for it (at the entry's position behind the
metrics already in the root) has the entry's id, type, unit, type info and stats and exactly
one per-device info: device id 0, `AVAILABLE`, array size 1. -/
theorem PopulateMetrics_independent (E : ApiEnums) (METRIC_LIST : List MetricEntry)
    (root : IntrospectionRoot) (i : Nat) (e : MetricEntry) (he : METRIC_LIST[i]? = some e)
    (hd : e.device_type = E.PM_DEVICE_TYPE_INDEPENDENT) :
    (PopulateMetrics E METRIC_LIST root).metrics_.buffer_[root.metrics_.buffer_.length + i]? =
      some ⟨e.metric, e.metric_type, e.unit, ⟨e.data_type, e.enum_id⟩, ⟨e.stats⟩,
        ⟨[⟨0, E.PM_METRIC_AVAILABILITY_AVAILABLE, 1⟩]⟩⟩ := by
  rw [PopulateMetrics_at E METRIC_LIST root i e he]
  simp [PopulateDeviceMetricInfo, hd, IntrospectionMetric.AddDeviceMetricInfo,
    IntrospectionObjArray.PushBack]

theorem PopulateMetrics_independent_witness :
    (PopulateMetrics sampleEnums sampleMetricList IntrospectionRoot.empty).metrics_.buffer_[
        IntrospectionRoot.empty.metrics_.buffer_.length + 3]? =
      some ⟨26, 1, 4, ⟨1, 0⟩, ⟨[]⟩, ⟨[⟨0, sampleEnums.PM_METRIC_AVAILABILITY_AVAILABLE, 1⟩]⟩⟩ :=
  PopulateMetrics_independent sampleEnums sampleMetricList IntrospectionRoot.empty 3
    ⟨26, 1, 4, 1, 0, 0, []⟩ (by decide) (by decide)

/-- C17: for every entry of the metric list whose device type is not `INDEPENDENT`, the
metric that `PopulateMetrics` adds for it has two per-device infos, for device 1 and then
device 2, both `AVAILABLE`, with array size 1, except that the info of device 2 has array
size 2 when the metric is `GPU_FAN_SPEED`; and, the device types `GRAPHICS_ADAPTER` and
`INDEPENDENT` being different enumerators, the device ids of these infos are the ids of the
devices of a type other than `INDEPENDENT` that `PopulateDevices` registers, in order. -/
theorem PopulateMetrics_per_device (E : ApiEnums) (METRIC_LIST : List MetricEntry)
    (root devRoot : IntrospectionRoot) (i : Nat) (e : MetricEntry)
    (he : METRIC_LIST[i]? = some e) (hd : e.device_type ≠ E.PM_DEVICE_TYPE_INDEPENDENT)
    (hE : E.PM_DEVICE_TYPE_GRAPHICS_ADAPTER ≠ E.PM_DEVICE_TYPE_INDEPENDENT) :
    ∃ m, (PopulateMetrics E METRIC_LIST root).metrics_.buffer_[
          root.metrics_.buffer_.length + i]? = some m ∧
      m.id_ = e.metric ∧
      m.deviceMetricInfo_.buffer_ = [⟨1, E.PM_METRIC_AVAILABILITY_AVAILABLE, 1⟩,
        ⟨2, E.PM_METRIC_AVAILABILITY_AVAILABLE,
          if e.metric = E.PM_METRIC_GPU_FAN_SPEED then 2 else 1⟩] ∧
      m.deviceMetricInfo_.buffer_.map (fun info => info.deviceId_) =
        (((PopulateDevices E devRoot).devices_.buffer_.drop
          devRoot.devices_.buffer_.length).filter
            (fun d => d.type_ ≠ E.PM_DEVICE_TYPE_INDEPENDENT)).map (fun d => d.id_) := by
  refine ⟨_, PopulateMetrics_at E METRIC_LIST root i e he, ?_, ?_, ?_⟩
  · simp only [PopulateDeviceMetricInfo, hd, if_false]
    split <;> rfl
  · simp only [PopulateDeviceMetricInfo, hd, if_false]
    split <;> simp [IntrospectionMetric.AddDeviceMetricInfo, IntrospectionObjArray.PushBack, *]
  · have hdev : (PopulateDevices E devRoot).devices_.buffer_.drop
        devRoot.devices_.buffer_.length =
        [⟨0, E.PM_DEVICE_TYPE_INDEPENDENT, E.PM_DEVICE_VENDOR_UNKNOWN,
            ⟨chars "Device-independent"⟩⟩,
          ⟨1, E.PM_DEVICE_TYPE_GRAPHICS_ADAPTER, E.PM_DEVICE_VENDOR_INTEL, ⟨chars "Arc 750"⟩⟩,
          ⟨2, E.PM_DEVICE_TYPE_GRAPHICS_ADAPTER, E.PM_DEVICE_VENDOR_NVIDIA,
            ⟨chars "GeForce RTX 2080 ti"⟩⟩] := by
      simp [PopulateDevices, IntrospectionRoot.AddDevice, IntrospectionObjArray.PushBack]
    rw [hdev]
    simp only [PopulateDeviceMetricInfo, hd, if_false]
    split <;> simp [IntrospectionMetric.AddDeviceMetricInfo, IntrospectionObjArray.PushBack,
      List.filter, hE]

theorem PopulateMetrics_per_device_witness :
    ∃ m, (PopulateMetrics sampleEnums sampleMetricList IntrospectionRoot.empty).metrics_.buffer_[
          IntrospectionRoot.empty.metrics_.buffer_.length + 2]? = some m ∧
      m.id_ = 26 ∧
      m.deviceMetricInfo_.buffer_ = [⟨1, sampleEnums.PM_METRIC_AVAILABILITY_AVAILABLE, 1⟩,
        ⟨2, sampleEnums.PM_METRIC_AVAILABILITY_AVAILABLE,
          if (26 : Int) = sampleEnums.PM_METRIC_GPU_FAN_SPEED then 2 else 1⟩] ∧
      m.deviceMetricInfo_.buffer_.map (fun info => info.deviceId_) =
        (((PopulateDevices sampleEnums IntrospectionRoot.empty).devices_.buffer_.drop
          IntrospectionRoot.empty.devices_.buffer_.length).filter
            (fun d => d.type_ ≠ sampleEnums.PM_DEVICE_TYPE_INDEPENDENT)).map (fun d => d.id_) :=
  PopulateMetrics_per_device sampleEnums sampleMetricList IntrospectionRoot.empty
    IntrospectionRoot.empty 2 ⟨26, 1, 4, 1, 0, 1, [1]⟩ (by decide) (by decide) (by decide)

/-! ## Rebound allocators share the counter -/

/-- C19: a `ProbeAllocator` or `BlockAllocator` made by the converting constructor from a
void allocator holds the same counter reference (and, for `BlockAllocator`, the same buffer
pointer) as the original.  An allocation through such a copy therefore advances, by the
step of `allocate`, the value that `GetTotalSize` of the original and of every copy
returns, and the next allocation through any copy of a `BlockAllocator` starts from the
advanced offset in the same buffer; the step is the one of the state-passing
`Allocator.allocate`.  An allocator constructed on its own has a counter of its own:
allocating through it leaves the count of the existing allocators as it was. -/
theorem rebind_shares_counter (c : Counters) (v : ProbeAllocator) (b : BlockAllocator)
    (T : TypeLayout) (count : Nat) (hv : v.pTotalSize < c.next) (hb : b.pTotalSize < c.next) :
    (v.rebind.pTotalSize = v.pTotalSize ∧
      v.GetTotalSize (v.rebind.allocate T count c).2 =
        (v.GetTotalSize c +
          (T.size * count % 2 ^ 64 + GetPadding T.align (v.GetTotalSize c)) % 2 ^ 64) % 2 ^ 64 ∧
      v.rebind.GetTotalSize (v.rebind.allocate T count c).2 =
        v.GetTotalSize (v.rebind.allocate T count c).2 ∧
      ∀ h : Heap, h.totalSize = v.GetTotalSize c →
        (Allocator.ProbeAllocator.allocate T count h).1 = (v.rebind.allocate T count c).1 ∧
          (Allocator.ProbeAllocator.allocate T count h).2.GetTotalSize =
            v.GetTotalSize (v.rebind.allocate T count c).2) ∧
    (b.rebind.pTotalSize = b.pTotalSize ∧ b.rebind.pBytes = b.pBytes ∧
      (b.rebind.allocate T count c).2.value b.pTotalSize =
        ((c.value b.pTotalSize + GetPadding T.align (c.value b.pTotalSize)) % 2 ^ 64 +
          T.size * count % 2 ^ 64) % 2 ^ 64 ∧
      (∀ (T2 : TypeLayout) (count2 : Nat),
        (b.rebind.allocate T2 count2 (b.rebind.allocate T count c).2).1 =
          (b.pBytes + ((b.rebind.allocate T count c).2.value b.pTotalSize +
            GetPadding T2.align ((b.rebind.allocate T count c).2.value b.pTotalSize)) %
              2 ^ 64) % 2 ^ 64) ∧
      ∀ h : Heap, h.totalSize = c.value b.pTotalSize →
        ((Allocator.BlockAllocator b.pBytes).allocate T count h).1 =
            (b.rebind.allocate T count c).1 ∧
          ((Allocator.BlockAllocator b.pBytes).allocate T count h).2.totalSize =
            (b.rebind.allocate T count c).2.value b.pTotalSize) ∧
    (ProbeAllocator.default c).1.pTotalSize ≠ v.pTotalSize ∧
    v.GetTotalSize
        ((ProbeAllocator.default c).1.rebind.allocate T count (ProbeAllocator.default c).2).2 =
      v.GetTotalSize c ∧
    ∀ mallocResult : Nat,
      (BlockAllocator.ofSize mallocResult c).1.pTotalSize ≠ b.pTotalSize ∧
        ((BlockAllocator.ofSize mallocResult c).1.rebind.allocate T count
          (BlockAllocator.ofSize mallocResult c).2).2.value b.pTotalSize =
            c.value b.pTotalSize := by
  refine ⟨⟨rfl, ?_, rfl, ?_⟩, ⟨rfl, rfl, ?_, ?_, ?_⟩, ?_, ?_, ?_⟩
  · simp [ProbeAllocator.GetTotalSize, ProbeAllocator.allocate, ProbeAllocator.rebind]
  · intro h hh
    simp [ProbeAllocator.GetTotalSize, ProbeAllocator.allocate, ProbeAllocator.rebind,
      Allocator.allocate, Heap.GetTotalSize, hh]
  · simp [BlockAllocator.allocate, BlockAllocator.rebind]
  · intro T2 count2
    simp [BlockAllocator.allocate, BlockAllocator.rebind]
  · intro h hh
    simp [BlockAllocator.allocate, BlockAllocator.rebind, Allocator.allocate, hh]
  · simp only [ProbeAllocator.default, Counters.make_shared]
    omega
  · have hne : v.pTotalSize ≠ c.next := Nat.ne_of_lt hv
    simp [ProbeAllocator.GetTotalSize, ProbeAllocator.allocate, ProbeAllocator.rebind,
      ProbeAllocator.default, Counters.make_shared, Function.update_noteq hne]
  · intro mallocResult
    have hne : b.pTotalSize ≠ c.next := Nat.ne_of_lt hb
    refine ⟨?_, ?_⟩
    · simp only [BlockAllocator.ofSize, Counters.make_shared]
      omega
    · simp [BlockAllocator.allocate, BlockAllocator.rebind, BlockAllocator.ofSize,
        Counters.make_shared, Function.update_noteq hne]

theorem rebind_shares_counter_witness :
    sampleProbe.pTotalSize < sampleCounters.next ∧
      sampleBlock.pTotalSize < sampleCounters.next ∧
      sampleProbe.GetTotalSize
        (sampleProbe.rebind.allocate x64Layout.PM_INTROSPECTION_ROOT 1
          (sampleProbe.rebind.allocate charLayout 3 sampleCounters).2).2 = 32 ∧
      (sampleBlock.rebind.allocate x64Layout.PM_INTROSPECTION_ROOT 1
        (sampleBlock.rebind.allocate charLayout 3 sampleCounters).2).1 = 4096 + 8 :=
  ⟨by decide, by decide,
    (rebind_shares_counter (sampleProbe.rebind.allocate charLayout 3 sampleCounters).2
      sampleProbe sampleBlock x64Layout.PM_INTROSPECTION_ROOT 1 (by decide)
      (by decide)).1.2.1.trans (by decide),
    ((rebind_shares_counter sampleCounters sampleProbe sampleBlock charLayout 3 (by decide)
      (by decide)).2.1.2.2.2.1 x64Layout.PM_INTROSPECTION_ROOT 1).trans (by decide)⟩

end ipc.intro


namespace ipc.intro

/-! ## One step of the sizing allocator -/

theorem wrap_step (c p x : Nat) :
    (c + (x % 2 ^ 64 + p) % 2 ^ 64) % 2 ^ 64 = (c + p + x) % 2 ^ 64 := by
  omega

/-- C21: for every counter value and every request of `count` elements of a type `T`,
`ProbeAllocator<T>::allocate(count)` returns null and sets the counter to the old value plus
`GetPadding<T>` of the old value plus `sizeof(T) * count`, in `size_t` arithmetic (modulo
`2 ^ 64`), which is that sum itself when it fits in a `size_t`; `allocate(0)` adds the
padding only.  The allocator object with its `shared_ptr` counter takes the same step. -/
theorem ProbeAllocator_allocate_step (T : TypeLayout) (count : Nat) (h : Heap)
    (v : ProbeAllocator) (c : Counters) :
    (Allocator.ProbeAllocator.allocate T count h).1 = 0 ∧
      (Allocator.ProbeAllocator.allocate T count h).2.GetTotalSize =
        (h.totalSize + GetPadding T.align h.totalSize + T.size * count) % 2 ^ 64 ∧
      (h.totalSize + GetPadding T.align h.totalSize + T.size * count < 2 ^ 64 →
        (Allocator.ProbeAllocator.allocate T count h).2.GetTotalSize =
          h.totalSize + GetPadding T.align h.totalSize + T.size * count) ∧
      (Allocator.ProbeAllocator.allocate T 0 h).2.GetTotalSize =
        (h.totalSize + GetPadding T.align h.totalSize) % 2 ^ 64 ∧
      (Allocator.ProbeAllocator.allocate T count h).2.mem = h.mem ∧
      (v.allocate T count c).1 = 0 ∧
      v.GetTotalSize (v.allocate T count c).2 =
        (v.GetTotalSize c + GetPadding T.align (v.GetTotalSize c) + T.size * count) % 2 ^ 64 := by
  have e : (Allocator.ProbeAllocator.allocate T count h).2.GetTotalSize =
      (h.totalSize + GetPadding T.align h.totalSize + T.size * count) % 2 ^ 64 := by
    simp only [Allocator.allocate, Heap.GetTotalSize]
    exact wrap_step _ _ _
  refine ⟨rfl, e, ?_, ?_, rfl, rfl, ?_⟩
  · intro hfit
    rw [e, Nat.mod_eq_of_lt hfit]
  · simp only [Allocator.allocate, Heap.GetTotalSize, Nat.mul_zero, Nat.zero_mod, Nat.zero_add]
    omega
  · simp only [ProbeAllocator.allocate, ProbeAllocator.GetTotalSize, Function.update_same]
    exact wrap_step _ _ _

theorem ProbeAllocator_allocate_step_witness :
    (Allocator.ProbeAllocator.allocate x64Layout.PM_INTROSPECTION_ROOT 2
        ⟨13, fun _ => none, []⟩).2.GetTotalSize = 13 + 3 + 24 * 2 ∧
      (Allocator.ProbeAllocator.allocate x64Layout.PM_INTROSPECTION_ROOT 0
        ⟨13, fun _ => none, []⟩).2.GetTotalSize = 13 + 3 :=
  ⟨((ProbeAllocator_allocate_step x64Layout.PM_INTROSPECTION_ROOT 2 ⟨13, fun _ => none, []⟩
      sampleProbe sampleCounters).2.2.1 (by decide)).trans (by decide),
    (ProbeAllocator_allocate_step x64Layout.PM_INTROSPECTION_ROOT 2 ⟨13, fun _ => none, []⟩
      sampleProbe sampleCounters).2.2.2.1.trans (by decide)⟩

/-! ## The devices and what the metrics refer to -/

theorem PopulateDevices_devices (E : ApiEnums) (root : IntrospectionRoot) :
    (PopulateDevices E root).devices_.buffer_ = root.devices_.buffer_ ++
      [⟨0, E.PM_DEVICE_TYPE_INDEPENDENT, E.PM_DEVICE_VENDOR_UNKNOWN,
          ⟨chars "Device-independent"⟩⟩,
        ⟨1, E.PM_DEVICE_TYPE_GRAPHICS_ADAPTER, E.PM_DEVICE_VENDOR_INTEL, ⟨chars "Arc 750"⟩⟩,
        ⟨2, E.PM_DEVICE_TYPE_GRAPHICS_ADAPTER, E.PM_DEVICE_VENDOR_NVIDIA,
          ⟨chars "GeForce RTX 2080 ti"⟩⟩] := by
  simp [PopulateDevices, IntrospectionRoot.AddDevice, IntrospectionObjArray.PushBack]

theorem PopulateDevices_rest (E : ApiEnums) (root : IntrospectionRoot) :
    (PopulateDevices E root).metrics_ = root.metrics_ ∧
      (PopulateDevices E root).enums_ = root.enums_ := ⟨rfl, rfl⟩

theorem PopulateMetrics_rest (E : ApiEnums) (METRIC_LIST : List MetricEntry)
    (root : IntrospectionRoot) :
    (PopulateMetrics E METRIC_LIST root).devices_ = root.devices_ ∧
      (PopulateMetrics E METRIC_LIST root).enums_ = root.enums_ := by
  induction METRIC_LIST generalizing root with
  | nil => exact ⟨rfl, rfl⟩
  | cons e es ih =>
    have := ih (X_REG_METRIC E root e)
    simp only [PopulateMetrics, List.foldl_cons] at this ⊢
    rw [this.1, this.2]
    exact ⟨rfl, rfl⟩

/-- C23: `PopulateDevices` appends exactly three devices to the root's device list, in this
order: id 0 of type `INDEPENDENT` with vendor `UNKNOWN`, id 1 of type `GRAPHICS_ADAPTER`
with vendor `INTEL`, id 2 of type `GRAPHICS_ADAPTER` with vendor `NVIDIA`; their ids are
pairwise distinct, and the metrics and enums of the root stay as they were. -/
theorem PopulateDevices_three (E : ApiEnums) (root : IntrospectionRoot) :
    (PopulateDevices E root).devices_.buffer_ = root.devices_.buffer_ ++
        [⟨0, E.PM_DEVICE_TYPE_INDEPENDENT, E.PM_DEVICE_VENDOR_UNKNOWN,
            ⟨chars "Device-independent"⟩⟩,
          ⟨1, E.PM_DEVICE_TYPE_GRAPHICS_ADAPTER, E.PM_DEVICE_VENDOR_INTEL, ⟨chars "Arc 750"⟩⟩,
          ⟨2, E.PM_DEVICE_TYPE_GRAPHICS_ADAPTER, E.PM_DEVICE_VENDOR_NVIDIA,
            ⟨chars "GeForce RTX 2080 ti"⟩⟩] ∧
      (((PopulateDevices E root).devices_.buffer_.drop root.devices_.buffer_.length).map
        (fun d => d.id_)) = [0, 1, 2] ∧
      (((PopulateDevices E root).devices_.buffer_.drop root.devices_.buffer_.length).map
        (fun d => d.id_)).Nodup ∧
      (PopulateDevices E root).metrics_ = root.metrics_ ∧
      (PopulateDevices E root).enums_ = root.enums_ := by
  have h := PopulateDevices_devices E root
  refine ⟨h, ?_, ?_, rfl, rfl⟩
  · rw [h]
    simp
  · rw [h]
    simp

/-- The per-device infos of a metric as `PopulateDeviceMetricInfo` leaves them, by device
id: the infos the metric had, then device 0 alone or devices 1 and 2. -/
theorem PopulateDeviceMetricInfo_ids (E : ApiEnums) (metric : IntrospectionMetric)
    (deviceType : Int) :
    (PopulateDeviceMetricInfo E metric deviceType).deviceMetricInfo_.buffer_.map
        (fun info => info.deviceId_) =
      metric.deviceMetricInfo_.buffer_.map (fun info => info.deviceId_) ++
        (if deviceType = E.PM_DEVICE_TYPE_INDEPENDENT then [0] else [1, 2]) := by
  simp only [PopulateDeviceMetricInfo]
  split
  · simp [IntrospectionMetric.AddDeviceMetricInfo, IntrospectionObjArray.PushBack]
  · split <;> simp [IntrospectionMetric.AddDeviceMetricInfo, IntrospectionObjArray.PushBack]

/-- The device ids in the infos of a metric that `PopulateMetrics` added. -/
theorem PopulateMetrics_ids (E : ApiEnums) (METRIC_LIST : List MetricEntry)
    (root : IntrospectionRoot) (m : IntrospectionMetric)
    (hm : m ∈ (PopulateMetrics E METRIC_LIST root).metrics_.buffer_.drop
      root.metrics_.buffer_.length) :
    m.deviceMetricInfo_.buffer_.map (fun info => info.deviceId_) = [0] ∨
      m.deviceMetricInfo_.buffer_.map (fun info => info.deviceId_) = [1, 2] := by
  rw [PopulateMetrics_metrics, List.drop_left] at hm
  simp only [List.mem_map] at hm
  obtain ⟨e, _, rfl⟩ := hm
  rw [PopulateDeviceMetricInfo_ids, IntrospectionMetric.ctor_eq]
  split
  · exact Or.inl rfl
  · exact Or.inr rfl

/-- C28: after `PopulateDevices` and `PopulateMetrics`, in either order, every device id
in the per-device infos of a metric that `PopulateMetrics` added is the id of a device in
the root's device list, and no device id occurs twice in the infos of one such metric. -/
theorem populated_device_ids_resolve (E : ApiEnums) (METRIC_LIST : List MetricEntry)
    (root : IntrospectionRoot) :
    (∀ m ∈ (PopulateMetrics E METRIC_LIST (PopulateDevices E root)).metrics_.buffer_.drop
          root.metrics_.buffer_.length,
        (∀ info ∈ m.deviceMetricInfo_.buffer_,
          ∃ d ∈ (PopulateMetrics E METRIC_LIST (PopulateDevices E root)).devices_.buffer_,
            d.id_ = info.deviceId_) ∧
        (m.deviceMetricInfo_.buffer_.map (fun info => info.deviceId_)).Nodup) ∧
      ∀ m ∈ (PopulateDevices E (PopulateMetrics E METRIC_LIST root)).metrics_.buffer_.drop
          root.metrics_.buffer_.length,
        (∀ info ∈ m.deviceMetricInfo_.buffer_,
          ∃ d ∈ (PopulateDevices E (PopulateMetrics E METRIC_LIST root)).devices_.buffer_,
            d.id_ = info.deviceId_) ∧
        (m.deviceMetricInfo_.buffer_.map (fun info => info.deviceId_)).Nodup := by
  have key : ∀ (devs : List IntrospectionDevice) (m : IntrospectionMetric),
      ((∃ d ∈ devs, d.id_ = 0) ∧ (∃ d ∈ devs, d.id_ = 1) ∧ ∃ d ∈ devs, d.id_ = 2) →
      (m.deviceMetricInfo_.buffer_.map (fun info => info.deviceId_) = [0] ∨
        m.deviceMetricInfo_.buffer_.map (fun info => info.deviceId_) = [1, 2]) →
      (∀ info ∈ m.deviceMetricInfo_.buffer_, ∃ d ∈ devs, d.id_ = info.deviceId_) ∧
        (m.deviceMetricInfo_.buffer_.map (fun info => info.deviceId_)).Nodup := by
    intro devs m ⟨h0, h1, h2⟩ hm
    refine ⟨?_, ?_⟩
    · intro info hi
      have hmem : info.deviceId_ ∈
          m.deviceMetricInfo_.buffer_.map (fun info => info.deviceId_) :=
        List.mem_map_of_mem _ hi
      rcases hm with hm | hm
      · rw [hm] at hmem
        simp only [List.mem_singleton] at hmem
        rw [hmem]; exact h0
      · rw [hm] at hmem
        simp only [List.mem_cons, List.mem_singleton, List.not_mem_nil, or_false] at hmem
        rcases hmem with e | e
        · rw [e]; exact h1
        · rw [e]; exact h2
    · rcases hm with hm | hm <;> rw [hm] <;> decide
  have devs3 : ∀ r : IntrospectionRoot,
      (∃ d ∈ (PopulateDevices E r).devices_.buffer_, d.id_ = 0) ∧
        (∃ d ∈ (PopulateDevices E r).devices_.buffer_, d.id_ = 1) ∧
        ∃ d ∈ (PopulateDevices E r).devices_.buffer_, d.id_ = 2 := by
    intro r
    rw [PopulateDevices_devices]
    exact ⟨⟨⟨0, E.PM_DEVICE_TYPE_INDEPENDENT, E.PM_DEVICE_VENDOR_UNKNOWN,
      ⟨chars "Device-independent"⟩⟩, by simp, rfl⟩, ⟨⟨1, E.PM_DEVICE_TYPE_GRAPHICS_ADAPTER,
      E.PM_DEVICE_VENDOR_INTEL, ⟨chars "Arc 750"⟩⟩, by simp, rfl⟩,
      ⟨⟨2, E.PM_DEVICE_TYPE_GRAPHICS_ADAPTER, E.PM_DEVICE_VENDOR_NVIDIA,
        ⟨chars "GeForce RTX 2080 ti"⟩⟩, by simp, rfl⟩⟩
  refine ⟨?_, ?_⟩
  · intro m hm
    rw [(PopulateMetrics_rest E METRIC_LIST (PopulateDevices E root)).1]
    exact key _ m (devs3 root) (PopulateMetrics_ids E METRIC_LIST (PopulateDevices E root) m hm)
  · intro m hm
    exact key _ m (devs3 _) (PopulateMetrics_ids E METRIC_LIST root m hm)

/-! ## The clone of one string -/

theorem Mem.storeChars_at (m : Mem) (a : Nat) (bs : List Nat) (i c : Nat)
    (hc : bs[i]? = some c) : m.storeChars a bs (a + i) = some (Cell.char c, 0) := by
  induction bs generalizing m a i with
  | nil => simp at hc
  | cons b bs ih =>
    cases i with
    | zero =>
      simp only [List.getElem?_cons_zero, Option.some.injEq] at hc
      subst hc
      exact Mem.storeChars_cons_at m a b bs
    | succ i =>
      simp only [List.getElem?_cons_succ] at hc
      have := ih (m.store a 1 (Cell.char b)) (a + 1) i hc
      simp only [Mem.storeChars]
      rw [show a + (i + 1) = a + 1 + i by omega]
      exact this

theorem IntrospectionString.ApiClone_requests (L : ApiLayout) (V : Allocator)
    (self : IntrospectionString) (h : Heap) :
    (self.ApiClone L V h).2.calls.map AllocCall.request =
      h.calls.map AllocCall.request ++
        [(L.PM_INTROSPECTION_STRING.size, L.PM_INTROSPECTION_STRING.align, 1),
          (1, 1, self.buffer_.length + 1)] := by
  have e0 : h.SameControl (V.replay [] h) := Heap.SameControl.same_refl h
  have e := (self.ApiClone_follows_string L V e0).2
  rw [e, replay_calls_request]
  rfl

/-- C22, the claim as stated fails: the clone of the string `"G\0U"` (length 3) gets 4
chars at address 4104, but `strcpy_s` copies up to the zero character only: the buffer holds
`'G'`, then a zero, and its third and fourth byte are never written. -/
theorem IntrospectionString.clone_stops_at_nul :
    (nulString.ApiClone x64Layout (.BlockAllocator 4096)
        (Heap.fresh (fun _ => none))).2.calls =
      [⟨8, 8, 1, 4096⟩, ⟨1, 1, 4, 4104⟩] ∧
    (nulString.ApiClone x64Layout (.BlockAllocator 4096) (Heap.fresh (fun _ => none))).2.mem.load
        4096 8 = some (Cell.PM_INTROSPECTION_STRING 4104) ∧
    (nulString.ApiClone x64Layout (.BlockAllocator 4096) (Heap.fresh (fun _ => none))).2.mem
        4104 = some (Cell.char 71, 0) ∧
    (nulString.ApiClone x64Layout (.BlockAllocator 4096) (Heap.fresh (fun _ => none))).2.mem
        4105 = some (Cell.char 0, 0) ∧
    (nulString.ApiClone x64Layout (.BlockAllocator 4096) (Heap.fresh (fun _ => none))).2.mem
        4106 ≠ some (Cell.char 85, 0) ∧
    (nulString.ApiClone x64Layout (.BlockAllocator 4096) (Heap.fresh (fun _ => none))).2.mem
        4107 ≠ some (Cell.char 0, 0) := by
  decide

/-- C22, amended: for every string `s` of length `n`, `IntrospectionString::ApiClone`
requests one `PM_INTROSPECTION_STRING` and then `n + 1` chars, with either allocator.  In a
placement pass over a buffer at a non-null address `pBytes` in which the two requests fit,
the structure at the returned pointer holds a `pData` that lies, with its `n + 1` chars,
inside the bytes of the buffer taken by this clone and behind the structure; from `pData`
on the buffer holds the characters of `s` before its first zero character, followed by a
zero byte; for an `s` without zero character these are the `n` bytes of `s` followed by the
zero byte. -/
theorem IntrospectionString.ApiClone_copies_string (L : ApiLayout) (pBytes : Nat)
    (self : IntrospectionString) (h : Heap) (hp : 0 < pBytes)
    (hfit : pBytes + exactEnd (self.requests L) h.totalSize < 2 ^ 64) :
    (∀ V : Allocator, (self.ApiClone L V h).2.calls.map AllocCall.request =
      h.calls.map AllocCall.request ++
        [(L.PM_INTROSPECTION_STRING.size, L.PM_INTROSPECTION_STRING.align, 1),
          (1, 1, self.buffer_.length + 1)]) ∧
    ∃ pData,
      (∀ k, k < L.PM_INTROSPECTION_STRING.size →
        (self.ApiClone L (.BlockAllocator pBytes) h).2.mem
          ((self.ApiClone L (.BlockAllocator pBytes) h).1 + k) =
            some (Cell.PM_INTROSPECTION_STRING pData, k)) ∧
      (self.ApiClone L (.BlockAllocator pBytes) h).1 + L.PM_INTROSPECTION_STRING.size ≤ pData ∧
      pBytes + h.totalSize ≤ (self.ApiClone L (.BlockAllocator pBytes) h).1 ∧
      pData + (self.buffer_.length + 1) ≤ pBytes + exactEnd (self.requests L) h.totalSize ∧
      (∀ i c, (self.buffer_.takeWhile (fun c => c != 0))[i]? = some c →
        (self.ApiClone L (.BlockAllocator pBytes) h).2.mem (pData + i) =
          some (Cell.char c, 0)) ∧
      (self.ApiClone L (.BlockAllocator pBytes) h).2.mem
          (pData + (self.buffer_.takeWhile (fun c => c != 0)).length) =
        some (Cell.char 0, 0) ∧
      (self.NulFree → self.buffer_.takeWhile (fun c => c != 0) = self.buffer_) := by
  refine ⟨fun V => self.ApiClone_requests L V h, ?_⟩
  simp only [IntrospectionString.requests, exactEnd] at hfit ⊢
  have hs : charLayout.size * (self.buffer_.length + 1) = self.buffer_.length + 1 := by
    simp [charLayout]
  obtain ⟨qa, ha, ea, hqa, hta, hma⟩ :=
    allocate_block_spec pBytes L.PM_INTROSPECTION_STRING 1 h (by omega)
  obtain ⟨qd, hd, ed, hqd, htd, hmd⟩ :=
    allocate_block_spec pBytes charLayout (self.buffer_.length + 1) ha (by rw [hta]; omega)
  rw [hta] at hqd htd
  have hA : qa ≠ 0 := by omega
  have hD : qd ≠ 0 := by omega
  have hlen : (self.buffer_.takeWhile (fun c => c != 0)).length ≤ self.buffer_.length :=
    (List.takeWhile_sublist _).length_le
  simp only [IntrospectionString.ApiClone, ea, ed, if_pos hA, if_pos hD, Heap.construct_mem,
    Heap.strcpy_s]
  refine ⟨qd, ?_, by omega, by omega, by omega, ?_, ?_, takeWhile_nulFree _⟩
  · intro k hk
    rw [Mem.store_inside _ _ _ _ _ (by omega)]
    simp
  · intro i c hc
    have hi : i < (self.buffer_.takeWhile (fun c => c != 0)).length := by
      by_contra hge
      rw [List.getElem?_eq_none (by omega)] at hc
      exact absurd hc (by simp)
    rw [Mem.store_outside _ _ _ _ _ (Or.inr (by omega))]
    exact Mem.storeChars_at _ _ _ _ _ (by rw [List.getElem?_append_left hi]; exact hc)
  · rw [Mem.store_outside _ _ _ _ _ (Or.inr (by omega))]
    exact Mem.storeChars_at _ _ _ _ _ (by simp)

theorem IntrospectionString.ApiClone_copies_string_witness :
    0 < 4096 ∧ 4096 + exactEnd (sampleString.requests x64Layout)
        (Heap.fresh (fun _ => none)).totalSize < 2 ^ 64 ∧
      ∀ V : Allocator, (sampleString.ApiClone x64Layout V
          (Heap.fresh (fun _ => none))).2.calls.map AllocCall.request =
        (Heap.fresh (fun _ => none)).calls.map AllocCall.request ++
          [(x64Layout.PM_INTROSPECTION_STRING.size, x64Layout.PM_INTROSPECTION_STRING.align, 1),
            (1, 1, sampleString.buffer_.length + 1)] :=
  ⟨by decide, by decide,
    (IntrospectionString.ApiClone_copies_string x64Layout 4096 sampleString
      (Heap.fresh (fun _ => none)) (by decide) (by decide)).1⟩

end ipc.intro

namespace ipc.experimental

/-! ## Branches and their leaves -/

theorem ShmAllocator.allocate_fields (a : ShmAllocator) (elemSize count : Nat)
    (s s1 : Shm) (ptr : Nat) (h : a.allocate elemSize count s = some (ptr, s1)) :
    ptr = s.next ∧ s1.next = s.next + elemSize * count ∧ s1.strings = s.strings ∧
      s1.vectors = s.vectors := by
  simp only [ShmAllocator.allocate] at h
  split at h
  · simp only [Option.some.injEq, Prod.mk.injEq] at h
    obtain ⟨h1, h2⟩ := h
    subst h1 h2
    exact ⟨rfl, rfl, rfl, rfl⟩
  · exact absurd h (by simp)

/-- What a successful `MakeUnique<Leaf2>` leaves: the handle points to the address handed
out first and carries the rebound allocator, the leaf's string (with the text for `x`) is
the newest string object, and the next free address has moved on. -/
theorem MakeUnique_Leaf2_ok (szL : Nat) (a : ShmAllocator) (x : Int) (s s1 : Shm) (u : UptrT)
    (h : MakeUnique (Leaf2 szL) a x s = Except.ok (u, s1)) :
    u.ptr = s.next ∧ u.deleter.allocator = a.rebind ∧
      (∃ p, s1.strings = (s.next, ⟨a.rebind, p, leafText x⟩) :: s.strings) ∧
      s1.vectors = s.vectors ∧ s.next < s1.next := by
  simp only [MakeUnique] at h
  split at h
  · exact absurd h (by simp)
  · rename_i ptr s0 ha
    obtain ⟨hp, hn, hs, hv⟩ := ShmAllocator.allocate_fields _ _ _ _ _ _ ha
    split at h
    · exact absurd h (by simp)
    · rename_i s2 hc
      simp only [Except.ok.injEq, Prod.mk.injEq] at h
      obtain ⟨hu, hs2⟩ := h
      subst hu hs2
      simp only [construct, Leaf2] at hc
      split at hc
      · exact absurd hc (by simp)
      · rename_i p s3 hd
        obtain ⟨_, hn3, hs3, hv3⟩ := ShmAllocator.allocate_fields _ _ _ _ _ _ hd
        simp only [Except.ok.injEq] at hc
        subst hc
        refine ⟨hp, rfl, ⟨p, ?_⟩, ?_, ?_⟩
        · simp only [hs3, hs, hp]
          rfl
        · simp only [hv3, hv]
        · simp only [hn3, hn]
          omega

theorem lookup_cons_of_lt {β : Type} (key k : Nat) (b : β) (es : List (Nat × β))
    (h : key < k) : List.lookup key ((k, b) :: es) = List.lookup key es := by
  have hne : (key == k) = false := by
    simp only [beq_eq_false_iff_ne, ne_eq]
    omega
  simp only [List.lookup, hne]

theorem lookup_cons_self {β : Type} (k : Nat) (b : β) (es : List (Nat × β)) :
    List.lookup k ((k, b) :: es) = some b := by
  simp only [List.lookup, beq_self_eq_true]

/-- What a successful run of the push loop leaves. -/
theorem Branch2.pushLeaves_ok (szL : Nat) (a : ShmAllocator) (k i : Nat) (acc : List UptrT)
    (s s1 : Shm) (ls : List UptrT)
    (h : Branch2.pushLeaves szL a k i acc s = Except.ok (ls, s1)) :
    s.next ≤ s1.next ∧ s1.vectors = s.vectors ∧
      (∀ key, key < s.next → s1.strings.lookup key = s.strings.lookup key) ∧
      ∃ new, ls = acc ++ new ∧
        (∀ u ∈ new, s.next ≤ u.ptr ∧ u.ptr < s1.next ∧ u.deleter.allocator = a.rebind ∧
          ∃ str, s1.strings.lookup u.ptr = some str ∧ str.allocator = a.rebind) ∧
        new.map (fun u => (s1.strings.lookup u.ptr).map (fun str => str.text)) =
          (List.range' i k).map (fun j => some (leafText (Int.ofNat j))) := by
  induction k generalizing i acc s with
  | zero =>
    simp only [Branch2.pushLeaves, Except.ok.injEq, Prod.mk.injEq] at h
    obtain ⟨h1, h2⟩ := h
    subst h1 h2
    exact ⟨Nat.le_refl _, rfl, fun _ _ => rfl, [], by simp, by simp, by simp⟩
  | succ k ih =>
    simp only [Branch2.pushLeaves] at h
    split at h
    · exact absurd h (by simp)
    · rename_i u s0 hmu
      obtain ⟨hp, hda, ⟨p, hstr⟩, hv, hn⟩ := MakeUnique_Leaf2_ok szL a _ s s0 u hmu
      obtain ⟨i1, i2, i3, new, i4, i5, i6⟩ := ih (i + 1) (acc ++ [u]) s0 h
      have hu : s1.strings.lookup u.ptr = some ⟨a.rebind, p, leafText (Int.ofNat i)⟩ := by
        rw [hp, i3 s.next hn, hstr]
        exact lookup_cons_self _ _ _
      refine ⟨by omega, by rw [i2, hv], ?_, u :: new, by simp [i4], ?_, ?_⟩
      · intro key hk
        rw [i3 key (by omega), hstr]
        exact lookup_cons_of_lt _ _ _ _ hk
      · intro x hx
        simp only [List.mem_cons] at hx
        rcases hx with hx | hx
        · subst hx
          exact ⟨by omega, by omega, hda, _, hu, rfl⟩
        · obtain ⟨j1, j2, j3, j4⟩ := i5 x hx
          exact ⟨by omega, j2, j3, j4⟩
      · simp only [List.map_cons, List.range'_succ, hu, Option.map_some', i6]

/-- The loop of `Branch2::GetString` over handles whose leaves hold the given texts. -/
theorem Branch2.appendLeaves_eq (elems : List UptrT) (s : Shm) (str : List Nat)
    (texts : List (List Nat))
    (h : elems.map (fun u => (s.strings.lookup u.ptr).map (fun x => x.text)) =
      texts.map some) :
    Branch2.appendLeaves elems str s = some (str ++ (texts.map (fun t =>
      t.takeWhile (fun c => c != 0) ++ ipc.intro.chars "|")).flatten) := by
  induction elems generalizing texts str with
  | nil =>
    cases texts with
    | nil => simp [Branch2.appendLeaves]
    | cons t ts => simp at h
  | cons u us ih =>
    cases texts with
    | nil => simp at h
    | cons t ts =>
      simp only [List.map_cons, List.cons.injEq] at h
      obtain ⟨h1, h2⟩ := h
      cases hl : s.strings.lookup u.ptr with
      | none => simp [hl] at h1
      | some x =>
        simp only [hl, Option.map_some', Option.some.injEq] at h1
        simp only [Branch2.appendLeaves, Leaf2.GetString, hl, h1, ih _ _ h2, List.map_cons,
          List.flatten_cons, List.append_assoc]

/-- What a successful constructor of `Branch2` leaves. -/
theorem Branch2_ctor_ok (szB szL szU : Nat) (a : ShmAllocator) (n : Nat) (ptr : Nat)
    (s s1 : Shm) (h : (Branch2 szB szL szU).ctor (Int.ofNat n) a ptr s = Except.ok s1) :
    s.next ≤ s1.next ∧
      (∀ key, key < s.next → s1.strings.lookup key = s.strings.lookup key) ∧
      ∃ v, s1.vectors = (ptr, v) :: s.vectors ∧ v.allocator = a.rebind ∧ v.capacity = n ∧
        v.elems.length = n ∧
        (∀ u ∈ v.elems, u.ptr < s1.next ∧ u.deleter.allocator = a.rebind ∧
          ∃ str, s1.strings.lookup u.ptr = some str ∧ str.allocator = a.rebind) ∧
        v.elems.map (fun u => (s1.strings.lookup u.ptr).map (fun str => str.text)) =
          (List.range n).map (fun j => some (leafText (Int.ofNat j))) := by
  simp only [Branch2] at h
  have hn : ¬ (Int.ofNat n < 0) := by
    simp only [Int.ofNat_eq_coe]
    omega
  rw [if_neg hn] at h
  have ht : (Int.ofNat n).toNat = n := rfl
  simp only [ht] at h
  split at h
  · exact absurd h (by simp)
  · rename_i v s0 hr
    have hres : s.next ≤ s0.next ∧ s0.strings = s.strings ∧ s0.vectors = s.vectors ∧
        v.allocator = a.rebind ∧ v.capacity = n := by
      simp only [AllocVector.reserve] at hr
      split at hr
      · rename_i h0
        simp only [Option.some.injEq, Prod.mk.injEq] at hr
        obtain ⟨h1, h2⟩ := hr
        subst h1 h2
        exact ⟨Nat.le_refl _, rfl, rfl, rfl, h0.symm⟩
      · split at hr
        · exact absurd hr (by simp)
        · rename_i p s2 ha
          obtain ⟨_, j2, j3, j4⟩ := ShmAllocator.allocate_fields _ _ _ _ _ _ ha
          simp only [Option.some.injEq, Prod.mk.injEq] at hr
          obtain ⟨h1, h2⟩ := hr
          subst h1 h2
          exact ⟨by omega, j3, j4, rfl, rfl⟩
    obtain ⟨r1, r2, r3, r4, r5⟩ := hres
    split at h
    · exact absurd h (by simp)
    · rename_i ls s2 hp
      simp only [Except.ok.injEq] at h
      subst h
      obtain ⟨i1, i2, i3, new, i4, i5, i6⟩ := Branch2.pushLeaves_ok szL a n 0 [] s0 s2 ls hp
      simp only [List.nil_append] at i4
      subst i4
      refine ⟨by simp only; omega, ?_, { v with elems := ls }, by simp only [i2, r3], r4, r5,
        ?_, ?_, ?_⟩
      · intro key hk
        simp only
        rw [i3 key (by omega), r2]
      · have := congrArg List.length i6
        simpa using this
      · intro u hu
        obtain ⟨_, j2, j3, j4⟩ := i5 u hu
        exact ⟨j2, j3, j4⟩
      · simp only [List.range_eq_range']
        exact i6

/-- What a successful `MakeUnique<Branch2>` leaves. -/
theorem MakeUnique_Branch2_ok (szB szL szU : Nat) (a : ShmAllocator) (n : Nat)
    (s s1 : Shm) (b : UptrT)
    (h : MakeUnique (Branch2 szB szL szU) a (Int.ofNat n) s = Except.ok (b, s1)) :
    b.ptr = s.next ∧ b.deleter.allocator = a.rebind ∧ s.next + szB ≤ s1.next ∧
      (∀ key, key < s.next → s1.strings.lookup key = s.strings.lookup key) ∧
      ∃ v, s1.vectors = (b.ptr, v) :: s.vectors ∧ v.elems.length = n ∧
        (∀ u ∈ v.elems, u.ptr < s1.next ∧ u.deleter.allocator = a.rebind ∧
          ∃ str, s1.strings.lookup u.ptr = some str ∧ str.allocator = a.rebind) ∧
        v.elems.map (fun u => (s1.strings.lookup u.ptr).map (fun str => str.text)) =
          (List.range n).map (fun j => some (leafText (Int.ofNat j))) := by
  simp only [MakeUnique] at h
  split at h
  · exact absurd h (by simp)
  · rename_i ptr s0 ha
    obtain ⟨hp, hn, hs, hv⟩ := ShmAllocator.allocate_fields _ _ _ _ _ _ ha
    split at h
    · exact absurd h (by simp)
    · rename_i s2 hc
      simp only [Except.ok.injEq, Prod.mk.injEq] at h
      obtain ⟨hu, hs2⟩ := h
      subst hu hs2
      simp only [construct] at hc
      obtain ⟨c1, c2, v, c3, _, _, c4, c5, c6⟩ := Branch2_ctor_ok szB szL szU _ n ptr _ s2 hc
      simp only at c1 c2 c3
      have hsz : (Branch2 szB szL szU).size = szB := rfl
      rw [hsz] at hn
      refine ⟨hp, rfl, by omega, ?_, v, by rw [c3, hv], c4, c5, c6⟩
      intro key hk
      rw [c2 key (by omega), hs]

/-! ## Construction succeeds while the segment has room -/

theorem ShmAllocator.allocate_succeeds (a : ShmAllocator) (elemSize count : Nat) (s : Shm)
    (h : elemSize * count ≤ s.free a.mngr) :
    ∃ s1, a.allocate elemSize count s = some (s.next, s1) ∧
      s1.free a.mngr = s.free a.mngr - elemSize * count := by
  simp only [ShmAllocator.allocate, if_pos h]
  exact ⟨_, rfl, by simp⟩

theorem MakeUnique_Leaf2_succeeds (szL : Nat) (a : ShmAllocator) (x : Int) (s : Shm)
    (h : leafBytes szL x ≤ s.free a.mngr) :
    ∃ u s1, MakeUnique (Leaf2 szL) a x s = Except.ok (u, s1) ∧
      s1.free a.mngr = s.free a.mngr - leafBytes szL x := by
  simp only [leafBytes] at h ⊢
  obtain ⟨s0, h0, f0⟩ := ShmAllocator.allocate_succeeds a.rebind szL 1 s
    (by simp only [ShmAllocator.rebind]; omega)
  have hm : a.rebind.rebind.rebind.mngr = a.mngr := rfl
  obtain ⟨s2, h2, f2⟩ := ShmAllocator.allocate_succeeds a.rebind.rebind.rebind 1
    ((leafText x).length + 1) { s0 with events := s0.events ++ [Event.construct s.next] }
    (by
      simp only [hm]
      have e : a.rebind.mngr = a.mngr := rfl
      rw [e] at f0
      rw [f0]
      omega)
  have hsz : (Leaf2 szL).size = szL := rfl
  refine ⟨⟨s.next, ⟨a.rebind⟩⟩, { s2 with strings :=
    (s.next, ⟨a.rebind.rebind.rebind, s0.next, leafText x⟩) :: s2.strings }, ?_, ?_⟩
  · simp only [MakeUnique, hsz, h0, construct, Leaf2]
    have h2' : a.rebind.rebind.rebind.allocate 1
        ((ipc.intro.chars ("very-long-string-forcing-text-allocate-block-" ++ toString x)).length
          + 1) { s0 with events := s0.events ++ [Event.construct s.next] } =
        some ({ s0 with events := s0.events ++ [Event.construct s.next] }.next, s2) := h2
    simp only [h2']
    rfl
  · have e : a.rebind.mngr = a.mngr := rfl
    simp only [hm, e] at f0 f2 ⊢
    show s2.free a.mngr = _
    rw [f2, f0]
    omega

theorem Branch2.pushLeaves_succeeds (szL : Nat) (a : ShmAllocator) (k i : Nat)
    (acc : List UptrT) (s : Shm) (h : leavesBytes szL i k ≤ s.free a.mngr) :
    ∃ ls s1, Branch2.pushLeaves szL a k i acc s = Except.ok (ls, s1) ∧
      s1.free a.mngr = s.free a.mngr - leavesBytes szL i k := by
  induction k generalizing i acc s with
  | zero => exact ⟨_, _, rfl, by simp [leavesBytes]⟩
  | succ k ih =>
    simp only [leavesBytes, List.range'_succ, List.map_cons, List.sum_cons] at h ⊢
    obtain ⟨u, s0, h0, f0⟩ := MakeUnique_Leaf2_succeeds szL a (Int.ofNat i) s (by omega)
    obtain ⟨ls, s1, h1, f1⟩ := ih (i + 1) (acc ++ [u]) s0 (by
      simp only [leavesBytes]
      rw [f0]
      omega)
    refine ⟨ls, s1, by simp only [Branch2.pushLeaves, h0, h1], ?_⟩
    simp only [leavesBytes] at f1
    rw [f1, f0]
    omega

theorem Branch2_ctor_succeeds (szB szL szU : Nat) (a : ShmAllocator) (n ptr : Nat) (s : Shm)
    (h : szU * n + leavesBytes szL 0 n ≤ s.free a.mngr) :
    ∃ s1, (Branch2 szB szL szU).ctor (Int.ofNat n) a ptr s = Except.ok s1 ∧
      s1.free a.mngr = s.free a.mngr - (szU * n + leavesBytes szL 0 n) := by
  have hn : ¬ (Int.ofNat n < 0) := by
    simp only [Int.ofNat_eq_coe]
    omega
  have ht : (Int.ofNat n).toNat = n := rfl
  have hres : ∃ v s0, AllocVector.reserve szU a.rebind n s = some (v, s0) ∧
      s0.free a.mngr = s.free a.mngr - szU * n := by
    by_cases h0 : n = 0
    · exact ⟨⟨a.rebind, 0, 0, []⟩, s, by simp only [AllocVector.reserve, if_pos h0],
        by simp [h0]⟩
    · obtain ⟨s0, e0, f0⟩ := ShmAllocator.allocate_succeeds a.rebind szU n s
        (by simp only [ShmAllocator.rebind]; omega)
      exact ⟨⟨a.rebind, s.next, n, []⟩, s0,
        by simp only [AllocVector.reserve, if_neg h0, e0], f0⟩
  obtain ⟨v, s0, hr, hf⟩ := hres
  obtain ⟨ls, s2, hp, f2⟩ := Branch2.pushLeaves_succeeds szL a n 0 [] s0 (by rw [hf]; omega)
  refine ⟨{ s2 with vectors := (ptr, { v with elems := ls }) :: s2.vectors },
    by simp only [Branch2, if_neg hn, ht, hr, hp], ?_⟩
  show s2.free a.mngr = _
  rw [f2, hf]
  omega

theorem MakeUnique_Branch2_succeeds (szB szL szU : Nat) (a : ShmAllocator) (n : Nat)
    (s : Shm) (h : branchBytes szB szL szU n ≤ s.free a.mngr) :
    ∃ b s1, MakeUnique (Branch2 szB szL szU) a (Int.ofNat n) s = Except.ok (b, s1) ∧
      s1.free a.mngr = s.free a.mngr - branchBytes szB szL szU n := by
  simp only [branchBytes] at h ⊢
  obtain ⟨s0, h0, f0⟩ := ShmAllocator.allocate_succeeds a.rebind szB 1 s
    (by simp only [ShmAllocator.rebind]; omega)
  have e : a.rebind.mngr = a.mngr := rfl
  rw [e] at f0
  obtain ⟨s2, h2, f2⟩ := Branch2_ctor_succeeds szB szL szU a.rebind.rebind n s.next
    { s0 with events := s0.events ++ [Event.construct s.next] } (by
      show _ ≤ s0.free a.mngr
      rw [f0]
      omega)
  have hsz : (Branch2 szB szL szU).size = szB := rfl
  refine ⟨⟨s.next, ⟨a.rebind⟩⟩, s2, ?_, ?_⟩
  · simp only [MakeUnique, hsz, h0, construct, h2]
  · have f2' : s2.free a.mngr = s0.free a.mngr - (szU * n + leavesBytes szL 0 n) := f2
    rw [f2', f0]
    omega

theorem Root2.ctor_succeeds (szB szL szU : Nat) (a : ShmAllocator) (n1 n2 : Nat) (s : Shm)
    (h : branchBytes szB szL szU n1 + branchBytes szB szL szU n2 ≤ s.free a.mngr) :
    ∃ r s1, Root2.ctor szB szL szU (Int.ofNat n1) (Int.ofNat n2) a s = Except.ok (r, s1) := by
  obtain ⟨b1, s1, h1, f1⟩ := MakeUnique_Branch2_succeeds szB szL szU a n1 s (by omega)
  obtain ⟨b2, s2, h2, _⟩ := MakeUnique_Branch2_succeeds szB szL szU a n2 s1
    (by rw [f1]; omega)
  exact ⟨⟨b1, b2⟩, s2, by simp only [Root2.ctor, h1, h2]⟩

/-! ## The strings of branches and roots -/

theorem Branch2.GetString_eq (ptr : Nat) (s : Shm) (v : AllocVector) (n : Nat)
    (hv : s.vectors.lookup ptr = some v)
    (ht : v.elems.map (fun u => (s.strings.lookup u.ptr).map (fun str => str.text)) =
      (List.range n).map (fun j => some (leafText (Int.ofNat j)))) :
    Branch2.GetString ptr s = some (branchText n) := by
  have h := Branch2.appendLeaves_eq v.elems s []
    ((List.range n).map (fun j => leafText (Int.ofNat j)))
    (by rw [ht, List.map_map]; rfl)
  simp only [Branch2.GetString, hv, h, List.nil_append, List.map_map, branchText]
  rfl

/-- C24: while the segment has room for them, the constructor of `Branch2` with `n ≥ 0`
succeeds and leaves a branch that holds exactly `n` leaf handles, handle `i` for the leaf
whose text was built from index `i`, in ascending order, each handle and each leaf string
over the branch's allocator; `Branch2::GetString` is then, in that order, each leaf's
string followed by `"|"`.  Likewise `Root2(n1, n2)` succeeds and its `GetString` is the
string of a branch of `n1` leaves, then `" - $$ - "`, then the string of a branch of `n2`
leaves. -/
theorem Branch2_Root2_strings (szB szL szU : Nat) (a : ShmAllocator) (n n1 n2 ptr : Nat)
    (s t : Shm) (hszB : 0 < szB)
    (hs : szU * n + leavesBytes szL 0 n ≤ s.free a.mngr)
    (ht : branchBytes szB szL szU n1 + branchBytes szB szL szU n2 ≤ t.free a.mngr) :
    (∃ s1 v, (Branch2 szB szL szU).ctor (Int.ofNat n) a ptr s = Except.ok s1 ∧
      s1.vectors.lookup ptr = some v ∧ v.elems.length = n ∧
      (∀ u ∈ v.elems, u.deleter.allocator = a.rebind ∧
        ∃ str, s1.strings.lookup u.ptr = some str ∧ str.allocator = a.rebind) ∧
      v.elems.map (fun u => (s1.strings.lookup u.ptr).map (fun str => str.text)) =
        (List.range n).map (fun j => some (leafText (Int.ofNat j))) ∧
      Branch2.GetString ptr s1 = some (branchText n)) ∧
    ∃ r t1, Root2.ctor szB szL szU (Int.ofNat n1) (Int.ofNat n2) a t = Except.ok (r, t1) ∧
      Root2.GetString r t1 =
        some (branchText n1 ++ ipc.intro.chars " - $$ - " ++ branchText n2) := by
  refine ⟨?_, ?_⟩
  · obtain ⟨s1, h1, _⟩ := Branch2_ctor_succeeds szB szL szU a n ptr s hs
    obtain ⟨_, _, v, c3, _, _, c4, c5, c6⟩ := Branch2_ctor_ok szB szL szU a n ptr s s1 h1
    have hv : s1.vectors.lookup ptr = some v := by
      rw [c3]
      exact lookup_cons_self _ _ _
    exact ⟨s1, v, h1, hv, c4, fun u hu => ⟨(c5 u hu).2.1, (c5 u hu).2.2⟩, c6,
      Branch2.GetString_eq ptr s1 v n hv c6⟩
  · obtain ⟨r, t2, hr⟩ := Root2.ctor_succeeds szB szL szU a n1 n2 t ht
    refine ⟨r, t2, hr, ?_⟩
    simp only [Root2.ctor] at hr
    split at hr
    · exact absurd hr (by simp)
    · rename_i b1 t1 hb1
      split at hr
      · exact absurd hr (by simp)
      · rename_i b2 t2' hb2
        simp only [Except.ok.injEq, Prod.mk.injEq] at hr
        obtain ⟨e1, e2⟩ := hr
        subst e1 e2
        obtain ⟨p1, _, q1, _, v1, w1, _, x1, y1⟩ :=
          MakeUnique_Branch2_ok szB szL szU a n1 t t1 b1 hb1
        obtain ⟨p2, _, _, k2, v2, w2, _, _, y2⟩ :=
          MakeUnique_Branch2_ok szB szL szU a n2 t1 t2' b2 hb2
        have hv2 : t2'.vectors.lookup b2.ptr = some v2 := by
          rw [w2]
          exact lookup_cons_self _ _ _
        have hv1 : t2'.vectors.lookup b1.ptr = some v1 := by
          rw [w2, lookup_cons_of_lt _ _ _ _ (by omega), w1]
          exact lookup_cons_self _ _ _
        have y1' : v1.elems.map
            (fun u => (t2'.strings.lookup u.ptr).map (fun str => str.text)) =
            (List.range n1).map (fun j => some (leafText (Int.ofNat j))) := by
          rw [← y1]
          apply List.map_congr_left
          intro u hu
          rw [k2 u.ptr (x1 u hu).1]
        simp only [Root2.GetString, Branch2.GetString_eq _ _ v1 n1 hv1 y1',
          Branch2.GetString_eq _ _ v2 n2 hv2 y2]

theorem Branch2_Root2_strings_witness :
    (∃ r t1, Root2.ctor 24 32 16 (Int.ofNat 2) (Int.ofNat 1) ⟨7⟩ (sampleShm 1000) =
        Except.ok (r, t1) ∧
      Root2.GetString r t1 =
        some (branchText 2 ++ ipc.intro.chars " - $$ - " ++ branchText 1)) ∧
      branchText 2 ++ ipc.intro.chars " - $$ - " ++ branchText 1 =
        ipc.intro.chars ("very-long-string-forcing-text-allocate-block-0|" ++
          "very-long-string-forcing-text-allocate-block-1| - $$ - " ++
          "very-long-string-forcing-text-allocate-block-0|") :=
  ⟨(Branch2_Root2_strings 24 32 16 ⟨7⟩ 2 2 1 4096 (sampleShm 1000) (sampleShm 1000)
    (by decide) (by decide) (by decide)).2, by decide⟩

end ipc.experimental

namespace mid

/-! ## Order of the fields and what the constructor leaves alone -/

/-- Without wrap-around of `blobSize_`, each field that the loop reports ends at or before
the start of every later one. -/
theorem PM_FRAME_EVENT_QUERY.ctorLoop_ordered (fd : PmNsmFrameData)
    (qs : List PM_QUERY_ELEMENT) (b : Nat) (hb : b + qs.length * 2 ^ 17 ≤ 2 ^ 64) :
    (PM_FRAME_EVENT_QUERY.ctorLoop fd qs ⟨[], b⟩).2.Pairwise
      (fun x y => x.dataOffset + x.dataSize ≤ y.dataOffset) := by
  induction qs generalizing b with
  | nil => simp [PM_FRAME_EVENT_QUERY.ctorLoop]
  | cons q qs ih =>
    rw [PM_FRAME_EVENT_QUERY.ctorLoop_cons]
    have h1 := MapQueryElementToCopyCommand_size_lt fd q b
    have h2 := MapQueryElementToCopyCommand_padding_lt fd q b
    simp only [List.length_cons] at hb
    have e1 : (b + ((MapQueryElementToCopyCommand_ fd q b).size +
        (MapQueryElementToCopyCommand_ fd q b).padding)) % 2 ^ 64 =
        b + ((MapQueryElementToCopyCommand_ fd q b).size +
          (MapQueryElementToCopyCommand_ fd q b).padding) := Nat.mod_eq_of_lt (by omega)
    have e2 : (b + (MapQueryElementToCopyCommand_ fd q b).padding) % 2 ^ 64 =
        b + (MapQueryElementToCopyCommand_ fd q b).padding := Nat.mod_eq_of_lt (by omega)
    rw [e1, e2]
    simp only [List.pairwise_cons]
    refine ⟨?_, ih _ (by omega)⟩
    intro y hy
    have := ((PM_FRAME_EVENT_QUERY.ctorLoop_ranges fd qs _ (by omega)).2 y hy).1
    omega

theorem MapQueryElementToCopyCommand_padding_lt_size (fd : PmNsmFrameData)
    (q : PM_QUERY_ELEMENT) (pos : Nat)
    (hs : 0 < (MapQueryElementToCopyCommand_ fd q pos).size) :
    (MapQueryElementToCopyCommand_ fd q pos).padding <
      (MapQueryElementToCopyCommand_ fd q pos).size := by
  have h1 : util.GetPadding pos (GetNsmMemberSize_ fd q.metric) <
      GetNsmMemberSize_ fd q.metric := util_GetPadding_lt _ _ hs
  have h2 : util.GetPadding pos (GetNsmMemberSize_ fd q.metric) % 2 ^ 8 ≤
      util.GetPadding pos (GetNsmMemberSize_ fd q.metric) := Nat.mod_le _ _
  exact Nat.lt_of_le_of_lt h2 h1

/-- Every command of the loop's result is the command mapped from some element at some
position. -/
theorem PM_FRAME_EVENT_QUERY.ctorLoop_command_mem (fd : PmNsmFrameData)
    (qs : List PM_QUERY_ELEMENT) (b : Nat) (cmd : CopyCommand_)
    (hc : cmd ∈ (PM_FRAME_EVENT_QUERY.ctorLoop fd qs ⟨[], b⟩).1.copyCommands_) :
    ∃ q pos, cmd = MapQueryElementToCopyCommand_ fd q pos := by
  induction qs generalizing b with
  | nil => simp [PM_FRAME_EVENT_QUERY.ctorLoop] at hc
  | cons q qs ih =>
    rw [PM_FRAME_EVENT_QUERY.ctorLoop_cons] at hc
    simp only [List.mem_cons] at hc
    rcases hc with hc | hc
    · exact ⟨q, b, hc⟩
    · exact ih _ hc

/-- C25: for every element list (of at most `2 ^ 47` elements, so that the `size_t` blob
size does not wrap), the fields written back are in element order and disjoint: for
elements i before j, dataOffset_i + dataSize_i is at most dataOffset_j; and every compiled
command of size s > 0 has a padding smaller than s. -/
theorem PM_FRAME_EVENT_QUERY.fields_ordered (fd : PmNsmFrameData)
    (qs : List PM_QUERY_ELEMENT) (hlen : qs.length ≤ 2 ^ 47) :
    (PM_FRAME_EVENT_QUERY.ctor fd qs).2.Pairwise
        (fun x y => x.dataOffset + x.dataSize ≤ y.dataOffset) ∧
      ∀ cmd ∈ (PM_FRAME_EVENT_QUERY.ctor fd qs).1.copyCommands_,
        0 < cmd.size → cmd.padding < cmd.size := by
  refine ⟨PM_FRAME_EVENT_QUERY.ctorLoop_ordered fd qs 0 (by omega), ?_⟩
  intro cmd hc hs
  obtain ⟨q, pos, rfl⟩ := PM_FRAME_EVENT_QUERY.ctorLoop_command_mem fd qs 0 cmd hc
  exact MapQueryElementToCopyCommand_padding_lt_size fd q pos hs

theorem PM_FRAME_EVENT_QUERY.fields_ordered_witness :
    (PM_FRAME_EVENT_QUERY.ctor exampleLayout repeatedQuery).2.Pairwise
        (fun x y => x.dataOffset + x.dataSize ≤ y.dataOffset) ∧
      ∀ cmd ∈ (PM_FRAME_EVENT_QUERY.ctor exampleLayout repeatedQuery).1.copyCommands_,
        0 < cmd.size → cmd.padding < cmd.size :=
  PM_FRAME_EVENT_QUERY.fields_ordered exampleLayout repeatedQuery (by decide)

/-- C26: for every element whose element size `s = GetNsmMemberSize_(metric)` satisfies
1 ≤ s ≤ 256 and every running blob length `pos`, the padding stored in the command (after
the cast to `uint8_t`) is the padding that `util::GetPadding(pos, s)` returned. -/
theorem MapQueryElementToCopyCommand_padding_exact (fd : PmNsmFrameData)
    (q : PM_QUERY_ELEMENT) (pos : Nat) (h1 : 1 ≤ GetNsmMemberSize_ fd q.metric)
    (h2 : GetNsmMemberSize_ fd q.metric ≤ 256) :
    (MapQueryElementToCopyCommand_ fd q pos).padding =
      util.GetPadding pos (GetNsmMemberSize_ fd q.metric) := by
  have h := util_GetPadding_lt pos (GetNsmMemberSize_ fd q.metric) h1
  exact Nat.mod_eq_of_lt (by omega)

theorem MapQueryElementToCopyCommand_padding_exact_witness :
    (MapQueryElementToCopyCommand_ exampleLayout (element .PM_METRIC_CPU_UTILIZATION 0) 4).padding =
      util.GetPadding 4
        (GetNsmMemberSize_ exampleLayout (element .PM_METRIC_CPU_UTILIZATION 0).metric) :=
  MapQueryElementToCopyCommand_padding_exact exampleLayout
    (element .PM_METRIC_CPU_UTILIZATION 0) 4 (by decide) (by decide)

/-- What the loop leaves of each element: everything but `dataSize` and `dataOffset`. -/
theorem PM_FRAME_EVENT_QUERY.ctorLoop_keeps (fd : PmNsmFrameData)
    (qs : List PM_QUERY_ELEMENT) (b : Nat) :
    (PM_FRAME_EVENT_QUERY.ctorLoop fd qs ⟨[], b⟩).2.map
        (fun q => (q.metric, q.stat, q.deviceId, q.arrayIndex)) =
      qs.map (fun q => (q.metric, q.stat, q.deviceId, q.arrayIndex)) := by
  induction qs generalizing b with
  | nil => simp [PM_FRAME_EVENT_QUERY.ctorLoop]
  | cons q qs ih =>
    rw [PM_FRAME_EVENT_QUERY.ctorLoop_cons]
    simp only [List.map_cons, ih]

/-- C27: for every element list, the elements after the constructor are as many as before
and, in the same order, have the metric, stat, device id and array index they had: the
constructor changes only `dataSize` and `dataOffset`. -/
theorem PM_FRAME_EVENT_QUERY.ctor_changes_only_outputs (fd : PmNsmFrameData)
    (qs : List PM_QUERY_ELEMENT) :
    (PM_FRAME_EVENT_QUERY.ctor fd qs).2.length = qs.length ∧
      (PM_FRAME_EVENT_QUERY.ctor fd qs).2.map
          (fun q => (q.metric, q.stat, q.deviceId, q.arrayIndex)) =
        qs.map (fun q => (q.metric, q.stat, q.deviceId, q.arrayIndex)) ∧
      ∀ (i : Nat) (q : PM_QUERY_ELEMENT), qs[i]? = some q →
        ∃ dataOffset dataSize, (PM_FRAME_EVENT_QUERY.ctor fd qs).2[i]? =
          some { q with dataOffset := dataOffset, dataSize := dataSize } := by
  have hk := PM_FRAME_EVENT_QUERY.ctorLoop_keeps fd qs 0
  refine ⟨?_, hk, ?_⟩
  · have := congrArg List.length hk
    simpa only [List.length_map] using this
  · intro i q hq
    obtain ⟨pos, _, h2⟩ := PM_FRAME_EVENT_QUERY.ctorLoop_at fd qs 0 i q hq
    exact ⟨_, _, h2⟩

theorem PM_FRAME_EVENT_QUERY.ctor_changes_only_outputs_witness :
    (PM_FRAME_EVENT_QUERY.ctor exampleLayout repeatedQueryStale).2.length =
        repeatedQueryStale.length ∧
      (PM_FRAME_EVENT_QUERY.ctor exampleLayout repeatedQueryStale).2.map
          (fun q => (q.metric, q.stat, q.deviceId, q.arrayIndex)) =
        repeatedQueryStale.map (fun q => (q.metric, q.stat, q.deviceId, q.arrayIndex)) :=
  ⟨(PM_FRAME_EVENT_QUERY.ctor_changes_only_outputs exampleLayout repeatedQueryStale).1,
    (PM_FRAME_EVENT_QUERY.ctor_changes_only_outputs exampleLayout repeatedQueryStale).2.1⟩

end mid

namespace pmapi

/-! ## The session token -/

/-- C29: `Session::GetIntrospectionRoot` ends with a `SessionException` exactly when the
session holds no token or the status that `pmGetIntrospectionRoot` answers is not
`PM_STATUS_SUCCESS`; without a token the API is not called, with a token it is called once,
and on success the root returned wraps the pointer that the API stored. -/
theorem Session.GetIntrospectionRoot_throws_iff (api : PresentMonAPI) (self : Session)
    (calls : List ApiCall) :
    ((∃ e, (self.GetIntrospectionRoot api calls).1 = Except.error e) ↔
        (self.token_ = false ∨
          (api.pmGetIntrospectionRoot calls).1 ≠ api.PM_STATUS_SUCCESS)) ∧
      (self.token_ = false → (self.GetIntrospectionRoot api calls).2 = calls) ∧
      (self.token_ = true → (self.GetIntrospectionRoot api calls).2 =
        calls ++ [ApiCall.pmGetIntrospectionRoot]) ∧
      (self.token_ = true → (api.pmGetIntrospectionRoot calls).1 = api.PM_STATUS_SUCCESS →
        (self.GetIntrospectionRoot api calls).1 =
          Except.ok ⟨(api.pmGetIntrospectionRoot calls).2⟩) := by
  cases ht : self.token_
  · simp [Session.GetIntrospectionRoot, ht]
  · by_cases hs : (api.pmGetIntrospectionRoot calls).1 = api.PM_STATUS_SUCCESS
    · simp [Session.GetIntrospectionRoot, ht, hs]
    · simp [Session.GetIntrospectionRoot, ht, hs]

theorem Session.GetIntrospectionRoot_throws_iff_witness :
    (Session.GetIntrospectionRoot sampleApi ⟨true⟩ []).1 = Except.ok ⟨4096⟩ ∧
      (Session.GetIntrospectionRoot sampleApi ⟨false⟩ [ApiCall.pmCloseSession]).2 =
        [ApiCall.pmCloseSession] :=
  ⟨(Session.GetIntrospectionRoot_throws_iff sampleApi ⟨true⟩ []).2.2.2 rfl (by decide),
    (Session.GetIntrospectionRoot_throws_iff sampleApi ⟨false⟩
      [ApiCall.pmCloseSession]).2.1 rfl⟩

theorem Session.dtor_count (self : Session) (calls : List ApiCall) :
    (self.dtor calls).count ApiCall.pmCloseSession =
      calls.count ApiCall.pmCloseSession + (if self.token_ then 1 else 0) := by
  cases ht : self.token_ <;> simp [Session.dtor, ht]

theorem destroyAll_count (sessions : List Session) (calls : List ApiCall) :
    (destroyAll sessions calls).count ApiCall.pmCloseSession =
      calls.count ApiCall.pmCloseSession + sessions.countP (fun s => s.token_) := by
  induction sessions generalizing calls with
  | nil => simp [destroyAll]
  | cons s ss ih =>
    have := ih (s.dtor calls)
    simp only [destroyAll, List.foldl_cons] at this ⊢
    rw [this, Session.dtor_count, List.countP_cons]
    cases s.token_
    · simp
    · simp
      omega

theorem countP_set_moved (sessions : List Session) (i : Nat) (s : Session)
    (hs : sessions[i]? = some s) :
    (sessions.set i (Session.moveCtor s).2).countP (fun s => s.token_) +
        (if s.token_ then 1 else 0) =
      sessions.countP (fun s => s.token_) := by
  induction sessions generalizing i with
  | nil => simp at hs
  | cons x xs ih =>
    cases i with
    | zero =>
      simp only [List.getElem?_cons_zero, Option.some.injEq] at hs
      subst hs
      simp only [List.set_cons_zero, List.countP_cons, Session.moveCtor]
      cases x.token_ <;> simp
    | succ i =>
      simp only [List.getElem?_cons_succ] at hs
      have := ih i hs
      simp only [List.set_cons_succ, List.countP_cons]
      omega

theorem moveConstructFrom_countP (sessions : List Session) (i : Nat) :
    (moveConstructFrom sessions i).countP (fun s => s.token_) =
      sessions.countP (fun s => s.token_) := by
  unfold moveConstructFrom
  split
  · rename_i s hs
    have h1 := countP_set_moved sessions i s hs
    rw [List.countP_append, ← h1]
    cases ht : s.token_ <;> simp [Session.moveCtor, ht]
  · rfl

theorem foldl_moveConstructFrom_countP (moves : List Nat) (sessions : List Session) :
    (moves.foldl moveConstructFrom sessions).countP (fun s => s.token_) =
      sessions.countP (fun s => s.token_) := by
  induction moves generalizing sessions with
  | nil => rfl
  | cons i moves ih =>
    simp only [List.foldl_cons]
    rw [ih, moveConstructFrom_countP]

/-- C30: the destructor calls `pmCloseSession` once when the session holds its token and
not at all otherwise; the move constructor gives the new session the token that the source
held and leaves the source without a token.  Hence, for a session `s` and the sessions
obtained from it by any series of move constructions (each from any session of that
family), destroying all of them, in any order, calls `pmCloseSession` once when `s` held
its token and never otherwise. -/
theorem Session.close_at_most_once (s : Session) (moves : List Nat) (calls : List ApiCall)
    (order : List Session) (ho : order.Perm (moves.foldl moveConstructFrom [s])) :
    (∀ (x : Session) (c : List ApiCall),
        x.dtor c = if x.token_ then c ++ [ApiCall.pmCloseSession] else c) ∧
      (∀ rhs : Session, (Session.moveCtor rhs).1.token_ = rhs.token_ ∧
        (Session.moveCtor rhs).2.token_ = false) ∧
      (destroyAll order calls).count ApiCall.pmCloseSession =
        calls.count ApiCall.pmCloseSession + (if s.token_ then 1 else 0) ∧
      (destroyAll order calls).count ApiCall.pmCloseSession ≤
        calls.count ApiCall.pmCloseSession + 1 := by
  have hc : (destroyAll order calls).count ApiCall.pmCloseSession =
      calls.count ApiCall.pmCloseSession + (if s.token_ then 1 else 0) := by
    rw [destroyAll_count, ho.countP_eq, foldl_moveConstructFrom_countP]
    simp [List.countP_cons]
  refine ⟨fun _ _ => rfl, fun _ => ⟨rfl, rfl⟩, hc, ?_⟩
  rw [hc]
  split <;> omega

theorem Session.close_at_most_once_witness :
    (destroyAll [⟨false⟩, ⟨true⟩, ⟨false⟩, ⟨false⟩] []).count ApiCall.pmCloseSession =
      ([] : List ApiCall).count ApiCall.pmCloseSession +
        (if (⟨true⟩ : Session).token_ then 1 else 0) :=
  (Session.close_at_most_once ⟨true⟩ [0, 1, 0] [] [⟨false⟩, ⟨true⟩, ⟨false⟩, ⟨false⟩]
    (by decide)).2.2.1

end pmapi

namespace pmapi

/-! ## Move assignment of sessions -/

/-- C31: a move assignment between two distinct sessions leaves the destination with the
token value that the source held and the source without a token, leaves every other
session as it was and makes no API call, so `pmCloseSession` is not called for a token that
the destination held before; a move assignment of a session to itself leaves it without a
token, again without an API call. -/
theorem moveAssign_tokens (sessions : List Session) (dst src : Nat) (d r : Session)
    (calls : List ApiCall) (hd : sessions[dst]? = some d) (hr : sessions[src]? = some r) :
    (moveAssign sessions dst src calls).2 = calls ∧
      (moveAssign sessions dst src calls).1.length = sessions.length ∧
      (dst ≠ src →
        (moveAssign sessions dst src calls).1[dst]? = some ⟨r.token_⟩ ∧
          (moveAssign sessions dst src calls).1[src]? = some ⟨false⟩) ∧
      (dst = src → (moveAssign sessions dst src calls).1[dst]? = some ⟨false⟩) ∧
      ∀ k, k ≠ dst → k ≠ src → (moveAssign sessions dst src calls).1[k]? = sessions[k]? := by
  have hdl : dst < sessions.length := by
    by_contra hge
    rw [List.getElem?_eq_none (by omega)] at hd
    exact absurd hd (by simp)
  have hrl : src < sessions.length := by
    by_contra hge
    rw [List.getElem?_eq_none (by omega)] at hr
    exact absurd hr (by simp)
  simp only [moveAssign, hd, hr]
  refine ⟨trivial, by simp, ?_, ?_, ?_⟩
  · intro hne
    refine ⟨?_, ?_⟩
    · rw [List.getElem?_set_ne (Ne.symm hne), List.getElem?_set_self hdl]
    · rw [List.getElem?_set_self (by simpa using hrl)]
  · intro he
    subst he
    rw [List.getElem?_set_self (by simpa using hdl)]
  · intro k h1 h2
    rw [List.getElem?_set_ne (Ne.symm h2), List.getElem?_set_ne (Ne.symm h1)]

theorem moveAssign_tokens_witness :
    ((moveAssign [⟨true⟩, ⟨true⟩] 0 1 []).2 = [] ∧
        (moveAssign [⟨true⟩, ⟨true⟩] 0 1 []).1 = [⟨true⟩, ⟨false⟩] ∧
        destroyAll (moveAssign [⟨true⟩, ⟨true⟩] 0 1 []).1 [] = [ApiCall.pmCloseSession]) ∧
      (moveAssign [⟨true⟩] 0 0 []).1[0]? = some ⟨false⟩ :=
  ⟨⟨(moveAssign_tokens [⟨true⟩, ⟨true⟩] 0 1 ⟨true⟩ ⟨true⟩ [] rfl rfl).1, by decide, by decide⟩,
    (moveAssign_tokens [⟨true⟩] 0 0 ⟨true⟩ ⟨true⟩ [] rfl rfl).2.2.2.1 rfl⟩

end pmapi

namespace Microsoft_Windows_DxgKrnl

/-! ## The event descriptors -/

/-- C32: the header declares seventeen event descriptors; their `Id`s are pairwise distinct,
so two descriptors with the same `Id` are the same descriptor; each has the channel
`Channel::Microsoft_Windows_DxgKrnl_Performance`, which is `0x11`, and as keyword the
bitwise or of `Keyword::Base` and `Keyword::Microsoft_Windows_DxgKrnl_Performance`, which is
`0x4000000000000001`. -/
theorem eventDescriptors_distinct_ids :
    eventDescriptors.length = 17 ∧
      (eventDescriptors.map (fun d => d.Id)).Nodup ∧
      (∀ d1 ∈ eventDescriptors, ∀ d2 ∈ eventDescriptors, d1.Id = d2.Id → d1 = d2) ∧
      ∀ d ∈ eventDescriptors,
        d.Channel = Channel.Microsoft_Windows_DxgKrnl_Performance ∧ d.Channel = 0x11 ∧
          d.Keyword = Keyword.Base ||| Keyword.Microsoft_Windows_DxgKrnl_Performance ∧
          d.Keyword = 0x4000000000000001 := by
  decide

end Microsoft_Windows_DxgKrnl

end pmon
